import Mathlib

/-!
# Buffer manager (`buf.C`): shallow embedding and verified properties

The manager of `buf.C` is a single mutable object (frame table, pool, index,
clock hand).  It is embedded as a record `BufMgr` that every operation takes
and returns.  The persistent file store is an external collaborator: it is a
parameter `FileOps σ` (an arbitrary deterministic store with hidden state
`σ`), and every call the manager issues to it is appended to a trace.

Integers: `pinCnt` and `pageNo` are C++ `int`s and are embedded as `Int`
(signed overflow is undefined in C++, so no wrap-around is modelled); frame
indices, the clock hand and the capacity are `Nat`, the capacity being within
the range of `int`.

`buf.h` and the implementation of the index are not among the sources: the
members `BufDesc::Clear`, `BufDesc::Set`, `BufMgr::advanceClock` and the class
`BufHashTbl` are modelled from the specification and marked as such.
-/

namespace BufferManager

/-! ## Status codes, files, pages -/

/-- Status codes used by `buf.C`; `OTHER` stands for any further code of the
status enumeration that the file store may hand back. -/
inductive Status where
  | OK
  | UNIXERR
  | BUFFEREXCEEDED
  | HASHTBLERROR
  | HASHNOTFOUND
  | PAGENOTPINNED
  | PAGEPINNED
  | BADBUFFER
  | OTHER (code : Nat)
  deriving DecidableEq, Repr

/-- A `File*`: the identity of a file of the store; `NULL` is `0`. -/
abbrev File := Nat

/-- The null file pointer. -/
def NULL : File := 0

/-- The bytes of one page-sized block, read as the number they encode
(`memset(.., 0, ..)` gives `0`). -/
abbrev Page := Nat

/-! ## Frame descriptors -/

/-- The descriptor of one frame (`BufDesc`).  `pinCnt` is an `int`: the
model keeps it as an integer and wraps it where the code does arithmetic that
can leave the range (`pinCnt++` in `readPage`). -/
structure BufDesc where
  file : File
  pageNo : Int
  frameNo : Nat
  pinCnt : Int
  dirty : Bool
  valid : Bool
  refbit : Bool
  deriving DecidableEq, Repr

/-- The value an `int` (32 bits, two's complement) holds after an arithmetic
step whose exact result is `x`: `x` itself inside the range, and `x` modulo
`2^32` outside it (the increment of `2147483647` gives `-2147483648`). -/
def wrapInt (x : Int) : Int := (x + 2147483648) % 4294967296 - 2147483648

/-- The values an `int` can hold. -/
def InRange (x : Int) : Prop := -2147483648 ≤ x ∧ x ≤ 2147483647

instance (x : Int) : Decidable (InRange x) := by
  unfold InRange
  exact inferInstance

/-- A descriptor after `memset(.., 0, ..)`. -/
def BufDesc.zero : BufDesc :=
  { file := NULL, pageNo := 0, frameNo := 0, pinCnt := 0,
    dirty := false, valid := false, refbit := false }

instance : Inhabited BufDesc := ⟨BufDesc.zero⟩

/-- Modelled from the spec: `BufDesc::Clear` (declared in `buf.h`, which is not
among the sources) -- "reset the frame to empty": no owner, sentinel page
number, not valid, not dirty, not referenced, pin count zero. -/
def BufDesc.Clear (d : BufDesc) : BufDesc :=
  { d with pinCnt := 0, file := NULL, pageNo := -1,
           dirty := false, refbit := false, valid := false }

/-- Modelled from the spec: `BufDesc::Set` (declared in `buf.h`, which is not
among the sources) -- "initialize the frame as valid, referenced, pin count 1,
not dirty" for the given file and page. -/
def BufDesc.Set (d : BufDesc) (filePtr : File) (pageNum : Int) : BufDesc :=
  { d with file := filePtr, pageNo := pageNum, pinCnt := 1,
           dirty := false, refbit := true, valid := true }

/-! ## The page-identity index -/

/-- One entry of the index: (file, pageNo) ↦ frameNo. -/
structure HashEntry where
  file : File
  pageNo : Int
  frameNo : Nat
  deriving DecidableEq, Repr

/-- Whether an entry is keyed by `(file, pageNo)`. -/
def HashEntry.hasKey (file : File) (pageNo : Int) (e : HashEntry) : Bool :=
  e.file == file && e.pageNo == pageNo

/-- Modelled from the spec: `BufHashTbl` (its implementation is not among the
sources) -- "a lookup structure mapping (file identity, page number) → frame
index, supporting insert, remove, and lookup".  The buckets are abstracted to
the list of live entries. -/
abbrev BufHashTbl := List HashEntry

/-- Modelled from the spec: `BufHashTbl::lookup` -- the frame of the entry keyed
by `(file, pageNo)`; `none` is the status `HASHNOTFOUND`. -/
def BufHashTbl.lookup (ht : BufHashTbl) (file : File) (pageNo : Int) : Option Nat :=
  (ht.find? (HashEntry.hasKey file pageNo)).map HashEntry.frameNo

/-- Modelled from the spec: `BufHashTbl::insert` -- adds the entry; an entry
with the same key already present is an index error (`none`, table unchanged),
as "each live (file, page) pair maps to at most one frame". -/
def BufHashTbl.insert (ht : BufHashTbl) (file : File) (pageNo : Int) (frameNo : Nat) :
    Option BufHashTbl :=
  if ht.any (HashEntry.hasKey file pageNo) then none
  else some ({ file := file, pageNo := pageNo, frameNo := frameNo } :: ht)

/-- Modelled from the spec: `BufHashTbl::remove` -- deletes the entry keyed by
`(file, pageNo)`; the table is unchanged when there is none (the status, an
index error in that case, is ignored by every caller in `buf.C`). -/
def BufHashTbl.remove (ht : BufHashTbl) (file : File) (pageNo : Int) : BufHashTbl :=
  ht.eraseP (HashEntry.hasKey file pageNo)

/-! ## The file store -/

/-- Modelled from the spec: the `File` class of the file store (not among the
sources) -- "assumed to report success/failure per call": each call answers
with a status (and the data it produces) and moves the store to a new hidden
state.  `readPage` is given the current content of the destination buffer and
answers with the content it leaves there. -/
structure FileOps (σ : Type) where
  readPage : σ → File → Int → Page → Status × Page × σ
  writePage : σ → File → Int → Page → Status × σ
  allocatePage : σ → File → Status × Int × σ
  disposePage : σ → File → Int → Status × σ

/-- A call issued to the file store, with what it was given and its answer. -/
inductive IOEvent where
  | read (file : File) (pageNo : Int) (st : Status) (bytes : Page)
  | write (file : File) (pageNo : Int) (bytes : Page) (st : Status)
  | alloc (file : File) (st : Status) (pageNo : Int)
  | dispose (file : File) (pageNo : Int) (st : Status)
  deriving DecidableEq, Repr

/-- The world outside the manager: the store's state and the trace of the
calls issued so far (most recent last). -/
structure World (σ : Type) where
  store : σ
  trace : List IOEvent

/-- The call `file->readPage(pageNo, buf)`. -/
def World.readPage {σ : Type} (io : FileOps σ) (w : World σ) (file : File) (pageNo : Int)
    (buf : Page) : Status × Page × World σ :=
  let r := io.readPage w.store file pageNo buf
  (r.1, r.2.1, { store := r.2.2, trace := w.trace ++ [IOEvent.read file pageNo r.1 r.2.1] })

/-- The call `file->writePage(pageNo, buf)`. -/
def World.writePage {σ : Type} (io : FileOps σ) (w : World σ) (file : File) (pageNo : Int)
    (buf : Page) : Status × World σ :=
  let r := io.writePage w.store file pageNo buf
  (r.1, { store := r.2, trace := w.trace ++ [IOEvent.write file pageNo buf r.1] })

/-- The call `file->allocatePage(pageNo)`. -/
def World.allocatePage {σ : Type} (io : FileOps σ) (w : World σ) (file : File) :
    Status × Int × World σ :=
  let r := io.allocatePage w.store file
  (r.1, r.2.1, { store := r.2.2, trace := w.trace ++ [IOEvent.alloc file r.1 r.2.1] })

/-- The call `file->disposePage(pageNo)`. -/
def World.disposePage {σ : Type} (io : FileOps σ) (w : World σ) (file : File) (pageNo : Int) :
    Status × World σ :=
  let r := io.disposePage w.store file pageNo
  (r.1, { store := r.2, trace := w.trace ++ [IOEvent.dispose file pageNo r.1] })

/-! ## The manager -/

/-- The state of a `BufMgr` object. -/
structure BufMgr where
  numBufs : Nat
  bufTable : List BufDesc
  bufPool : List Page
  hashTable : BufHashTbl
  clockHand : Nat
  deriving DecidableEq, Repr

/-- The descriptor `bufTable[i]`. -/
def BufMgr.frame (m : BufMgr) (i : Nat) : BufDesc := m.bufTable.getD i BufDesc.zero

/-- The pool slot `bufPool[i]`. -/
def BufMgr.pool (m : BufMgr) (i : Nat) : Page := m.bufPool.getD i 0

/-- Assignment to `bufTable[i]`. -/
def BufMgr.setFrame (m : BufMgr) (i : Nat) (d : BufDesc) : BufMgr :=
  { m with bufTable := m.bufTable.set i d }

/-- Assignment to `bufPool[i]`. -/
def BufMgr.setPool (m : BufMgr) (i : Nat) (p : Page) : BufMgr :=
  { m with bufPool := m.bufPool.set i p }

/-- The call `hashTable->remove(file, pageNo)`, its status dropped. -/
def BufMgr.hashRemove (m : BufMgr) (file : File) (pageNo : Int) : BufMgr :=
  { m with hashTable := m.hashTable.remove file pageNo }

/-- The constructor `BufMgr::BufMgr(bufs)`: every descriptor zeroed with its
`frameNo` set and `valid = false`, a zeroed pool, an empty index, the clock
hand on the last slot.  (For `bufs = 0` the hand is never read.) -/
def BufMgr.init (bufs : Nat) : BufMgr :=
  { numBufs := bufs
    bufTable := (List.range bufs).map (fun i => { BufDesc.zero with frameNo := i, valid := false })
    bufPool := List.replicate bufs 0
    hashTable := []
    clockHand := bufs - 1 }

/-- Modelled from the spec: `BufMgr::advanceClock` (declared in `buf.h`, which
is not among the sources) -- the hand is "advanced circularly by one". -/
def BufMgr.advanceClock (m : BufMgr) : BufMgr :=
  { m with clockHand := (m.clockHand + 1) % m.numBufs }

/-- What `allocBuf` hands back: its status, the out-parameter `frame` (written
only on `OK`; `0` stands for "not written"), the number of frames the sweep
looked at, and the state it leaves. -/
structure AllocOut (σ : Type) where
  status : Status
  frame : Nat
  visits : Nat
  mgr : BufMgr
  world : World σ

/-- The `while` loop of `BufMgr::allocBuf`.  `fuel` is `2 * numBufs - count`,
the number of iterations left; `visits` counts the calls of `advanceClock`. -/
def allocBufLoop {σ : Type} (io : FileOps σ) :
    Nat → Nat → BufMgr → World σ → AllocOut σ
  | 0, visits, m, w =>
      { status := Status.BUFFEREXCEEDED, frame := 0, visits := visits, mgr := m, world := w }
  | fuel + 1, visits, m, w =>
      let m1 := m.advanceClock
      let current_Frame := m1.frame m1.clockHand
      if !current_Frame.valid then
        { status := Status.OK, frame := m1.clockHand, visits := visits + 1, mgr := m1, world := w }
      else if current_Frame.refbit then
        allocBufLoop io fuel (visits + 1)
          (m1.setFrame m1.clockHand { current_Frame with refbit := false }) w
      else if current_Frame.pinCnt == 0 then
        if current_Frame.dirty then
          let r := w.writePage io current_Frame.file current_Frame.pageNo (m1.pool m1.clockHand)
          if r.1 != Status.OK then
            { status := Status.UNIXERR, frame := 0, visits := visits + 1, mgr := m1, world := r.2 }
          else
            let m2 := m1.setFrame m1.clockHand { current_Frame with dirty := false }
            let m3 := m2.hashRemove current_Frame.file current_Frame.pageNo
            { status := Status.OK, frame := m1.clockHand, visits := visits + 1,
              mgr := m3.setFrame m1.clockHand (m3.frame m1.clockHand).Clear, world := r.2 }
        else
          let m3 := m1.hashRemove current_Frame.file current_Frame.pageNo
          { status := Status.OK, frame := m1.clockHand, visits := visits + 1,
            mgr := m3.setFrame m1.clockHand (m3.frame m1.clockHand).Clear, world := w }
      else
        allocBufLoop io fuel (visits + 1) m1 w

/-- `BufMgr::allocBuf`. -/
def allocBuf {σ : Type} (io : FileOps σ) (m : BufMgr) (w : World σ) : AllocOut σ :=
  allocBufLoop io (2 * m.numBufs) 0 m w

/-- What a public operation hands back: its status, the out-parameter `page`
(the pool slot, by frame index; `none` when not written), the out-parameter
`pageNo` of `allocPage`, and the state it leaves. -/
structure Ret (σ : Type) where
  status : Status
  page : Option Nat
  pageNo : Option Int
  mgr : BufMgr
  world : World σ

/-- `BufMgr::readPage`.  (The index lookup answers `OK` or `HASHNOTFOUND`
only, so the final `else` of the source is not reached.)  The `pinCnt++` of the
hit path is unguarded `int` arithmetic and wraps. -/
def readPage {σ : Type} (io : FileOps σ) (m : BufMgr) (w : World σ) (file : File)
    (PageNo : Int) : Ret σ :=
  match m.hashTable.lookup file PageNo with
  | none =>
      let a := allocBuf io m w
      if a.status != Status.OK then
        { status := a.status, page := none, pageNo := none, mgr := a.mgr, world := a.world }
      else
        let frame_number := a.frame
        let r := a.world.readPage io file PageNo (a.mgr.pool frame_number)
        let m1 := a.mgr.setPool frame_number r.2.1
        if r.1 != Status.OK then
          { status := Status.UNIXERR, page := none, pageNo := none, mgr := m1, world := r.2.2 }
        else
          match m1.hashTable.insert file PageNo frame_number with
          | none =>
              { status := Status.HASHTBLERROR, page := none, pageNo := none,
                mgr := m1, world := r.2.2 }
          | some ht =>
              let m2 := { m1 with hashTable := ht }
              { status := Status.OK, page := some frame_number, pageNo := none,
                mgr := m2.setFrame frame_number ((m2.frame frame_number).Set file PageNo),
                world := r.2.2 }
  | some frame_number =>
      let d := m.frame frame_number
      { status := Status.OK, page := some frame_number, pageNo := none,
        mgr := m.setFrame frame_number { d with refbit := true, pinCnt := wrapInt (d.pinCnt + 1) },
        world := w }

/-- `BufMgr::unPinPage`. -/
def unPinPage {σ : Type} (m : BufMgr) (w : World σ) (file : File) (PageNo : Int)
    (dirty : Bool) : Ret σ :=
  match m.hashTable.lookup file PageNo with
  | none =>
      { status := Status.HASHNOTFOUND, page := none, pageNo := none, mgr := m, world := w }
  | some frame_number =>
      let d := m.frame frame_number
      if d.pinCnt ≤ 0 then
        { status := Status.PAGENOTPINNED, page := none, pageNo := none, mgr := m, world := w }
      else
        let d1 := { d with pinCnt := d.pinCnt - 1 }
        let d2 := if dirty then { d1 with dirty := true } else d1
        { status := Status.OK, page := none, pageNo := none,
          mgr := m.setFrame frame_number d2, world := w }

/-- `BufMgr::allocPage`. -/
def allocPage {σ : Type} (io : FileOps σ) (m : BufMgr) (w : World σ) (file : File) : Ret σ :=
  let r := w.allocatePage io file
  if r.1 != Status.OK then
    { status := Status.UNIXERR, page := none, pageNo := some r.2.1, mgr := m, world := r.2.2 }
  else
    let pageNo := r.2.1
    let a := allocBuf io m r.2.2
    if a.status != Status.OK then
      { status := a.status, page := none, pageNo := some pageNo, mgr := a.mgr, world := a.world }
    else
      let frame_number := a.frame
      match a.mgr.hashTable.insert file pageNo frame_number with
      | none =>
          { status := Status.HASHTBLERROR, page := none, pageNo := some pageNo,
            mgr := a.mgr, world := a.world }
      | some ht =>
          let m2 := { a.mgr with hashTable := ht }
          { status := Status.OK, page := some frame_number, pageNo := some pageNo,
            mgr := m2.setFrame frame_number ((m2.frame frame_number).Set file pageNo),
            world := a.world }

/-- `BufMgr::disposePage`. -/
def disposePage {σ : Type} (io : FileOps σ) (m : BufMgr) (w : World σ) (file : File)
    (pageNo : Int) : Ret σ :=
  let m1 :=
    match m.hashTable.lookup file pageNo with
    | some frameNo => m.setFrame frameNo (m.frame frameNo).Clear
    | none => m
  let m2 := m1.hashRemove file pageNo
  let r := w.disposePage io file pageNo
  { status := r.1, page := none, pageNo := none, mgr := m2, world := r.2 }

/-- The `for` loop of `BufMgr::flushFile`, over the frame indices still to be
looked at. -/
def flushFileLoop {σ : Type} (io : FileOps σ) (file : File) :
    List Nat → BufMgr → World σ → Ret σ
  | [], m, w => { status := Status.OK, page := none, pageNo := none, mgr := m, world := w }
  | i :: rest, m, w =>
      let tmpbuf := m.frame i
      if tmpbuf.valid == true && tmpbuf.file == file then
        if tmpbuf.pinCnt > 0 then
          { status := Status.PAGEPINNED, page := none, pageNo := none, mgr := m, world := w }
        else if tmpbuf.dirty == true then
          let r := w.writePage io tmpbuf.file tmpbuf.pageNo (m.pool i)
          if r.1 != Status.OK then
            { status := r.1, page := none, pageNo := none, mgr := m, world := r.2 }
          else
            let m1 := (m.setFrame i { tmpbuf with dirty := false }).hashRemove file tmpbuf.pageNo
            flushFileLoop io file rest
              (m1.setFrame i { m1.frame i with file := NULL, pageNo := -1, valid := false }) r.2
        else
          let m1 := m.hashRemove file tmpbuf.pageNo
          flushFileLoop io file rest
            (m1.setFrame i { m1.frame i with file := NULL, pageNo := -1, valid := false }) w
      else if tmpbuf.valid == false && tmpbuf.file == file then
        { status := Status.BADBUFFER, page := none, pageNo := none, mgr := m, world := w }
      else
        flushFileLoop io file rest m w

/-- `BufMgr::flushFile`. -/
def flushFile {σ : Type} (io : FileOps σ) (m : BufMgr) (w : World σ) (file : File) : Ret σ :=
  flushFileLoop io file (List.range m.numBufs) m w

/-! ## Sequences of public operations -/

/-- A call of one of the public operations. -/
inductive Op where
  | readPage (file : File) (PageNo : Int)
  | unPinPage (file : File) (PageNo : Int) (dirty : Bool)
  | allocPage (file : File)
  | disposePage (file : File) (pageNo : Int)
  | flushFile (file : File)
  deriving DecidableEq, Repr

/-- Performing one call. -/
def step {σ : Type} (io : FileOps σ) (op : Op) (m : BufMgr) (w : World σ) : Ret σ :=
  match op with
  | Op.readPage file PageNo => readPage io m w file PageNo
  | Op.unPinPage file PageNo dirty => unPinPage m w file PageNo dirty
  | Op.allocPage file => allocPage io m w file
  | Op.disposePage file pageNo => disposePage io m w file pageNo
  | Op.flushFile file => flushFile io m w file

/-- The states reachable from a freshly constructed manager (any capacity, any
file store in any state) by a sequence of public calls. -/
inductive Reachable {σ : Type} (io : FileOps σ) : BufMgr → World σ → Prop where
  | init (bufs : Nat) (w : World σ) : Reachable io (BufMgr.init bufs) w
  | step (op : Op) {m : BufMgr} {w : World σ} (h : Reachable io m w) :
      Reachable io (step io op m w).mgr (step io op m w).world

/-- What a caller sees of one call: the call, its status and the page number
handed back (by `allocPage`). -/
structure Outcome where
  op : Op
  status : Status
  pageNo : Option Int
  deriving DecidableEq, Repr

/-- A manager together with its world and the log of the calls made so far. -/
structure Config (σ : Type) where
  mgr : BufMgr
  world : World σ
  log : List Outcome

/-- A freshly constructed manager of capacity `bufs`, nothing called yet. -/
def start {σ : Type} (bufs : Nat) (w : World σ) : Config σ :=
  { mgr := BufMgr.init bufs, world := w, log := [] }

/-- Performing one call and logging its outcome. -/
def exec {σ : Type} (io : FileOps σ) (c : Config σ) (op : Op) : Config σ :=
  let r := step io op c.mgr c.world
  { mgr := r.mgr, world := r.world,
    log := c.log ++ [{ op := op, status := r.status, pageNo := r.pageNo }] }

/-- Performing a sequence of calls, first to last. -/
def run {σ : Type} (io : FileOps σ) (ops : List Op) (c : Config σ) : Config σ :=
  ops.foldl (exec io) c

/-- A file store for the worked examples: its state is the number of pages
allocated so far, every call succeeds, `allocatePage` hands out `0, 1, 2, ..`
and a read delivers the bytes `1000 * file + pageNo`. -/
def plainStore : FileOps Nat :=
  { readPage := fun s file pageNo _ => (Status.OK, 1000 * file + pageNo.toNat, s)
    writePage := fun s _ _ _ => (Status.OK, s)
    allocatePage := fun s _ => (Status.OK, (s : Int), s + 1)
    disposePage := fun s _ _ => (Status.OK, s) }

/-- The world of the worked examples before any call. -/
def plainWorld : World Nat := { store := 0, trace := [] }

/-- Worked example: capacity 2, pages `(1,10)` and `(1,20)` fetched, the first
released as dirty. -/
def twoPagesOneReleased : Config Nat :=
  run plainStore [Op.readPage 1 10, Op.readPage 1 20, Op.unPinPage 1 10 true] (start 2 plainWorld)

/-- Whether the logged call is a successful fetch or allocation of page
`(f,p)`: a `readPage(f,p)` that returned `OK`, or an `allocPage(f)` that
returned `OK` with page number `p`. -/
def Outcome.acquired (f : File) (p : Int) (o : Outcome) : Bool :=
  o.status == Status.OK &&
    (match o.op with
     | Op.readPage g q => g == f && q == p
     | Op.allocPage g => g == f && o.pageNo == some p
     | _ => false)

/-- Whether the logged call is an `unPinPage(f,p,_)` that returned `OK`. -/
def Outcome.released (f : File) (p : Int) (o : Outcome) : Bool :=
  o.status == Status.OK &&
    (match o.op with
     | Op.unPinPage g q _ => g == f && q == p
     | _ => false)

/-- The pin count under which page `(f,p)` is cached; `0` when it is not. -/
def pinOf (m : BufMgr) (f : File) (p : Int) : Int :=
  match m.hashTable.lookup f p with
  | some i => (m.frame i).pinCnt
  | none => 0

/-- The bookkeeping behind pin symmetry: for every page, the releases logged
so far, alone and together with the pins the page holds now, do not exceed the
acquisitions logged. -/
def PinBound {σ : Type} (c : Config σ) : Prop :=
  ∀ f p, pinOf c.mgr f p + (c.log.countP (Outcome.released f p) : Int)
      ≤ (c.log.countP (Outcome.acquired f p) : Int) ∧
    c.log.countP (Outcome.released f p) ≤ c.log.countP (Outcome.acquired f p)

/-! ## Invariants -/

/-- No two entries of the index have the same key. -/
def KeysDistinct (ht : BufHashTbl) : Prop :=
  ht.Pairwise (fun a b => ¬ (a.file = b.file ∧ a.pageNo = b.pageNo))

/-- The consistency of a manager state: the arrays have the capacity as their
length, the index has one entry per key, every entry points at a valid frame
holding its key, every valid frame has its entry, pin counts are values of an
`int` and an empty frame is clean, unowned and has no positive pin count. -/
structure WF (m : BufMgr) : Prop where
  lenTable : m.bufTable.length = m.numBufs
  lenPool : m.bufPool.length = m.numBufs
  keys : KeysDistinct m.hashTable
  entry : ∀ e ∈ m.hashTable, e.frameNo < m.numBufs ∧ (m.frame e.frameNo).valid = true ∧
    (m.frame e.frameNo).file = e.file ∧ (m.frame e.frameNo).pageNo = e.pageNo
  cached : ∀ i, i < m.numBufs → (m.frame i).valid = true →
    ({ file := (m.frame i).file, pageNo := (m.frame i).pageNo, frameNo := i } : HashEntry)
      ∈ m.hashTable
  pin : ∀ i, i < m.numBufs → InRange (m.frame i).pinCnt
  empty : ∀ i, i < m.numBufs → (m.frame i).valid = false →
    (m.frame i).pinCnt ≤ 0 ∧ (m.frame i).dirty = false ∧ (m.frame i).file = NULL

/-- The descriptor `e` is `d` up to the reference bit. -/
def SameButRef (d e : BufDesc) : Prop :=
  e.file = d.file ∧ e.pageNo = d.pageNo ∧ e.frameNo = d.frameNo ∧ e.pinCnt = d.pinCnt ∧
    e.dirty = d.dirty ∧ e.valid = d.valid

/-- What a run of the sweep started in `m`, `w` guarantees about its outcome. -/
structure AllocSpec {σ : Type} (m : BufMgr) (w : World σ) (out : AllocOut σ) : Prop where
  wf : WF out.mgr
  numBufs : out.mgr.numBufs = m.numBufs
  pool : out.mgr.bufPool = m.bufPool
  grows : w.trace <+: out.world.trace
  status :
    out.status = Status.OK ∨ out.status = Status.UNIXERR ∨ out.status = Status.BUFFEREXCEEDED
  others : ∀ j, (out.status = Status.OK → j ≠ out.frame) → SameButRef (m.frame j) (out.mgr.frame j)
  sel : out.status = Status.OK →
    out.frame < m.numBufs ∧ (out.mgr.frame out.frame).valid = false ∧
      ((m.frame out.frame).pinCnt ≤ 0 ∧
        ((m.frame out.frame).valid = true → (m.frame out.frame).pinCnt = 0)) ∧
      ((m.frame out.frame).valid = true → (m.frame out.frame).dirty = true →
        out.world.trace = w.trace ++ [IOEvent.write (m.frame out.frame).file
          (m.frame out.frame).pageNo (m.pool out.frame) Status.OK])

/-- During the step from `w` to `v` the call `ev` was issued. -/
def Issued {σ : Type} (w v : World σ) (ev : IOEvent) : Prop :=
  ∃ evs, v.trace = w.trace ++ evs ∧ ev ∈ evs

/-- What a run of the flush loop for `file` started in `m`, `w` guarantees. -/
structure FlushSpec {σ : Type} (file : File) (m : BufMgr) (w : World σ) (out : Ret σ) : Prop where
  wf : WF out.mgr
  numBufs : out.mgr.numBufs = m.numBufs
  pool : out.mgr.bufPool = m.bufPool
  grows : w.trace <+: out.world.trace
  frames : ∀ j, out.mgr.frame j = m.frame j ∨
    ((m.frame j).valid = true ∧ (m.frame j).file = file ∧ (m.frame j).pinCnt ≤ 0 ∧
      (out.mgr.frame j).valid = false ∧
      ((m.frame j).dirty = true → Issued w out.world
        (IOEvent.write (m.frame j).file (m.frame j).pageNo (m.pool j) Status.OK)))

/-- What a sweep of `fuel` steps that finds nothing tells about the state `m` it
started in: each frame it looked at is valid, is pinned unless its reference
bit was set, and is pinned in any case once the sweep has come round to it a
second time. -/
def SweptPinned (m : BufMgr) (fuel : Nat) : Prop :=
  ∀ k, k < fuel →
    (m.frame ((m.clockHand + 1 + k) % m.numBufs)).valid = true ∧
    ((m.frame ((m.clockHand + 1 + k) % m.numBufs)).refbit = false →
      (m.frame ((m.clockHand + 1 + k) % m.numBufs)).pinCnt ≠ 0) ∧
    (m.numBufs ≤ k → (m.frame ((m.clockHand + 1 + k) % m.numBufs)).pinCnt ≠ 0)

/-- Worked example: capacity 2, pages `(1,10)` and `(1,20)` fetched and held. -/
def twoPagesHeld : Config Nat :=
  run plainStore [Op.readPage 1 10, Op.readPage 1 20] (start 2 plainWorld)

/-- Worked example: capacity 1, page `(1,10)` fetched and released, then page
`(1,20)` fetched, which evicts `(1,10)`. -/
def releasedThenEvicted : Config Nat :=
  run plainStore [Op.readPage 1 10, Op.unPinPage 1 10 false, Op.readPage 1 20]
    (start 1 plainWorld)

/-- Worked example: capacity 2, page `(1,10)` fetched and released. -/
def fetchedAndReleased : Config Nat :=
  run plainStore [Op.readPage 1 10, Op.unPinPage 1 10 false] (start 2 plainWorld)

/-- The calls `readPage(F, pg 0)`, ..., `readPage(F, pg (k-1))`. -/
def fetchOps (F : File) (pg : Nat → Int) (k : Nat) : List Op :=
  (List.range k).map (fun i => Op.readPage F (pg i))

/-- A fresh manager of capacity `N` after the first `k` of these fetches. -/
def fetched {σ : Type} (io : FileOps σ) (F : File) (pg : Nat → Int) (N k : Nat)
    (w : World σ) : Config σ :=
  run io (fetchOps F pg k) (start N w)

/-- The fetch of one more page, `pg N`, once `pg 0 .. pg (N-1)` fill the pool. -/
def overflow {σ : Type} (io : FileOps σ) (F : File) (pg : Nat → Int) (N : Nat)
    (w : World σ) : Ret σ :=
  readPage io (fetched io F pg N N w).mgr (fetched io F pg N N w).world F (pg N)

/-- After the failed fetch, the release of page `pg j` with the dirty flag off. -/
def releaseOne {σ : Type} (io : FileOps σ) (F : File) (pg : Nat → Int) (N : Nat)
    (w : World σ) (j : Nat) : Ret σ :=
  unPinPage (overflow io F pg N w).mgr (overflow io F pg N w).world F (pg j) false

/-- After that release, the fetch of `pg N` again. -/
def refetch {σ : Type} (io : FileOps σ) (F : File) (pg : Nat → Int) (N : Nat)
    (w : World σ) (j : Nat) : Ret σ :=
  readPage io (releaseOne io F pg N w j).mgr (releaseOne io F pg N w j).world F (pg N)

/-- Frame `i` of `m` caches page `(F,p)`, clean, under `pins` pins. -/
def Holds (m : BufMgr) (F : File) (p : Int) (i : Nat) (pins : Int) : Prop :=
  (m.frame i).valid = true ∧ (m.frame i).file = F ∧ (m.frame i).pageNo = p ∧
    (m.frame i).pinCnt = pins ∧ (m.frame i).dirty = false

/-- The state of a manager of capacity `N` after the first `k` fetches: the
hand stands on the frame filled last, frames `0 .. k-1` hold the pages fetched,
each under one pin, the others are empty, and all `k` calls returned `OK`. -/
structure FillInv {σ : Type} (F : File) (pg : Nat → Int) (N k : Nat) (c : Config σ) : Prop where
  wf : WF c.mgr
  numBufs : c.mgr.numBufs = N
  hand : (c.mgr.clockHand + 1) % N = k % N
  held : ∀ i, i < k → Holds c.mgr F (pg i) i 1
  free : ∀ i, k ≤ i → i < N → (c.mgr.frame i).valid = false
  logLen : c.log.length = k
  logOK : ∀ o ∈ c.log, o.status = Status.OK

/-- The pages of the spec's scenario: `1, 2, 3, 4, ..` (page `k + 1` at
position `k`). -/
def specPages : Nat → Int := fun k => (k : Int) + 1

/-- The bucket count the constructor passes to the index (`htsize`,
`src/buf.C` line 37): `((((int) (bufs * 1.2)) * 2) / 2) + 1`.  The truncated
product `(int) (bufs * 1.2)` is `⌊6 * bufs / 5⌋`; the rest is `int` arithmetic. -/
def htsize (bufs : Nat) : Nat := (((6 * bufs / 5) * 2) / 2) + 1

/-- A file store for the worked examples whose `writePage` always fails with
`UNIXERR`; the other calls are those of `plainStore`. -/
def failingWrites : FileOps Nat :=
  { plainStore with writePage := fun s _ _ _ => (Status.UNIXERR, s) }

/-- The loop of the destructor `BufMgr::~BufMgr`, over the frame indices still
to be looked at: a frame that is valid and dirty is written, the status of the
write is dropped. -/
def dtorLoop {σ : Type} (io : FileOps σ) : List Nat → BufMgr → World σ → World σ
  | [], _, w => w
  | i :: rest, m, w =>
      let tmpbuf := m.frame i
      if tmpbuf.valid == true && tmpbuf.dirty == true then
        dtorLoop io rest m (w.writePage io tmpbuf.file tmpbuf.pageNo (m.pool i)).2
      else
        dtorLoop io rest m w

/-- The destructor `BufMgr::~BufMgr`, as far as the file store sees it (the
storage it releases afterwards is not modelled). -/
def destructor {σ : Type} (io : FileOps σ) (m : BufMgr) (w : World σ) : World σ :=
  dtorLoop io (List.range m.numBufs) m w

/-- What a call asked the file store to write, when it is a `writePage`. -/
def IOEvent.asWrite : IOEvent → Option (File × Int × Page)
  | IOEvent.write file pageNo bytes _ => some (file, pageNo, bytes)
  | _ => none

/-- The write the destructor owes for frame `i`. -/
def dtorWrite (m : BufMgr) (i : Nat) : Option (File × Int × Page) :=
  some ((m.frame i).file, (m.frame i).pageNo, m.pool i)

/-- Whether the destructor writes frame `i`: it is valid and dirty. -/
def needsWrite (m : BufMgr) (i : Nat) : Bool :=
  (m.frame i).valid && (m.frame i).dirty

/-- Worked example: capacity 3 over `failingWrites`; frame 0 holds `(1,10)`,
dirty and released; frame 1 holds `(1,20)`, dirty and still pinned once; frame
2 holds `(1,30)`, clean and pinned. -/
def threeFramesTwoDirty : Config Nat :=
  run failingWrites
    [Op.readPage 1 10, Op.readPage 1 20, Op.readPage 1 20, Op.readPage 1 30,
      Op.unPinPage 1 10 true, Op.unPinPage 1 20 true] (start 3 plainWorld)

/-- Clearing the reference bit. -/
def BufDesc.unref (d : BufDesc) : BufDesc := { d with refbit := false }

/-- What an I/O error of the sweep started in `m`, `w` tells: the hand rests on
a valid, unpinned, dirty frame whose write failed, and nothing but reference
bits has changed; the world is the one that failed call of the file's
`writePage` left. -/
structure AllocFail {σ : Type} (io : FileOps σ) (m : BufMgr) (w : World σ)
    (out : AllocOut σ) : Prop where
  hand : out.mgr.clockHand < m.numBufs
  valid : (m.frame out.mgr.clockHand).valid = true
  pin : (m.frame out.mgr.clockHand).pinCnt = 0
  dirty : (m.frame out.mgr.clockHand).dirty = true
  frames : ∀ j, (out.mgr.frame j).unref = (m.frame j).unref
  victim : out.mgr.frame out.mgr.clockHand = (m.frame out.mgr.clockHand).unref
  index : out.mgr.hashTable = m.hashTable
  pool : out.mgr.bufPool = m.bufPool
  numBufs : out.mgr.numBufs = m.numBufs
  failed : (io.writePage w.store (m.frame out.mgr.clockHand).file
      (m.frame out.mgr.clockHand).pageNo (m.pool out.mgr.clockHand)).1 ≠ Status.OK ∧
    out.world = (w.writePage io (m.frame out.mgr.clockHand).file
      (m.frame out.mgr.clockHand).pageNo (m.pool out.mgr.clockHand)).2

/-- What a sweep started in `m`, `w` that ends with `OK` did to the world: if
the frame it selected was valid and dirty, the world is the one the file's
`writePage` of that frame left, and that call answered `OK` -- that one call
and no other --; otherwise the world is untouched. -/
structure AllocWrote {σ : Type} (io : FileOps σ) (m : BufMgr) (w : World σ)
    (out : AllocOut σ) : Prop where
  wrote : (m.frame out.frame).valid = true ∧ (m.frame out.frame).dirty = true →
    (io.writePage w.store (m.frame out.frame).file (m.frame out.frame).pageNo
      (m.pool out.frame)).1 = Status.OK ∧
    out.world = (w.writePage io (m.frame out.frame).file (m.frame out.frame).pageNo
      (m.pool out.frame)).2
  quiet : ¬ ((m.frame out.frame).valid = true ∧ (m.frame out.frame).dirty = true) →
    out.world = w

/-- Worked example: capacity 1 over `failingWrites`, page `(1,10)` fetched and
released as dirty; its reference bit is still set. -/
def oneDirtyReferenced : Config Nat :=
  run failingWrites [Op.readPage 1 10, Op.unPinPage 1 10 true] (start 1 plainWorld)

/-- Worked example: capacity 2 over `failingWrites`; `(1,10)` and `(1,20)` are
fetched, a fetch of `(1,30)` fails for want of a frame (and clears the reference
bits), then `(1,10)` is released as dirty. -/
def pinnedAndDirty : Config Nat :=
  run failingWrites
    [Op.readPage 1 10, Op.readPage 1 20, Op.readPage 1 30, Op.unPinPage 1 10 true]
    (start 2 plainWorld)

/-- Worked example: in `pinnedAndDirty` the cached, pinned page `(1,20)` is
disposed. -/
def disposedCached : Ret Nat :=
  disposePage failingWrites pinnedAndDirty.mgr pinnedAndDirty.world 1 20

/-- Worked example: right after `disposedCached`, page `(1,20)` is fetched. -/
def fetchedAfterDispose : Ret Nat :=
  readPage failingWrites disposedCached.mgr disposedCached.world 1 20

/-- Worked example: capacity 2, page `(1,0)` fetched and still pinned; the file
store has handed out no page yet, so its next `allocatePage` delivers page
number `0`. -/
def pageZeroHeld : Config Nat :=
  run plainStore [Op.readPage 1 0] (start 2 plainWorld)

/-- Worked example: capacity 1, page `(1,10)` fetched and still pinned. -/
def onePageHeld : Config Nat :=
  run plainStore [Op.readPage 1 10] (start 1 plainWorld)

/-- The descriptor the flush loop leaves in a frame it has dropped. -/
def BufDesc.dropped (d : BufDesc) : BufDesc :=
  { d with dirty := false, file := NULL, pageNo := -1, valid := false }

/-- Whether the frame holds a page of `file`: it is valid and owned by it. -/
def BufDesc.ownedBy (d : BufDesc) (file : File) : Bool :=
  d.valid == true && d.file == file

/-- Whether a flush of `file` writes frame `i` back: the frame holds a page of
the file and is dirty. -/
def flushes (file : File) (m : BufMgr) (i : Nat) : Bool :=
  (m.frame i).ownedBy file && (m.frame i).dirty

/-- The call `writePage` of frame `i`: its page number and pool bytes, to its
owning file, answered with `st`. -/
def writeOf (m : BufMgr) (i : Nat) (st : Status) : IOEvent :=
  IOEvent.write (m.frame i).file (m.frame i).pageNo (m.pool i) st

/-- The successful writes a flush of `file` owes for the frames `is`, in order:
one for each dirty frame of the file. -/
def flushWrites (file : File) (m : BufMgr) (is : List Nat) : List IOEvent :=
  (is.filter (flushes file m)).map (fun i => writeOf m i Status.OK)

/-- The store after the writes a flush of `file` owes for the frames `is`, made
in order from the store `s`: the file's `writePage` is called for each dirty
frame of the file, on the store the call before it left. -/
def flushStore {σ : Type} (io : FileOps σ) (file : File) (m : BufMgr) (is : List Nat)
    (s : σ) : σ :=
  (is.filter (flushes file m)).foldl
    (fun t i => (io.writePage t (m.frame i).file (m.frame i).pageNo (m.pool i)).2) s

/-- How the flush loop for `file` came to its end with status `st`, with the
frames `rest` not dealt with, having issued the calls `tail` at the frame it
stopped at and turned the store `s` it had reached into `u`: it ran out of
frames; or it stopped at a pinned frame of the file, at an invalid frame that
names the file, or at a dirty frame of the file whose write failed, the status
being the store's answer and `u` the store that call left. -/
def FlushStop {σ : Type} (io : FileOps σ) (file : File) (m : BufMgr) (rest : List Nat)
    (tail : List IOEvent) (st : Status) (s u : σ) : Prop :=
  (st = Status.OK ∧ rest = [] ∧ tail = [] ∧ u = s) ∨
  ∃ i rest2, rest = i :: rest2 ∧
    ((st = Status.PAGEPINNED ∧ tail = [] ∧ (m.frame i).ownedBy file = true ∧
        0 < (m.frame i).pinCnt ∧ u = s) ∨
      (st = Status.BADBUFFER ∧ tail = [] ∧ (m.frame i).valid = false ∧
        (m.frame i).file = file ∧ u = s) ∨
      (st ≠ Status.OK ∧ tail = [writeOf m i st] ∧ (m.frame i).ownedBy file = true ∧
        (m.frame i).pinCnt ≤ 0 ∧ (m.frame i).dirty = true ∧
        st = (io.writePage s (m.frame i).file (m.frame i).pageNo (m.pool i)).1 ∧
        u = (io.writePage s (m.frame i).file (m.frame i).pageNo (m.pool i)).2))

/-- A run of the flush loop for `file` over the frames `is`, started in `m`,
`w`: it dealt with the frames `pre`, dropping those of the file after writing
the dirty ones and leaving the others alone, and came to its end before the
frames `rest`. -/
structure FlushRun {σ : Type} (io : FileOps σ) (file : File) (m : BufMgr) (w : World σ)
    (is pre rest : List Nat) (tail : List IOEvent) (out : Ret σ) : Prop where
  split : is = pre ++ rest
  passed : ∀ i ∈ pre, ((m.frame i).ownedBy file = true → (m.frame i).pinCnt ≤ 0) ∧
    ¬ ((m.frame i).valid = false ∧ (m.frame i).file = file)
  dropped : ∀ j ∈ pre, (m.frame j).ownedBy file = true → out.mgr.frame j = (m.frame j).dropped
  kept : ∀ j, ¬ (j ∈ pre ∧ (m.frame j).ownedBy file = true) → out.mgr.frame j = m.frame j
  pool : out.mgr.bufPool = m.bufPool
  trace : out.world.trace = w.trace ++ flushWrites file m pre ++ tail
  stop : FlushStop io file m rest tail out.status (flushStore io file m pre w.store)
    out.world.store

/-- Worked example: capacity 3; frame 0 holds `(1,10)`, dirty and released,
frame 1 holds `(1,20)`, clean and released, frame 2 holds `(2,30)`, pinned. -/
def twoFilesCached : Config Nat :=
  run plainStore
    [Op.readPage 1 10, Op.readPage 1 20, Op.readPage 2 30, Op.unPinPage 1 10 true,
      Op.unPinPage 1 20 false] (start 3 plainWorld)

/-- Worked example: capacity 3; frames 0 and 2 hold `(1,10)` and `(1,30)`, dirty
and released, frame 1 holds `(1,20)`, dirty and still pinned. -/
def dirtyAroundPinned : Config Nat :=
  run plainStore
    [Op.readPage 1 10, Op.readPage 1 20, Op.readPage 1 30, Op.unPinPage 1 10 true,
      Op.readPage 1 20, Op.unPinPage 1 20 true, Op.unPinPage 1 30 true] (start 3 plainWorld)

/-- A file store for the worked examples that keeps what it was given to
write: its state is the list of the writes it has accepted, oldest first; every
call succeeds and a read delivers the bytes `1000 * file + pageNo`. -/
def recordingStore : FileOps (List (File × Int × Page)) :=
  { readPage := fun s file pageNo _ => (Status.OK, 1000 * file + pageNo.toNat, s)
    writePage := fun s file pageNo bytes => (Status.OK, s ++ [(file, pageNo, bytes)])
    allocatePage := fun s _ => (Status.OK, 0, s)
    disposePage := fun s _ _ => (Status.OK, s) }

/-- The world over `recordingStore` before any call. -/
def blankRecord : World (List (File × Int × Page)) := { store := [], trace := [] }

/-- Worked example over `recordingStore`: capacity 2, pages `(1,10)` and
`(1,20)` fetched, the first released as dirty. -/
def recordedOneReleased : Config (List (File × Int × Page)) :=
  run recordingStore [Op.readPage 1 10, Op.readPage 1 20, Op.unPinPage 1 10 true]
    (start 2 blankRecord)

/-- Worked example over `recordingStore`: capacity 3; frame 0 holds `(1,10)`,
dirty and released; frame 1 holds `(1,20)`, dirty and still pinned once; frame
2 holds `(1,30)`, clean and pinned. -/
def recordedTwoDirty : Config (List (File × Int × Page)) :=
  run recordingStore
    [Op.readPage 1 10, Op.readPage 1 20, Op.readPage 1 20, Op.readPage 1 30,
      Op.unPinPage 1 10 true, Op.unPinPage 1 20 true] (start 3 blankRecord)

/-- The state of a manager of capacity 1 whose one frame caches page `(1,10)`
of the worked examples, clean and referenced, under `c` pins. -/
def heldUnder (c : Int) : BufMgr :=
  { numBufs := 1
    bufTable := [{ file := 1, pageNo := 10, frameNo := 0, pinCnt := c,
                   dirty := false, valid := true, refbit := true }]
    bufPool := [1010]
    hashTable := [{ file := 1, pageNo := 10, frameNo := 0 }]
    clockHand := 0 }

/-- Worked example: capacity 1, page `(1,10)` fetched `n` times and never
released. -/
def fetchedTimes (n : Nat) : Config Nat :=
  run plainStore (List.replicate n (Op.readPage 1 10)) (start 1 plainWorld)

/-- Worked example: capacity 1, page `(1,10)` fetched `2147483647` times and
never released: its `pinCnt` is the largest `int`. -/
def pinAtMax : Config Nat := fetchedTimes 2147483647

/-- Worked example: capacity 1, page `(1,10)` fetched `2147483648` times and
never released: its `pinCnt` has wrapped. -/
def pinWrapped : Config Nat := fetchedTimes 2147483648

@[simp] theorem numBufs_setFrame (m : BufMgr) (i : Nat) (d : BufDesc) :
    (m.setFrame i d).numBufs = m.numBufs := rfl

@[simp] theorem hashTable_setFrame (m : BufMgr) (i : Nat) (d : BufDesc) :
    (m.setFrame i d).hashTable = m.hashTable := rfl

@[simp] theorem bufPool_setFrame (m : BufMgr) (i : Nat) (d : BufDesc) :
    (m.setFrame i d).bufPool = m.bufPool := rfl

@[simp] theorem clockHand_setFrame (m : BufMgr) (i : Nat) (d : BufDesc) :
    (m.setFrame i d).clockHand = m.clockHand := rfl

@[simp] theorem pool_setFrame (m : BufMgr) (i j : Nat) (d : BufDesc) :
    (m.setFrame i d).pool j = m.pool j := rfl

@[simp] theorem length_setFrame (m : BufMgr) (i : Nat) (d : BufDesc) :
    (m.setFrame i d).bufTable.length = m.bufTable.length := by
  simp [BufMgr.setFrame]

theorem frame_setFrame_self (m : BufMgr) {i : Nat} (d : BufDesc) (h : i < m.bufTable.length) :
    (m.setFrame i d).frame i = d := by
  simp [BufMgr.setFrame, BufMgr.frame, List.getD_eq_getElem?_getD, List.getElem?_set, h]

theorem frame_setFrame_ne (m : BufMgr) {i j : Nat} (d : BufDesc) (h : i ≠ j) :
    (m.setFrame i d).frame j = m.frame j := by
  simp [BufMgr.setFrame, BufMgr.frame, List.getD_eq_getElem?_getD, List.getElem?_set, h]

@[simp] theorem numBufs_hashRemove (m : BufMgr) (f : File) (p : Int) :
    (m.hashRemove f p).numBufs = m.numBufs := rfl

@[simp] theorem bufTable_hashRemove (m : BufMgr) (f : File) (p : Int) :
    (m.hashRemove f p).bufTable = m.bufTable := rfl

@[simp] theorem frame_hashRemove (m : BufMgr) (f : File) (p : Int) (i : Nat) :
    (m.hashRemove f p).frame i = m.frame i := rfl

@[simp] theorem bufPool_hashRemove (m : BufMgr) (f : File) (p : Int) :
    (m.hashRemove f p).bufPool = m.bufPool := rfl

@[simp] theorem pool_hashRemove (m : BufMgr) (f : File) (p : Int) (i : Nat) :
    (m.hashRemove f p).pool i = m.pool i := rfl

@[simp] theorem clockHand_hashRemove (m : BufMgr) (f : File) (p : Int) :
    (m.hashRemove f p).clockHand = m.clockHand := rfl

@[simp] theorem hashTable_hashRemove (m : BufMgr) (f : File) (p : Int) :
    (m.hashRemove f p).hashTable = m.hashTable.remove f p := rfl

@[simp] theorem numBufs_setPool (m : BufMgr) (i : Nat) (b : Page) :
    (m.setPool i b).numBufs = m.numBufs := rfl

@[simp] theorem hashTable_setPool (m : BufMgr) (i : Nat) (b : Page) :
    (m.setPool i b).hashTable = m.hashTable := rfl

@[simp] theorem bufTable_setPool (m : BufMgr) (i : Nat) (b : Page) :
    (m.setPool i b).bufTable = m.bufTable := rfl

@[simp] theorem clockHand_setPool (m : BufMgr) (i : Nat) (b : Page) :
    (m.setPool i b).clockHand = m.clockHand := rfl

theorem pool_setPool_self (m : BufMgr) {i : Nat} (b : Page) (h : i < m.bufPool.length) :
    (m.setPool i b).pool i = b := by
  simp [BufMgr.setPool, BufMgr.pool, List.getD_eq_getElem?_getD, List.getElem?_set, h]

theorem pool_setPool_ne (m : BufMgr) {i j : Nat} (b : Page) (h : i ≠ j) :
    (m.setPool i b).pool j = m.pool j := by
  simp [BufMgr.setPool, BufMgr.pool, List.getD_eq_getElem?_getD, List.getElem?_set, h]

@[simp] theorem numBufs_advanceClock (m : BufMgr) : m.advanceClock.numBufs = m.numBufs := rfl

@[simp] theorem bufTable_advanceClock (m : BufMgr) : m.advanceClock.bufTable = m.bufTable := rfl

@[simp] theorem frame_advanceClock (m : BufMgr) (i : Nat) :
    m.advanceClock.frame i = m.frame i := rfl

@[simp] theorem bufPool_advanceClock (m : BufMgr) : m.advanceClock.bufPool = m.bufPool := rfl

@[simp] theorem pool_advanceClock (m : BufMgr) (i : Nat) :
    m.advanceClock.pool i = m.pool i := rfl

@[simp] theorem hashTable_advanceClock (m : BufMgr) :
    m.advanceClock.hashTable = m.hashTable := rfl

theorem clockHand_advanceClock_lt (m : BufMgr) (h : 0 < m.numBufs) :
    m.advanceClock.clockHand < m.numBufs :=
  Nat.mod_lt _ h

/-! ## Basic facts about the index -/

theorem hasKey_iff (f : File) (p : Int) (e : HashEntry) :
    HashEntry.hasKey f p e = true ↔ e.file = f ∧ e.pageNo = p := by
  simp [HashEntry.hasKey]

theorem lookup_eq_none_iff (ht : BufHashTbl) (f : File) (p : Int) :
    ht.lookup f p = none ↔ ∀ e ∈ ht, ¬ (e.file = f ∧ e.pageNo = p) := by
  simp [BufHashTbl.lookup, List.find?_eq_none, hasKey_iff]

theorem lookup_some_mem {ht : BufHashTbl} {f : File} {p : Int} {i : Nat}
    (h : ht.lookup f p = some i) : ({ file := f, pageNo := p, frameNo := i } : HashEntry) ∈ ht := by
  simp only [BufHashTbl.lookup, Option.map_eq_some'] at h
  obtain ⟨e, he, hi⟩ := h
  have hk := (hasKey_iff f p e).1 (List.find?_some he)
  have hm := List.mem_of_find?_eq_some he
  obtain ⟨ef, ep, ei⟩ := e
  simp only at hk hi
  obtain ⟨rfl, rfl⟩ := hk
  subst hi
  exact hm

theorem lookup_of_mem {ht : BufHashTbl} (hk : KeysDistinct ht) {f : File} {p : Int} {i : Nat}
    (h : ({ file := f, pageNo := p, frameNo := i } : HashEntry) ∈ ht) :
    ht.lookup f p = some i := by
  induction ht with
  | nil => simp at h
  | cons a t ih =>
    rw [KeysDistinct, List.pairwise_cons] at hk
    by_cases ha : HashEntry.hasKey f p a = true
    · have hak := (hasKey_iff f p a).1 ha
      rcases List.mem_cons.1 h with h1 | h1
      · subst h1
        simp [BufHashTbl.lookup, List.find?_cons, ha]
      · exact absurd ⟨hak.1, hak.2⟩ (hk.1 _ h1)
    · rcases List.mem_cons.1 h with h1 | h1
      · subst h1
        exact absurd (by simp [HashEntry.hasKey]) ha
      · have := ih hk.2 h1
        simpa [BufHashTbl.lookup, List.find?_cons, ha] using this

theorem lookup_eq_some_iff {ht : BufHashTbl} (hk : KeysDistinct ht) (f : File) (p : Int)
    (i : Nat) :
    ht.lookup f p = some i ↔ ({ file := f, pageNo := p, frameNo := i } : HashEntry) ∈ ht :=
  ⟨lookup_some_mem, lookup_of_mem hk⟩

theorem KeysDistinct.remove {ht : BufHashTbl} (hk : KeysDistinct ht) (f : File) (p : Int) :
    KeysDistinct (ht.remove f p) :=
  List.Pairwise.sublist (List.eraseP_sublist _) hk

theorem mem_remove_iff {ht : BufHashTbl} (hk : KeysDistinct ht) (f : File) (p : Int)
    (e : HashEntry) :
    e ∈ ht.remove f p ↔ e ∈ ht ∧ ¬ (e.file = f ∧ e.pageNo = p) := by
  induction ht with
  | nil => simp [BufHashTbl.remove]
  | cons a t ih =>
    rw [KeysDistinct, List.pairwise_cons] at hk
    have ih2 := ih hk.2
    simp only [BufHashTbl.remove] at ih2 ⊢
    by_cases ha : HashEntry.hasKey f p a = true
    · have hak := (hasKey_iff f p a).1 ha
      simp only [List.eraseP_cons, ha, cond_true, List.mem_cons]
      constructor
      · intro he
        refine ⟨Or.inr he, fun hek => hk.1 e he ⟨hak.1.trans hek.1.symm, hak.2.trans hek.2.symm⟩⟩
      · rintro ⟨he | he, hne⟩
        · subst he; exact absurd hak hne
        · exact he
    · have ha2 : HashEntry.hasKey f p a = false := by simpa using ha
      simp only [List.eraseP_cons, ha2, cond_false, List.mem_cons, ih2]
      constructor
      · rintro (he | ⟨he, hne⟩)
        · subst he
          exact ⟨Or.inl rfl, fun h => ha ((hasKey_iff f p e).2 h)⟩
        · exact ⟨Or.inr he, hne⟩
      · rintro ⟨he | he, hne⟩
        · exact Or.inl he
        · exact Or.inr ⟨he, hne⟩

theorem insert_eq_some_iff (ht : BufHashTbl) (f : File) (p : Int) (i : Nat) (ht2 : BufHashTbl) :
    ht.insert f p i = some ht2 ↔
      ht.lookup f p = none ∧ ht2 = { file := f, pageNo := p, frameNo := i } :: ht := by
  unfold BufHashTbl.insert
  by_cases h : ht.any (HashEntry.hasKey f p) = true
  · have h2 : ¬ ht.lookup f p = none := by
      rw [lookup_eq_none_iff]
      obtain ⟨x, hx, hxk⟩ := List.any_eq_true.1 h
      exact fun hall => hall x hx ((hasKey_iff f p x).1 hxk)
    simp [h, h2]
  · have h2 : ht.lookup f p = none := by
      rw [lookup_eq_none_iff]
      intro e he hek
      exact h (List.any_eq_true.2 ⟨e, he, (hasKey_iff f p e).2 hek⟩)
    simp [h, h2, eq_comm]

theorem insert_eq_none_iff (ht : BufHashTbl) (f : File) (p : Int) (i : Nat) :
    ht.insert f p i = none ↔ ht.lookup f p ≠ none := by
  unfold BufHashTbl.insert
  by_cases h : ht.any (HashEntry.hasKey f p) = true
  · have h2 : ¬ ht.lookup f p = none := by
      rw [lookup_eq_none_iff]
      obtain ⟨x, hx, hxk⟩ := List.any_eq_true.1 h
      exact fun hall => hall x hx ((hasKey_iff f p x).1 hxk)
    simp [h, h2]
  · have h2 : ht.lookup f p = none := by
      rw [lookup_eq_none_iff]
      intro e he hek
      exact h (List.any_eq_true.2 ⟨e, he, (hasKey_iff f p e).2 hek⟩)
    simp [h, h2]

/-! ## Preservation of consistency by the elementary updates -/

theorem WF.lookup_iff {m : BufMgr} (h : WF m) (f : File) (p : Int) (i : Nat) :
    m.hashTable.lookup f p = some i ↔
      i < m.numBufs ∧ (m.frame i).valid = true ∧ (m.frame i).file = f ∧ (m.frame i).pageNo = p := by
  rw [lookup_eq_some_iff h.keys]
  constructor
  · intro he
    exact h.entry _ he
  · rintro ⟨hi, hv, rfl, rfl⟩
    exact h.cached i hi hv

theorem WF.lookup_none_iff {m : BufMgr} (h : WF m) (f : File) (p : Int) :
    m.hashTable.lookup f p = none ↔
      ∀ i, i < m.numBufs → (m.frame i).valid = true →
        ¬ ((m.frame i).file = f ∧ (m.frame i).pageNo = p) := by
  rw [lookup_eq_none_iff]
  constructor
  · intro hall i hi hv hk
    exact hall _ (h.cached i hi hv) hk
  · intro hall e he hk
    obtain ⟨h1, h2, h3, h4⟩ := h.entry e he
    exact hall e.frameNo h1 h2 ⟨h3.trans hk.1, h4.trans hk.2⟩

/-- Two valid frames holding the same page are the same frame. -/
theorem WF.frame_unique {m : BufMgr} (h : WF m) {i j : Nat} (hi : i < m.numBufs)
    (hj : j < m.numBufs) (hvi : (m.frame i).valid = true) (hvj : (m.frame j).valid = true)
    (hf : (m.frame i).file = (m.frame j).file) (hp : (m.frame i).pageNo = (m.frame j).pageNo) :
    i = j := by
  have h1 := (h.lookup_iff (m.frame i).file (m.frame i).pageNo i).2 ⟨hi, hvi, rfl, rfl⟩
  have h2 := (h.lookup_iff (m.frame i).file (m.frame i).pageNo j).2 ⟨hj, hvj, hf.symm, hp.symm⟩
  rw [h1] at h2
  exact Option.some.inj h2

theorem inRange_zero : InRange 0 := by unfold InRange; omega

theorem inRange_one : InRange 1 := by unfold InRange; omega

theorem wrapInt_inRange (x : Int) : InRange (wrapInt x) := by
  unfold InRange wrapInt
  omega

theorem wrapInt_of_inRange {x : Int} (h : InRange x) : wrapInt x = x := by
  unfold InRange at h
  unfold wrapInt
  omega

theorem wrapInt_succ_le {x : Int} (h : InRange x) : wrapInt (x + 1) ≤ x + 1 := by
  unfold InRange at h
  unfold wrapInt
  omega

theorem wrapInt_succ {x : Int} (h : InRange x) (hx : x < 2147483647) :
    wrapInt (x + 1) = x + 1 := by
  unfold InRange at h
  unfold wrapInt
  omega

theorem wrapInt_max : wrapInt (2147483647 + 1) = -2147483648 := by decide

theorem InRange.pred {x : Int} (h : InRange x) (hx : 0 < x) : InRange (x - 1) := by
  unfold InRange at h ⊢
  omega

/-- Rewriting a descriptor without touching its key or its validity. -/
theorem WF.setFrame_same {m : BufMgr} (h : WF m) (i : Nat) (d : BufDesc)
    (hv : d.valid = (m.frame i).valid) (hf : d.file = (m.frame i).file)
    (hp : d.pageNo = (m.frame i).pageNo) (hpin : InRange d.pinCnt)
    (he : d.valid = false → d.pinCnt ≤ 0 ∧ d.dirty = false) : WF (m.setFrame i d) := by
  have key : ∀ j, j < m.numBufs → ((m.setFrame i d).frame j).valid = (m.frame j).valid ∧
      ((m.setFrame i d).frame j).file = (m.frame j).file ∧
      ((m.setFrame i d).frame j).pageNo = (m.frame j).pageNo := by
    intro j hj
    by_cases hij : i = j
    · subst hij
      rw [frame_setFrame_self m d (by rw [h.lenTable]; exact hj)]
      exact ⟨hv, hf, hp⟩
    · rw [frame_setFrame_ne m d hij]
      exact ⟨rfl, rfl, rfl⟩
  refine ⟨by simp [h.lenTable], h.lenPool, h.keys, ?_, ?_, ?_, ?_⟩
  · intro e hmem
    obtain ⟨h1, h2, h3, h4⟩ := h.entry e hmem
    obtain ⟨k1, k2, k3⟩ := key e.frameNo h1
    exact ⟨h1, k1.trans h2, k2.trans h3, k3.trans h4⟩
  · intro j hj hvj
    obtain ⟨k1, k2, k3⟩ := key j hj
    rw [k2, k3]
    exact h.cached j hj (k1.symm.trans hvj)
  · intro j hj
    by_cases hij : i = j
    · subst hij
      rw [frame_setFrame_self m d (by rw [h.lenTable]; exact hj)]
      exact hpin
    · rw [frame_setFrame_ne m d hij]
      exact h.pin j hj
  · intro j hj hvj
    by_cases hij : i = j
    · subst hij
      rw [frame_setFrame_self m d (by rw [h.lenTable]; exact hj)] at hvj ⊢
      obtain ⟨e1, e2⟩ := he hvj
      exact ⟨e1, e2, hf.trans (h.empty i hj (hv.symm.trans hvj)).2.2⟩
    · rw [frame_setFrame_ne m d hij] at hvj ⊢
      exact h.empty j hj hvj

/-- Emptying a valid frame together with its index entry. -/
theorem WF.evict {m : BufMgr} (h : WF m) {i : Nat} (hi : i < m.numBufs)
    (hv : (m.frame i).valid = true) (d : BufDesc) (hdv : d.valid = false)
    (hdr : InRange d.pinCnt) (hdp : d.pinCnt ≤ 0) (hdd : d.dirty = false)
    (hdf : d.file = NULL) :
    WF ((m.hashRemove (m.frame i).file (m.frame i).pageNo).setFrame i d) := by
  have hlen : i < (m.hashRemove (m.frame i).file (m.frame i).pageNo).bufTable.length := by
    simp [h.lenTable, hi]
  refine ⟨by simp [h.lenTable], h.lenPool, h.keys.remove _ _, ?_, ?_, ?_, ?_⟩
  · intro e hmem
    simp only [hashTable_setFrame, hashTable_hashRemove] at hmem
    obtain ⟨hm1, hm2⟩ := (mem_remove_iff h.keys _ _ e).1 hmem
    obtain ⟨h1, h2, h3, h4⟩ := h.entry e hm1
    have hne : i ≠ e.frameNo := by
      intro hie
      apply hm2
      rw [hie]
      exact ⟨h3.symm, h4.symm⟩
    rw [frame_setFrame_ne _ d hne]
    exact ⟨h1, h2, h3, h4⟩
  · intro j hj hvj
    have hne : i ≠ j := by
      intro hij
      subst hij
      rw [frame_setFrame_self _ d hlen] at hvj
      rw [hdv] at hvj
      exact Bool.noConfusion hvj
    rw [frame_setFrame_ne _ d hne] at hvj ⊢
    simp only [frame_hashRemove, hashTable_setFrame, hashTable_hashRemove] at hvj ⊢
    refine (mem_remove_iff h.keys _ _ _).2 ⟨h.cached j hj hvj, ?_⟩
    rintro ⟨e1, e2⟩
    exact hne (h.frame_unique hi hj hv hvj e1.symm e2.symm)
  · intro j hj
    by_cases hij : i = j
    · subst hij
      rw [frame_setFrame_self _ d hlen]
      exact hdr
    · rw [frame_setFrame_ne _ d hij]
      exact h.pin j hj
  · intro j hj hvj
    by_cases hij : i = j
    · subst hij
      rw [frame_setFrame_self _ d hlen]
      exact ⟨hdp, hdd, hdf⟩
    · rw [frame_setFrame_ne _ d hij] at hvj ⊢
      exact h.empty j hj hvj

/-- Emptying a valid frame together with its index entry, the key being named. -/
theorem WF.evict_key {m : BufMgr} (h : WF m) {i : Nat} (hi : i < m.numBufs)
    (hv : (m.frame i).valid = true) (f : File) (p : Int) (hf : (m.frame i).file = f)
    (hp : (m.frame i).pageNo = p) (d : BufDesc) (hdv : d.valid = false)
    (hdr : InRange d.pinCnt) (hdp : d.pinCnt ≤ 0) (hdd : d.dirty = false)
    (hdf : d.file = NULL) :
    WF ((m.hashRemove f p).setFrame i d) := by
  subst hf hp
  exact h.evict hi hv d hdv hdr hdp hdd hdf

/-- Binding an empty frame to a page that is not cached. -/
theorem WF.install {m : BufMgr} (h : WF m) {i : Nat} (hi : i < m.numBufs)
    (hv : (m.frame i).valid = false) (f : File) (p : Int)
    (hnone : m.hashTable.lookup f p = none) (d : BufDesc) (hdv : d.valid = true)
    (hdf : d.file = f) (hdp : d.pageNo = p) (hpin : InRange d.pinCnt) :
    WF (({ m with hashTable := { file := f, pageNo := p, frameNo := i } :: m.hashTable } :
      BufMgr).setFrame i d) := by
  have hlen : i < m.bufTable.length := by rw [h.lenTable]; exact hi
  have hself : ∀ d2 : BufDesc, (({ m with hashTable :=
      { file := f, pageNo := p, frameNo := i } :: m.hashTable } : BufMgr).setFrame i d2).frame i
      = d2 := fun d2 => frame_setFrame_self _ d2 hlen
  have hother : ∀ j, i ≠ j → (({ m with hashTable :=
      { file := f, pageNo := p, frameNo := i } :: m.hashTable } : BufMgr).setFrame i d).frame j
      = m.frame j := fun j hij => frame_setFrame_ne _ d hij
  have hnone2 := (lookup_eq_none_iff _ _ _).1 hnone
  refine ⟨by simp [h.lenTable], h.lenPool, ?_, ?_, ?_, ?_, ?_⟩
  · show KeysDistinct (_ :: m.hashTable)
    rw [KeysDistinct, List.pairwise_cons]
    refine ⟨?_, h.keys⟩
    intro e he hk
    exact hnone2 e he ⟨hk.1.symm, hk.2.symm⟩
  · intro e hmem
    rcases List.mem_cons.1 hmem with rfl | hmem
    · show i < m.numBufs ∧ _
      rw [hself]
      exact ⟨hi, hdv, hdf, hdp⟩
    · obtain ⟨h1, h2, h3, h4⟩ := h.entry e hmem
      have hne : i ≠ e.frameNo := by
        intro hie
        rw [← hie, hv] at h2
        exact Bool.noConfusion h2
      show e.frameNo < m.numBufs ∧ _
      rw [hother _ hne]
      exact ⟨h1, h2, h3, h4⟩
  · intro j hj hvj
    show _ ∈ _ :: m.hashTable
    by_cases hij : i = j
    · subst hij
      rw [hself, hdf, hdp]
      exact List.mem_cons_self _ _
    · rw [hother _ hij] at hvj ⊢
      exact List.mem_cons_of_mem _ (h.cached j hj hvj)
  · intro j hj
    by_cases hij : i = j
    · subst hij
      rw [hself]
      exact hpin
    · rw [hother _ hij]
      exact h.pin j hj
  · intro j hj hvj
    by_cases hij : i = j
    · subst hij
      rw [hself, hdv] at hvj
      exact Bool.noConfusion hvj
    · rw [hother _ hij] at hvj ⊢
      exact h.empty j hj hvj

theorem WF.setPool {m : BufMgr} (h : WF m) (i : Nat) (b : Page) : WF (m.setPool i b) :=
  ⟨h.lenTable, by simp [BufMgr.setPool, h.lenPool], h.keys, h.entry, h.cached, h.pin, h.empty⟩

theorem WF.advanceClock {m : BufMgr} (h : WF m) : WF m.advanceClock :=
  ⟨h.lenTable, h.lenPool, h.keys, h.entry, h.cached, h.pin, h.empty⟩

theorem frame_init (bufs i : Nat) (hi : i < bufs) :
    (BufMgr.init bufs).frame i = { BufDesc.zero with frameNo := i, valid := false } := by
  simp [BufMgr.init, BufMgr.frame, List.getD_eq_getElem?_getD, List.getElem?_map,
    List.getElem?_range hi]

theorem WF.init (bufs : Nat) : WF (BufMgr.init bufs) := by
  refine ⟨by simp [BufMgr.init], by simp [BufMgr.init], List.Pairwise.nil, ?_, ?_, ?_, ?_⟩
  · intro e he
    simp [BufMgr.init] at he
  · intro i hi hv
    rw [frame_init bufs i hi] at hv
    exact Bool.noConfusion hv
  · intro i hi
    rw [frame_init bufs i hi]
    exact inRange_zero
  · intro i hi _
    rw [frame_init bufs i hi]
    simp [BufDesc.zero]

/-! ## The clock sweep -/

theorem SameButRef.refl (d : BufDesc) : SameButRef d d := ⟨rfl, rfl, rfl, rfl, rfl, rfl⟩

theorem SameButRef.trans {a b c : BufDesc} (h1 : SameButRef a b) (h2 : SameButRef b c) :
    SameButRef a c :=
  ⟨h2.1.trans h1.1, h2.2.1.trans h1.2.1, h2.2.2.1.trans h1.2.2.1,
    h2.2.2.2.1.trans h1.2.2.2.1, h2.2.2.2.2.1.trans h1.2.2.2.2.1,
    h2.2.2.2.2.2.trans h1.2.2.2.2.2⟩

theorem pool_eq_of_bufPool_eq {m n : BufMgr} (h : n.bufPool = m.bufPool) (i : Nat) :
    n.pool i = m.pool i := by
  simp [BufMgr.pool, h]

/-- A guarantee about a sweep started after some reference bits were cleared
is a guarantee about the sweep started before. -/
theorem AllocSpec.shift {σ : Type} {m n : BufMgr} {w : World σ} {out : AllocOut σ}
    (r : AllocSpec n w out) (hsame : ∀ j, SameButRef (m.frame j) (n.frame j))
    (hn : n.numBufs = m.numBufs) (hp : n.bufPool = m.bufPool) : AllocSpec m w out := by
  refine ⟨r.wf, r.numBufs.trans hn, r.pool.trans hp, r.grows, r.status,
    fun j hj => (hsame j).trans (r.others j hj), ?_⟩
  intro hs
  obtain ⟨s1, s2, s3, s4⟩ := r.sel hs
  have hq := hsame out.frame
  refine ⟨hn ▸ s1, s2, ⟨by rw [← hq.2.2.2.1]; exact s3.1,
    fun hv3 => by rw [← hq.2.2.2.1]; exact s3.2 (hq.2.2.2.2.2.trans hv3)⟩, ?_⟩
  intro hv3 hd3
  rw [← hq.1, ← hq.2.1, ← pool_eq_of_bufPool_eq hp]
  exact s4 (hq.2.2.2.2.2.trans hv3) (hq.2.2.2.2.1.trans hd3)

theorem allocBufLoop_spec {σ : Type} (io : FileOps σ) (fuel : Nat) :
    ∀ (visits : Nat) (m : BufMgr) (w : World σ), WF m → 0 < m.numBufs →
      AllocSpec m w (allocBufLoop io fuel visits m w) := by
  induction fuel with
  | zero =>
    intro visits m w h _
    exact ⟨h, rfl, rfl, List.prefix_refl _, Or.inr (Or.inr rfl), fun j _ => SameButRef.refl _,
      fun hs => Status.noConfusion hs⟩
  | succ fuel ih =>
    intro visits m w h hpos
    have hh : m.advanceClock.clockHand < m.numBufs := clockHand_advanceClock_lt m hpos
    have hlen : m.advanceClock.clockHand < m.advanceClock.bufTable.length := by
      rw [bufTable_advanceClock, h.lenTable]; exact hh
    have h1 : WF m.advanceClock := h.advanceClock
    have hfr : ∀ j, m.advanceClock.frame j = m.frame j := fun j => rfl
    unfold allocBufLoop
    simp only []
    split_ifs with hv hr hp hd hw
    · -- an empty frame is taken as it is
      have hv2 : (m.frame m.advanceClock.clockHand).valid = false := by simpa using hv
      refine ⟨h1, rfl, rfl, List.prefix_refl _, Or.inl rfl, fun j _ => SameButRef.refl _,
        fun _ => ⟨hh, hv2, ⟨(h.empty _ hh hv2).1, fun hv3 => ?_⟩, ?_⟩⟩
      · rw [hv2] at hv3
        exact Bool.noConfusion hv3
      · intro hv3
        rw [hv2] at hv3
        exact Bool.noConfusion hv3
    · -- second chance
      have hv2 : (m.frame m.advanceClock.clockHand).valid = true := by simpa using hv
      refine AllocSpec.shift (ih (visits + 1) _ w ?_ hpos) ?_ rfl rfl
      · exact h1.setFrame_same _ _ rfl rfl rfl (h.pin _ hh) (fun hc => by
          rw [hfr, hv2] at hc; exact Bool.noConfusion hc)
      · intro j
        by_cases hj : m.advanceClock.clockHand = j
        · subst hj
          rw [frame_setFrame_self _ _ hlen]
          exact ⟨rfl, rfl, rfl, rfl, rfl, rfl⟩
        · rw [frame_setFrame_ne _ _ hj]
          exact SameButRef.refl _
    · -- the write-back of the victim fails
      exact ⟨h1, rfl, rfl, List.prefix_append _ _, Or.inr (Or.inl rfl),
        fun j _ => SameButRef.refl _, fun hs => Status.noConfusion hs⟩
    · -- a dirty victim, written back
      have hv2 : (m.frame m.advanceClock.clockHand).valid = true := by simpa using hv
      have hp2 : (m.frame m.advanceClock.clockHand).pinCnt = 0 := by simpa using hp
      have hw2 : (w.writePage io (m.frame m.advanceClock.clockHand).file
          (m.frame m.advanceClock.clockHand).pageNo (m.pool m.advanceClock.clockHand)).1
          = Status.OK := by simpa using hw
      have h2 : WF (m.advanceClock.setFrame m.advanceClock.clockHand
          { m.advanceClock.frame m.advanceClock.clockHand with dirty := false }) :=
        h1.setFrame_same _ _ rfl rfl rfl (h.pin _ hh) (fun hc => by
          rw [hfr, hv2] at hc; exact Bool.noConfusion hc)
      have h3 := h2.evict (i := m.advanceClock.clockHand) hh
        (by rw [frame_setFrame_self _ _ hlen]; exact hv2)
        (((m.advanceClock.setFrame m.advanceClock.clockHand
          { m.advanceClock.frame m.advanceClock.clockHand with dirty := false }).hashRemove
            (m.frame m.advanceClock.clockHand).file
            (m.frame m.advanceClock.clockHand).pageNo).frame m.advanceClock.clockHand).Clear
        rfl inRange_zero (le_of_eq rfl) rfl rfl
      rw [frame_setFrame_self _ _ hlen] at h3
      refine ⟨h3, rfl, rfl, List.prefix_append _ _, Or.inl rfl, ?_,
        fun _ => ⟨hh, ?_, ⟨le_of_eq hp2, fun _ => hp2⟩, ?_⟩⟩
      · intro j hj
        have hj2 : m.advanceClock.clockHand ≠ j := fun hc => hj rfl hc.symm
        rw [frame_setFrame_ne _ _ hj2, frame_hashRemove, frame_setFrame_ne _ _ hj2]
        exact SameButRef.refl _
      · rw [frame_setFrame_self _ _ (by simpa using hlen)]
        rfl
      · intro _ _
        simp only [World.writePage, frame_advanceClock, pool_advanceClock] at hw2 ⊢
        rw [hw2]
    · -- a clean victim
      have hv2 : (m.frame m.advanceClock.clockHand).valid = true := by simpa using hv
      have hp2 : (m.frame m.advanceClock.clockHand).pinCnt = 0 := by simpa using hp
      have hd2 : (m.frame m.advanceClock.clockHand).dirty = false := by simpa using hd
      have h3 := h1.evict (i := m.advanceClock.clockHand) hh hv2
        ((m.advanceClock.hashRemove (m.frame m.advanceClock.clockHand).file
            (m.frame m.advanceClock.clockHand).pageNo).frame m.advanceClock.clockHand).Clear
        rfl inRange_zero (le_of_eq rfl) rfl rfl
      refine ⟨h3, rfl, rfl, List.prefix_refl _, Or.inl rfl, ?_,
        fun _ => ⟨hh, ?_, ⟨le_of_eq hp2, fun _ => hp2⟩, ?_⟩⟩
      · intro j hj
        have hj2 : m.advanceClock.clockHand ≠ j := fun hc => hj rfl hc.symm
        rw [frame_setFrame_ne _ _ hj2, frame_hashRemove]
        exact SameButRef.refl _
      · rw [frame_setFrame_self _ _ (by simpa using hlen)]
        rfl
      · intro _ hd3
        rw [hd2] at hd3
        exact Bool.noConfusion hd3
    · -- pinned
      exact AllocSpec.shift (ih (visits + 1) _ w h1 hpos) (fun j => SameButRef.refl _) rfl rfl

theorem allocBuf_spec {σ : Type} (io : FileOps σ) (m : BufMgr) (w : World σ) (h : WF m) :
    AllocSpec m w (allocBuf io m w) := by
  unfold allocBuf
  rcases Nat.eq_zero_or_pos m.numBufs with h0 | hpos
  · rw [h0]
    exact ⟨h, rfl, rfl, List.prefix_refl _, Or.inr (Or.inr rfl), fun j _ => SameButRef.refl _,
      fun hs => Status.noConfusion hs⟩
  · exact allocBufLoop_spec io _ 0 m w h hpos

/-! ## Every public operation keeps the state consistent -/

theorem readPage_WF {σ : Type} (io : FileOps σ) (m : BufMgr) (w : World σ) (f : File) (p : Int)
    (h : WF m) : WF (readPage io m w f p).mgr := by
  unfold readPage
  split
  · next hl =>
    have r := allocBuf_spec io m w h
    simp only []
    split_ifs with hs hrd
    · exact r.wf
    · exact r.wf.setPool _ _
    · have hs2 : (allocBuf io m w).status = Status.OK := by simpa using hs
      obtain ⟨s1, s2, -, -⟩ := r.sel hs2
      split
      · exact r.wf.setPool _ _
      · next ht hins =>
        obtain ⟨hnone, rfl⟩ := (insert_eq_some_iff _ _ _ _ _).1 hins
        have hwf := r.wf.setPool (allocBuf io m w).frame
          (World.readPage io (allocBuf io m w).world f p
            ((allocBuf io m w).mgr.pool (allocBuf io m w).frame)).2.1
        exact hwf.install (by simpa [r.numBufs] using s1) s2 f p hnone _ rfl rfl rfl inRange_one
  · next i hl =>
    obtain ⟨hi, hv, -, -⟩ := (h.lookup_iff f p i).1 hl
    refine h.setFrame_same _ _ rfl rfl rfl ?_ ?_
    · exact wrapInt_inRange _
    · intro hc
      rw [hv] at hc
      exact Bool.noConfusion hc

theorem unPinPage_WF {σ : Type} (m : BufMgr) (w : World σ) (f : File) (p : Int) (d : Bool)
    (h : WF m) : WF (unPinPage m w f p d).mgr := by
  unfold unPinPage
  split
  · exact h
  · next i hl =>
    obtain ⟨hi, hv, -, -⟩ := (h.lookup_iff f p i).1 hl
    simp only []
    split_ifs with hp hd
    · exact h
    · refine h.setFrame_same _ _ rfl rfl rfl ?_ ?_
      · exact (h.pin i hi).pred (not_le.1 hp)
      · intro hc
        rw [show (_ : BufDesc).valid = (m.frame i).valid from rfl, hv] at hc
        exact Bool.noConfusion hc
    · refine h.setFrame_same _ _ rfl rfl rfl ?_ ?_
      · exact (h.pin i hi).pred (not_le.1 hp)
      · intro hc
        rw [show (_ : BufDesc).valid = (m.frame i).valid from rfl, hv] at hc
        exact Bool.noConfusion hc

theorem allocPage_WF {σ : Type} (io : FileOps σ) (m : BufMgr) (w : World σ) (f : File)
    (h : WF m) : WF (allocPage io m w f).mgr := by
  unfold allocPage
  simp only []
  split_ifs with ha hs
  · exact h
  · exact (allocBuf_spec io m _ h).wf
  · have r := allocBuf_spec io m (World.allocatePage io w f).2.2 h
    have hs2 : (allocBuf io m (World.allocatePage io w f).2.2).status = Status.OK := by
      simpa using hs
    obtain ⟨s1, s2, -, -⟩ := r.sel hs2
    split
    · exact r.wf
    · next ht hins =>
      obtain ⟨hnone, rfl⟩ := (insert_eq_some_iff _ _ _ _ _).1 hins
      exact r.wf.install (by simpa [r.numBufs] using s1) s2 f _ hnone _ rfl rfl rfl inRange_one

theorem disposePage_WF {σ : Type} (io : FileOps σ) (m : BufMgr) (w : World σ) (f : File)
    (p : Int) (h : WF m) : WF (disposePage io m w f p).mgr := by
  unfold disposePage
  simp only []
  split
  · next i hl =>
    obtain ⟨hi, hv, hf, hp⟩ := (h.lookup_iff f p i).1 hl
    have := h.evict hi hv (m.frame i).Clear rfl inRange_zero (le_of_eq rfl) rfl rfl
    rw [hf, hp] at this
    exact this
  · next hl =>
    have hrem : m.hashTable.remove f p = m.hashTable := by
      unfold BufHashTbl.remove
      apply List.eraseP_of_forall_not
      intro e he hk
      exact (lookup_eq_none_iff _ _ _).1 hl e he ((hasKey_iff f p e).1 hk)
    show WF (m.hashRemove f p)
    unfold BufMgr.hashRemove
    rw [hrem]
    exact h

theorem Issued.extend_right {σ : Type} {w v u : World σ} {ev : IOEvent} (h : Issued w v ev)
    (hp : v.trace <+: u.trace) : Issued w u ev := by
  obtain ⟨evs, h1, h2⟩ := h
  obtain ⟨t, ht⟩ := hp
  exact ⟨evs ++ t, by rw [← ht, h1, List.append_assoc], List.mem_append_left _ h2⟩

theorem Issued.extend_left {σ : Type} {w v u : World σ} {ev : IOEvent} (hp : w.trace <+: v.trace)
    (h : Issued v u ev) : Issued w u ev := by
  obtain ⟨evs, h1, h2⟩ := h
  obtain ⟨t, ht⟩ := hp
  exact ⟨t ++ evs, by rw [h1, ← ht, List.append_assoc], List.mem_append_right _ h2⟩

/-- A guarantee about the rest of the flush loop, after frame `i` was dropped,
is a guarantee about the loop from frame `i` on. -/
theorem FlushSpec.after_drop {σ : Type} {file : File} {m n : BufMgr} {w v : World σ}
    {out : Ret σ} {i : Nat} (r : FlushSpec file n v out) (hn : n.numBufs = m.numBufs)
    (hp : n.bufPool = m.bufPool) (hpre : w.trace <+: v.trace)
    (hne : ∀ j, i ≠ j → n.frame j = m.frame j) (hinv : (n.frame i).valid = false)
    (hv : (m.frame i).valid = true) (hf : (m.frame i).file = file)
    (hpin : (m.frame i).pinCnt ≤ 0)
    (hd : (m.frame i).dirty = true → Issued w v
      (IOEvent.write (m.frame i).file (m.frame i).pageNo (m.pool i) Status.OK)) :
    FlushSpec file m w out := by
  refine ⟨r.wf, r.numBufs.trans hn, r.pool.trans hp, hpre.trans r.grows, ?_⟩
  intro j
  by_cases hij : i = j
  · subst hij
    right
    refine ⟨hv, hf, hpin, ?_, fun hdd => Issued.extend_right (hd hdd) r.grows⟩
    rcases r.frames i with hr | hr
    · rw [hr]; exact hinv
    · rw [hinv] at hr
      exact Bool.noConfusion hr.1
  · rcases r.frames j with hr | hr
    · left
      rw [hr, hne j hij]
    · right
      rw [hne j hij, pool_eq_of_bufPool_eq hp] at hr
      obtain ⟨a1, a2, a3, a4, a5⟩ := hr
      exact ⟨a1, a2, a3, a4, fun hdj => Issued.extend_left hpre (a5 hdj)⟩

theorem flushFileLoop_spec {σ : Type} (io : FileOps σ) (file : File) (is : List Nat) :
    ∀ (m : BufMgr) (w : World σ), WF m → (∀ i ∈ is, i < m.numBufs) →
      FlushSpec file m w (flushFileLoop io file is m w) := by
  induction is with
  | nil =>
    intro m w h _
    exact ⟨h, rfl, rfl, List.prefix_refl _, fun j => Or.inl rfl⟩
  | cons i rest ih =>
    intro m w h hall
    have hi : i < m.numBufs := hall i (List.mem_cons_self _ _)
    have hlen : i < m.bufTable.length := by rw [h.lenTable]; exact hi
    have hrest : ∀ k ∈ rest, k < m.numBufs := fun k hk => hall k (List.mem_cons_of_mem _ hk)
    unfold flushFileLoop
    simp only []
    split_ifs with hc hp hd hw hb
    · exact ⟨h, rfl, rfl, List.prefix_refl _, fun j => Or.inl rfl⟩
    · exact ⟨h, rfl, rfl, List.prefix_append _ _, fun j => Or.inl rfl⟩
    · -- a dirty frame of the file, written back and dropped
      simp only [Bool.and_eq_true, beq_iff_eq] at hc
      obtain ⟨hv, hf⟩ := hc
      have hp2 : (m.frame i).pinCnt ≤ 0 := not_lt.1 hp
      have hw2 : (w.writePage io (m.frame i).file (m.frame i).pageNo (m.pool i)).1
          = Status.OK := by simpa using hw
      have h2 : WF (m.setFrame i { m.frame i with dirty := false }) :=
        h.setFrame_same _ _ rfl rfl rfl (h.pin _ hi) (fun hc => by
          rw [show (_ : BufDesc).valid = (m.frame i).valid from rfl, hv] at hc
          exact Bool.noConfusion hc)
      have h3 := h2.evict_key (i := i) hi (by rw [frame_setFrame_self _ _ hlen]; exact hv)
        file (m.frame i).pageNo (by rw [frame_setFrame_self _ _ hlen]; exact hf)
        (by rw [frame_setFrame_self _ _ hlen])
        { ((m.setFrame i { m.frame i with dirty := false }).hashRemove file
            (m.frame i).pageNo).frame i with file := NULL, pageNo := -1, valid := false }
        rfl (by rw [frame_hashRemove, frame_setFrame_self _ _ hlen]; exact h.pin i hi)
        (by rw [frame_hashRemove, frame_setFrame_self _ _ hlen]; exact hp2)
        (by rw [frame_hashRemove, frame_setFrame_self _ _ hlen]) rfl
      refine FlushSpec.after_drop (i := i)
        (ih _ (w.writePage io (m.frame i).file (m.frame i).pageNo (m.pool i)).2 h3 hrest)
        rfl rfl (List.prefix_append _ _) ?_ ?_ hv hf hp2 ?_
      · intro j hij
        rw [frame_setFrame_ne _ _ hij, frame_hashRemove, frame_setFrame_ne _ _ hij]
      · rw [frame_setFrame_self _ _ (by simpa using hlen)]
      · intro _
        refine ⟨[_], rfl, ?_⟩
        simp only [World.writePage] at hw2
        rw [hw2]
        exact List.mem_singleton_self _
    · -- a clean frame of the file, dropped
      simp only [Bool.and_eq_true, beq_iff_eq] at hc
      obtain ⟨hv, hf⟩ := hc
      have hp2 : (m.frame i).pinCnt ≤ 0 := not_lt.1 hp
      have hd2 : (m.frame i).dirty = false := by simpa using hd
      have h3 := h.evict_key (i := i) hi hv file (m.frame i).pageNo hf rfl
        { (m.hashRemove file (m.frame i).pageNo).frame i with
            file := NULL, pageNo := -1, valid := false }
        rfl (h.pin i hi) hp2 hd2 rfl
      refine FlushSpec.after_drop (i := i) (ih _ w h3 hrest)
        rfl rfl (List.prefix_refl _) ?_ ?_ hv hf hp2 ?_
      · intro j hij
        rw [frame_setFrame_ne _ _ hij, frame_hashRemove]
      · rw [frame_setFrame_self _ _ (by simpa using hlen)]
      · intro hdd
        rw [hd2] at hdd
        exact Bool.noConfusion hdd
    · exact ⟨h, rfl, rfl, List.prefix_refl _, fun j => Or.inl rfl⟩
    · exact ih m w h hrest

theorem flushFile_spec {σ : Type} (io : FileOps σ) (m : BufMgr) (w : World σ) (file : File)
    (h : WF m) : FlushSpec file m w (flushFile io m w file) :=
  flushFileLoop_spec io file _ m w h (fun _ hi => List.mem_range.1 hi)

theorem step_WF {σ : Type} (io : FileOps σ) (op : Op) (m : BufMgr) (w : World σ) (h : WF m) :
    WF (step io op m w).mgr := by
  cases op with
  | readPage f p => exact readPage_WF io m w f p h
  | unPinPage f p d => exact unPinPage_WF m w f p d h
  | allocPage f => exact allocPage_WF io m w f h
  | disposePage f p => exact disposePage_WF io m w f p h
  | flushFile f => exact (flushFile_spec io m w f h).wf

/-- Every reachable state is consistent. -/
theorem Reachable.wf {σ : Type} {io : FileOps σ} {m : BufMgr} {w : World σ}
    (h : Reachable io m w) : WF m := by
  induction h with
  | init bufs w => exact WF.init bufs
  | step op _ ih => exact step_WF io op _ _ ih

theorem exec_reachable {σ : Type} {io : FileOps σ} {c : Config σ} (op : Op)
    (h : Reachable io c.mgr c.world) : Reachable io (exec io c op).mgr (exec io c op).world :=
  Reachable.step op h

theorem run_reachable {σ : Type} {io : FileOps σ} (ops : List Op) :
    ∀ c : Config σ, Reachable io c.mgr c.world →
      Reachable io (run io ops c).mgr (run io ops c).world := by
  induction ops with
  | nil => intro c h; exact h
  | cons op ops ih => intro c h; exact ih _ (exec_reachable op h)

theorem start_run_reachable {σ : Type} (io : FileOps σ) (ops : List Op) (bufs : Nat)
    (w : World σ) :
    Reachable io (run io ops (start bufs w)).mgr (run io ops (start bufs w)).world :=
  run_reachable ops _ (Reachable.init bufs w)

/-! ## Eviction safety -/

theorem KeysDistinct.nodup {ht : BufHashTbl} (hk : KeysDistinct ht) : ht.Nodup :=
  List.Pairwise.imp (fun {a b} hab heq => hab (by rw [heq]; exact ⟨rfl, rfl⟩)) hk

theorem WF.count_target {m : BufMgr} (h : WF m) (i : Nat) :
    (m.frame i).valid = true ∧ i < m.numBufs ↔
      m.hashTable.countP (fun e => e.frameNo == i) = 1 := by
  constructor
  · rintro ⟨hv, hi⟩
    have hmem := h.cached i hi hv
    have hcongr : m.hashTable.countP (fun e => e.frameNo == i) =
        m.hashTable.count
          ({ file := (m.frame i).file, pageNo := (m.frame i).pageNo, frameNo := i } : HashEntry) := by
      rw [List.count_eq_countP]
      apply List.countP_congr
      intro e he
      simp only [beq_iff_eq]
      constructor
      · intro hei
        obtain ⟨-, -, e3, e4⟩ := h.entry e he
        obtain ⟨ef, ep, en⟩ := e
        simp only at hei e3 e4
        subst hei
        rw [e3, e4]
      · intro hee
        rw [hee]
    rw [hcongr]
    exact List.count_eq_one_of_mem h.keys.nodup hmem
  · intro hc
    have hpos : 0 < m.hashTable.countP (fun e => e.frameNo == i) := by omega
    obtain ⟨e, he, hei⟩ := List.countP_pos_iff.1 hpos
    have hei2 : e.frameNo = i := by simpa using hei
    obtain ⟨e1, e2, -, -⟩ := h.entry e he
    rw [hei2] at e1 e2
    exact ⟨e2, e1⟩

/-- C2 (index consistency): in every state reachable from a freshly constructed
manager by public calls (failing ones included), an existing frame `i` is valid
if and only if the index holds exactly one entry whose target is `i`; every
entry of the index targets an existing frame and is keyed by that frame's
`(file, pageNo)`; and no two valid frames hold the same `(file, pageNo)`. -/
theorem index_consistency {σ : Type} (io : FileOps σ) (m : BufMgr) (w : World σ)
    (h : Reachable io m w) :
    (∀ i, i < m.numBufs →
      ((m.frame i).valid = true ↔ m.hashTable.countP (fun e => e.frameNo == i) = 1)) ∧
    (∀ e ∈ m.hashTable, e.frameNo < m.numBufs ∧ e.file = (m.frame e.frameNo).file ∧
      e.pageNo = (m.frame e.frameNo).pageNo) ∧
    (∀ i j, i < m.numBufs → j < m.numBufs → (m.frame i).valid = true →
      (m.frame j).valid = true → (m.frame i).file = (m.frame j).file →
      (m.frame i).pageNo = (m.frame j).pageNo → i = j) := by
  have hwf := h.wf
  refine ⟨?_, ?_, ?_⟩
  · intro i hi
    rw [← hwf.count_target i]
    exact ⟨fun hv => ⟨hv, hi⟩, fun hv => hv.1⟩
  · intro e he
    obtain ⟨e1, -, e3, e4⟩ := hwf.entry e he
    exact ⟨e1, e3.symm, e4.symm⟩
  · intro i j hi hj hvi hvj hf hp
    exact hwf.frame_unique hi hj hvi hvj hf hp

theorem index_consistency_witness :
    Reachable plainStore twoPagesOneReleased.mgr twoPagesOneReleased.world ∧
    ((∀ i, i < twoPagesOneReleased.mgr.numBufs →
      ((twoPagesOneReleased.mgr.frame i).valid = true ↔
        twoPagesOneReleased.mgr.hashTable.countP (fun e => e.frameNo == i) = 1)) ∧
    (∀ e ∈ twoPagesOneReleased.mgr.hashTable, e.frameNo < twoPagesOneReleased.mgr.numBufs ∧
      e.file = (twoPagesOneReleased.mgr.frame e.frameNo).file ∧
      e.pageNo = (twoPagesOneReleased.mgr.frame e.frameNo).pageNo) ∧
    (∀ i j, i < twoPagesOneReleased.mgr.numBufs → j < twoPagesOneReleased.mgr.numBufs →
      (twoPagesOneReleased.mgr.frame i).valid = true →
      (twoPagesOneReleased.mgr.frame j).valid = true →
      (twoPagesOneReleased.mgr.frame i).file = (twoPagesOneReleased.mgr.frame j).file →
      (twoPagesOneReleased.mgr.frame i).pageNo = (twoPagesOneReleased.mgr.frame j).pageNo →
      i = j)) :=
  ⟨start_run_reachable plainStore _ 2 plainWorld,
    index_consistency plainStore twoPagesOneReleased.mgr twoPagesOneReleased.world
      (start_run_reachable plainStore _ 2 plainWorld)⟩

/-! ## Dirty frames and write-back -/

theorem setFrame_sameButRef (m : BufMgr) (i : Nat) (d : BufDesc)
    (hd : SameButRef (m.frame i) d) (j : Nat) :
    SameButRef (m.frame j) ((m.setFrame i d).frame j) := by
  by_cases hlen : i < m.bufTable.length
  · by_cases hj : i = j
    · subst hj
      rw [frame_setFrame_self _ _ hlen]
      exact hd
    · rw [frame_setFrame_ne _ _ hj]
      exact SameButRef.refl _
  · have hset : m.setFrame i d = m := by
      unfold BufMgr.setFrame
      rw [List.set_eq_of_length_le (not_lt.1 hlen)]
    rw [hset]
    exact SameButRef.refl _

/-- Facts about the sweep that hold in any state whatever. -/
theorem allocBufLoop_basic {σ : Type} (io : FileOps σ) (fuel : Nat) :
    ∀ (visits : Nat) (m : BufMgr) (w : World σ),
      (allocBufLoop io fuel visits m w).visits ≤ visits + fuel ∧
      ((allocBufLoop io fuel visits m w).status = Status.OK ∨
        (allocBufLoop io fuel visits m w).status = Status.UNIXERR ∨
        (allocBufLoop io fuel visits m w).status = Status.BUFFEREXCEEDED) ∧
      ((allocBufLoop io fuel visits m w).status = Status.UNIXERR →
        ∃ f p b st, st ≠ Status.OK ∧
          (allocBufLoop io fuel visits m w).world.trace = w.trace ++ [IOEvent.write f p b st]) ∧
      ((allocBufLoop io fuel visits m w).status = Status.BUFFEREXCEEDED →
        (allocBufLoop io fuel visits m w).world = w ∧
        (allocBufLoop io fuel visits m w).mgr.hashTable = m.hashTable ∧
        (allocBufLoop io fuel visits m w).mgr.bufPool = m.bufPool ∧
        ∀ j, SameButRef (m.frame j) ((allocBufLoop io fuel visits m w).mgr.frame j)) := by
  induction fuel with
  | zero =>
    intro visits m w
    refine ⟨le_refl _, Or.inr (Or.inr rfl), ?_, fun _ => ⟨rfl, rfl, rfl, fun j => SameButRef.refl _⟩⟩
    intro hs
    cases hs
  | succ fuel ih =>
    intro visits m w
    unfold allocBufLoop
    simp only []
    split_ifs with hv hr hp hd hw
    · refine ⟨?_, Or.inl rfl, ?_, ?_⟩
      · show visits + 1 ≤ _
        omega
      · intro hs; cases hs
      · intro hs; cases hs
    · obtain ⟨i1, i2, i3, i4⟩ := ih (visits + 1)
        (m.advanceClock.setFrame m.advanceClock.clockHand
          { m.advanceClock.frame m.advanceClock.clockHand with refbit := false }) w
      refine ⟨le_trans i1 (by omega), i2, i3, fun hs => ?_⟩
      obtain ⟨j1, j2, j3, j4⟩ := i4 hs
      refine ⟨j1, j2, j3, fun j => SameButRef.trans ?_ (j4 j)⟩
      exact setFrame_sameButRef m.advanceClock m.advanceClock.clockHand
        { m.advanceClock.frame m.advanceClock.clockHand with refbit := false }
        ⟨rfl, rfl, rfl, rfl, rfl, rfl⟩ j
    · refine ⟨?_, Or.inr (Or.inl rfl), fun _ => ?_, ?_⟩
      · show visits + 1 ≤ _
        omega
      · refine ⟨_, _, _, _, ?_, rfl⟩
        simpa using hw
      · intro hs; cases hs
    · refine ⟨?_, Or.inl rfl, ?_, ?_⟩
      · show visits + 1 ≤ _
        omega
      · intro hs; cases hs
      · intro hs; cases hs
    · refine ⟨?_, Or.inl rfl, ?_, ?_⟩
      · show visits + 1 ≤ _
        omega
      · intro hs; cases hs
      · intro hs; cases hs
    · obtain ⟨i1, i2, i3, i4⟩ := ih (visits + 1) m.advanceClock w
      exact ⟨le_trans i1 (by omega), i2, i3, i4⟩

theorem allocBufLoop_all_pinned {σ : Type} (io : FileOps σ) (fuel : Nat) :
    ∀ (visits : Nat) (m : BufMgr) (w : World σ), 0 < m.numBufs →
      (∀ i, i < m.numBufs → (m.frame i).valid = true ∧ (m.frame i).pinCnt ≠ 0) →
      (allocBufLoop io fuel visits m w).status = Status.BUFFEREXCEEDED := by
  induction fuel with
  | zero => intro visits m w _ _; rfl
  | succ fuel ih =>
    intro visits m w hpos hall
    obtain ⟨hv, hp⟩ := hall _ (clockHand_advanceClock_lt m hpos)
    unfold allocBufLoop
    simp only []
    split_ifs with hv2 hr hp2
    · rw [show m.advanceClock.frame m.advanceClock.clockHand
        = m.frame m.advanceClock.clockHand from rfl, hv] at hv2
      simp at hv2
    · refine ih _ _ _ hpos ?_
      intro i hi
      have hs := setFrame_sameButRef m.advanceClock m.advanceClock.clockHand
        { m.advanceClock.frame m.advanceClock.clockHand with refbit := false }
        ⟨rfl, rfl, rfl, rfl, rfl, rfl⟩ i
      obtain ⟨a1, a2⟩ := hall i hi
      exact ⟨hs.2.2.2.2.2.trans a1, by rw [hs.2.2.2.1]; exact a2⟩
    · exact absurd (by simpa using hp2) hp
    · exact absurd (by simpa using hp2) hp
    · exact absurd (by simpa using hp2) hp
    · exact ih _ _ _ hpos hall

/-- One step back in the sweep. -/
theorem SweptPinned.step {m n : BufMgr} {fuel : Nat} (r : SweptPinned n fuel)
    (hpos : 0 < m.numBufs) (hn : n.numBufs = m.numBufs) (hh : n.clockHand = (m.clockHand + 1) % m.numBufs)
    (hother : ∀ j, j ≠ n.clockHand → n.frame j = m.frame j)
    (hself : (n.frame n.clockHand).pinCnt = (m.frame n.clockHand).pinCnt)
    (href : (n.frame n.clockHand).refbit = false)
    (hv : (m.frame n.clockHand).valid = true)
    (hp : (m.frame n.clockHand).refbit = false → (m.frame n.clockHand).pinCnt ≠ 0) :
    SweptPinned m (fuel + 1) := by
  intro k hk
  cases k with
  | zero =>
    have hidx : (m.clockHand + 1 + 0) % m.numBufs = n.clockHand := by rw [hh]
    rw [hidx]
    exact ⟨hv, hp, fun hle => by omega⟩
  | succ k =>
    have hidx : (m.clockHand + 1 + (k + 1)) % m.numBufs = (n.clockHand + 1 + k) % n.numBufs := by
      rw [hh, hn, Nat.add_assoc ((m.clockHand + 1) % m.numBufs) 1 k, Nat.mod_add_mod]
      congr 1
      omega
    rw [hidx]
    have r2 := r k (by omega)
    by_cases hc : (n.clockHand + 1 + k) % n.numBufs = n.clockHand
    · rw [hc] at r2 ⊢
      refine ⟨hv, hp, fun _ => ?_⟩
      rw [← hself]
      exact r2.2.1 href
    · rw [hother _ hc] at r2
      refine ⟨r2.1, r2.2.1, fun hle => ?_⟩
      by_cases hle2 : n.numBufs ≤ k
      · exact r2.2.2 hle2
      · exfalso
        apply hc
        have hkN : k + 1 = n.numBufs := by omega
        have hlt : n.clockHand < n.numBufs := by
          rw [hh, hn]; exact Nat.mod_lt _ hpos
        rw [Nat.add_assoc, Nat.add_comm 1 k, hkN, Nat.add_mod_right]
        exact Nat.mod_eq_of_lt hlt

theorem allocBufLoop_exceeded_swept {σ : Type} (io : FileOps σ) (fuel : Nat) :
    ∀ (visits : Nat) (m : BufMgr) (w : World σ), 0 < m.numBufs →
      m.bufTable.length = m.numBufs →
      (allocBufLoop io fuel visits m w).status = Status.BUFFEREXCEEDED →
      SweptPinned m fuel := by
  induction fuel with
  | zero => intro visits m w _ _ _ k hk; omega
  | succ fuel ih =>
    intro visits m w hpos hlen hs
    have hh : m.advanceClock.clockHand < m.advanceClock.bufTable.length := by
      rw [bufTable_advanceClock, hlen]; exact clockHand_advanceClock_lt m hpos
    unfold allocBufLoop at hs
    simp only [] at hs
    split_ifs at hs with hv hr hp hd hw
    · have hv2 : (m.frame m.advanceClock.clockHand).valid = true := by simpa using hv
      have r := ih _ _ _ (by exact hpos) (by simpa using hlen) hs
      refine SweptPinned.step r hpos rfl rfl ?_ ?_ ?_ hv2 ?_
      · intro j hj
        exact frame_setFrame_ne m.advanceClock _ (Ne.symm hj)
      · simp only [clockHand_setFrame]
        rw [frame_setFrame_self m.advanceClock _ hh]
        rfl
      · simp only [clockHand_setFrame]
        rw [frame_setFrame_self m.advanceClock _ hh]
      · simp only [clockHand_setFrame]
        intro hc
        have hr2 : (m.frame m.advanceClock.clockHand).refbit = true := hr
        rw [hr2] at hc
        exact Bool.noConfusion hc
    · have hv2 : (m.frame m.advanceClock.clockHand).valid = true := by simpa using hv
      have r := ih _ _ _ (by exact hpos) (by exact hlen) hs
      refine SweptPinned.step r hpos rfl rfl (fun j _ => rfl) rfl ?_ hv2 ?_
      · have hr2 : ¬ (m.frame m.advanceClock.clockHand).refbit = true := hr
        simpa using hr2
      · intro _
        have hp2 : ¬ ((m.frame m.advanceClock.clockHand).pinCnt == 0) = true := hp
        simpa using hp2

theorem exists_second_visit (h N j : Nat) (hj : j < N) :
    ∃ k, N ≤ k ∧ k < 2 * N ∧ (h + k) % N = j := by
  have hN : 0 < N := by omega
  have h1 : h % N < N := Nat.mod_lt _ hN
  by_cases hle : h % N ≤ j
  · refine ⟨N + (j - h % N), by omega, by omega, ?_⟩
    rw [← Nat.mod_add_mod, show h % N + (N + (j - h % N)) = j + N by omega, Nat.add_mod_right]
    exact Nat.mod_eq_of_lt hj
  · refine ⟨N + (N + j - h % N), by omega, by omega, ?_⟩
    rw [← Nat.mod_add_mod, show h % N + (N + (N + j - h % N)) = j + N + N by omega,
      Nat.add_mod_right, Nat.add_mod_right]
    exact Nat.mod_eq_of_lt hj

/-- C4, amended (capacity-exhausted exactly when nothing is evictable): for
every frame table of `N >= 1` frames, whatever the pin counts, the reference
bits and the clock hand, `allocBuf` returns `BUFFEREXCEEDED` if and only if
every frame is valid with `pinCnt != 0`.  It never looks at more than `2N`
frames; when it
returns `BUFFEREXCEEDED` it has issued no call to the file store and has left
the index, the pool and every descriptor (apart from reference bits) as they
were; and its status is always `OK`, `UNIXERR` or `BUFFEREXCEEDED`, `UNIXERR`
only after a `writePage` that failed.  So with one frame invalid or unpinned it
returns `OK` or the I/O error within `2N` visits. -/
theorem allocBuf_exceeded_iff {σ : Type} (io : FileOps σ) (m : BufMgr) (w : World σ)
    (hN : 1 ≤ m.numBufs) (hlen : m.bufTable.length = m.numBufs) :
    ((allocBuf io m w).status = Status.BUFFEREXCEEDED ↔
      ∀ i, i < m.numBufs → (m.frame i).valid = true ∧ (m.frame i).pinCnt ≠ 0) ∧
    (allocBuf io m w).visits ≤ 2 * m.numBufs ∧
    ((allocBuf io m w).status = Status.BUFFEREXCEEDED →
      (allocBuf io m w).world = w ∧ (allocBuf io m w).mgr.hashTable = m.hashTable ∧
      (allocBuf io m w).mgr.bufPool = m.bufPool ∧
      ∀ j, SameButRef (m.frame j) ((allocBuf io m w).mgr.frame j)) ∧
    ((allocBuf io m w).status = Status.OK ∨ (allocBuf io m w).status = Status.UNIXERR ∨
      (allocBuf io m w).status = Status.BUFFEREXCEEDED) ∧
    ((allocBuf io m w).status = Status.UNIXERR →
      ∃ f p b st, st ≠ Status.OK ∧
        (allocBuf io m w).world.trace = w.trace ++ [IOEvent.write f p b st]) := by
  obtain ⟨b1, b2, b3, b4⟩ := allocBufLoop_basic io (2 * m.numBufs) 0 m w
  refine ⟨⟨?_, ?_⟩, by simpa [allocBuf] using b1, b4, b2, b3⟩
  · intro hs i hi
    have hsw := allocBufLoop_exceeded_swept io (2 * m.numBufs) 0 m w hN hlen hs
    obtain ⟨k, k1, k2, k3⟩ := exists_second_visit (m.clockHand + 1) m.numBufs i hi
    obtain ⟨s1, -, s3⟩ := hsw k k2
    rw [k3] at s1 s3
    exact ⟨s1, s3 k1⟩
  · intro hall
    exact allocBufLoop_all_pinned io (2 * m.numBufs) 0 m w hN hall

theorem allocBuf_exceeded_iff_witness :
    1 ≤ twoPagesHeld.mgr.numBufs ∧
    twoPagesHeld.mgr.bufTable.length = twoPagesHeld.mgr.numBufs ∧
    (allocBuf plainStore twoPagesHeld.mgr twoPagesHeld.world).status = Status.BUFFEREXCEEDED ∧
    (allocBuf plainStore twoPagesHeld.mgr twoPagesHeld.world).visits = 4 ∧
    (((allocBuf plainStore twoPagesHeld.mgr twoPagesHeld.world).status = Status.BUFFEREXCEEDED ↔
      ∀ i, i < twoPagesHeld.mgr.numBufs →
        (twoPagesHeld.mgr.frame i).valid = true ∧ (twoPagesHeld.mgr.frame i).pinCnt ≠ 0) ∧
    (allocBuf plainStore twoPagesHeld.mgr twoPagesHeld.world).visits
      ≤ 2 * twoPagesHeld.mgr.numBufs ∧
    ((allocBuf plainStore twoPagesHeld.mgr twoPagesHeld.world).status = Status.BUFFEREXCEEDED →
      (allocBuf plainStore twoPagesHeld.mgr twoPagesHeld.world).world = twoPagesHeld.world ∧
      (allocBuf plainStore twoPagesHeld.mgr twoPagesHeld.world).mgr.hashTable
        = twoPagesHeld.mgr.hashTable ∧
      (allocBuf plainStore twoPagesHeld.mgr twoPagesHeld.world).mgr.bufPool
        = twoPagesHeld.mgr.bufPool ∧
      ∀ j, SameButRef (twoPagesHeld.mgr.frame j)
        ((allocBuf plainStore twoPagesHeld.mgr twoPagesHeld.world).mgr.frame j)) ∧
    ((allocBuf plainStore twoPagesHeld.mgr twoPagesHeld.world).status = Status.OK ∨
      (allocBuf plainStore twoPagesHeld.mgr twoPagesHeld.world).status = Status.UNIXERR ∨
      (allocBuf plainStore twoPagesHeld.mgr twoPagesHeld.world).status
        = Status.BUFFEREXCEEDED) ∧
    ((allocBuf plainStore twoPagesHeld.mgr twoPagesHeld.world).status = Status.UNIXERR →
      ∃ f p b st, st ≠ Status.OK ∧
        (allocBuf plainStore twoPagesHeld.mgr twoPagesHeld.world).world.trace
          = twoPagesHeld.world.trace ++ [IOEvent.write f p b st])) :=
  ⟨by decide, by decide, by decide, by decide,
    allocBuf_exceeded_iff plainStore twoPagesHeld.mgr twoPagesHeld.world
      (by decide) (by decide)⟩

/-! ## Fetching a page -/

/-- A fetch that hits: in every state in which the index maps `(f,p)` to an
existing frame `i`, `readPage(f,p)` returns `OK` with the pool slot of frame
`i`, sets that frame's `refbit` and increments its `pinCnt` as an `int` -- by
one below `2147483647`, to `-2147483648` there --, issues no call to the file
store, and leaves the other fields of frame `i`, every other frame, the index,
the pool and the clock hand as they were. -/
theorem readPage_hit {σ : Type} (io : FileOps σ) (m : BufMgr) (w : World σ) (f : File)
    (p : Int) (i : Nat) (hl : m.hashTable.lookup f p = some i) (hi : i < m.bufTable.length) :
    (readPage io m w f p).status = Status.OK ∧
    (readPage io m w f p).page = some i ∧
    (readPage io m w f p).world = w ∧
    ((readPage io m w f p).mgr.frame i).refbit = true ∧
    ((readPage io m w f p).mgr.frame i).pinCnt = wrapInt ((m.frame i).pinCnt + 1) ∧
    (InRange (m.frame i).pinCnt → (m.frame i).pinCnt < 2147483647 →
      ((readPage io m w f p).mgr.frame i).pinCnt = (m.frame i).pinCnt + 1) ∧
    ((readPage io m w f p).mgr.frame i).file = (m.frame i).file ∧
    ((readPage io m w f p).mgr.frame i).pageNo = (m.frame i).pageNo ∧
    ((readPage io m w f p).mgr.frame i).valid = (m.frame i).valid ∧
    ((readPage io m w f p).mgr.frame i).dirty = (m.frame i).dirty ∧
    ((readPage io m w f p).mgr.frame i).frameNo = (m.frame i).frameNo ∧
    (∀ j, j ≠ i → (readPage io m w f p).mgr.frame j = m.frame j) ∧
    (readPage io m w f p).mgr.hashTable = m.hashTable ∧
    (readPage io m w f p).mgr.bufPool = m.bufPool ∧
    (readPage io m w f p).mgr.clockHand = m.clockHand ∧
    (readPage io m w f p).mgr.numBufs = m.numBufs := by
  have hr : readPage io m w f p =
      { status := Status.OK, page := some i, pageNo := none,
        mgr := m.setFrame i
          { m.frame i with refbit := true, pinCnt := wrapInt ((m.frame i).pinCnt + 1) },
        world := w } := by
    unfold readPage
    rw [hl]
  rw [hr]
  simp only [frame_setFrame_self m _ hi, hashTable_setFrame, bufPool_setFrame,
    clockHand_setFrame, numBufs_setFrame, true_and, and_true]
  refine ⟨fun hr hlt => wrapInt_succ hr hlt, ?_⟩
  intro j hj
  exact frame_setFrame_ne m _ (Ne.symm hj)

/-- A page that is not cached before the sweep is not cached after it. -/
theorem allocBuf_lookup_none {σ : Type} (io : FileOps σ) (m : BufMgr) (w : World σ)
    (h : WF m) (f : File) (p : Int) (hl : m.hashTable.lookup f p = none) :
    (allocBuf io m w).mgr.hashTable.lookup f p = none := by
  have r := allocBuf_spec io m w h
  rw [r.wf.lookup_none_iff]
  intro i hi hv hk
  rw [r.numBufs] at hi
  by_cases hsel : (allocBuf io m w).status = Status.OK ∧ i = (allocBuf io m w).frame
  · obtain ⟨hs, rfl⟩ := hsel
    rw [(r.sel hs).2.1] at hv
    exact Bool.noConfusion hv
  · have hs := r.others i (fun hs hc => hsel ⟨hs, hc⟩)
    rw [hs.1, hs.2.1] at hk
    exact (h.lookup_none_iff f p).1 hl i hi (hs.2.2.2.2.2.symm.trans hv) hk

/-- The result of a fetch that misses, finds a frame and reads the page. -/
theorem readPage_miss_eq {σ : Type} (io : FileOps σ) (m : BufMgr) (w : World σ) (f : File)
    (p : Int) (h : WF m) (hl : m.hashTable.lookup f p = none)
    (hs : (allocBuf io m w).status = Status.OK)
    (hr : (io.readPage (allocBuf io m w).world.store f p
      ((allocBuf io m w).mgr.pool (allocBuf io m w).frame)).1 = Status.OK) :
    readPage io m w f p =
      { status := Status.OK, page := some (allocBuf io m w).frame, pageNo := none,
        mgr := ({ (allocBuf io m w).mgr.setPool (allocBuf io m w).frame
            (io.readPage (allocBuf io m w).world.store f p
              ((allocBuf io m w).mgr.pool (allocBuf io m w).frame)).2.1 with
          hashTable := { file := f, pageNo := p, frameNo := (allocBuf io m w).frame } ::
            (allocBuf io m w).mgr.hashTable } : BufMgr).setFrame (allocBuf io m w).frame
            (((allocBuf io m w).mgr.frame (allocBuf io m w).frame).Set f p),
        world := (World.readPage io (allocBuf io m w).world f p
          ((allocBuf io m w).mgr.pool (allocBuf io m w).frame)).2.2 } := by
  have hnone := allocBuf_lookup_none io m w h f p hl
  have hins : ((allocBuf io m w).mgr.setPool (allocBuf io m w).frame
      (World.readPage io (allocBuf io m w).world f p
        ((allocBuf io m w).mgr.pool (allocBuf io m w).frame)).2.1).hashTable.insert f p
          (allocBuf io m w).frame
      = some ({ file := f, pageNo := p, frameNo := (allocBuf io m w).frame } ::
          (allocBuf io m w).mgr.hashTable) :=
    (insert_eq_some_iff _ _ _ _ _).2 ⟨hnone, rfl⟩
  have hr2 : (World.readPage io (allocBuf io m w).world f p
      ((allocBuf io m w).mgr.pool (allocBuf io m w).frame)).1 = Status.OK := hr
  unfold readPage
  rw [hl]
  simp only [hs, hr2, hins, bne_self_eq_false, Bool.false_eq_true, if_false]
  rfl

theorem lookup_cons_self (ht : BufHashTbl) (f : File) (p : Int) (i : Nat) :
    BufHashTbl.lookup ({ file := f, pageNo := p, frameNo := i } :: ht) f p = some i := by
  simp [BufHashTbl.lookup, List.find?_cons, HashEntry.hasKey]

/-- C7 (fetch miss): in every reachable state in which `(f,p)` is not in the
index, if `allocBuf` succeeds with frame `i` and the file's `readPage(p)`
succeeds, then `readPage(f,p)` returns `OK` with the pool slot of frame `i`,
that slot holds the bytes the file delivered, the index maps `(f,p)` to `i`, and
frame `i` is valid, owned by `f` with page number `p`, referenced, not dirty,
with `pinCnt` exactly 1.  Exactly one pin is added: the page held no pin before
the call and holds one after it, frame `i` was empty or had `pinCnt` 0, and no
other frame's `pinCnt` changes. -/
theorem readPage_miss {σ : Type} (io : FileOps σ) (m : BufMgr) (w : World σ) (f : File)
    (p : Int) (h : Reachable io m w) (hl : m.hashTable.lookup f p = none)
    (hs : (allocBuf io m w).status = Status.OK)
    (hr : (io.readPage (allocBuf io m w).world.store f p
      ((allocBuf io m w).mgr.pool (allocBuf io m w).frame)).1 = Status.OK) :
    (readPage io m w f p).status = Status.OK ∧
    (readPage io m w f p).page = some (allocBuf io m w).frame ∧
    (allocBuf io m w).frame < m.numBufs ∧
    (readPage io m w f p).mgr.pool (allocBuf io m w).frame =
      (io.readPage (allocBuf io m w).world.store f p
        ((allocBuf io m w).mgr.pool (allocBuf io m w).frame)).2.1 ∧
    (readPage io m w f p).mgr.hashTable.lookup f p = some (allocBuf io m w).frame ∧
    ((readPage io m w f p).mgr.frame (allocBuf io m w).frame).valid = true ∧
    ((readPage io m w f p).mgr.frame (allocBuf io m w).frame).file = f ∧
    ((readPage io m w f p).mgr.frame (allocBuf io m w).frame).pageNo = p ∧
    ((readPage io m w f p).mgr.frame (allocBuf io m w).frame).refbit = true ∧
    ((readPage io m w f p).mgr.frame (allocBuf io m w).frame).dirty = false ∧
    ((readPage io m w f p).mgr.frame (allocBuf io m w).frame).pinCnt = 1 ∧
    pinOf m f p = 0 ∧
    pinOf (readPage io m w f p).mgr f p = 1 ∧
    ((m.frame (allocBuf io m w).frame).valid = false ∨
      (m.frame (allocBuf io m w).frame).pinCnt = 0) ∧
    (∀ j, j ≠ (allocBuf io m w).frame →
      ((readPage io m w f p).mgr.frame j).pinCnt = (m.frame j).pinCnt) := by
  have hwf := h.wf
  have r := allocBuf_spec io m w hwf
  obtain ⟨s1, -, s3, -⟩ := r.sel hs
  have hlenT : (allocBuf io m w).frame < (allocBuf io m w).mgr.bufTable.length := by
    rw [r.wf.lenTable, r.numBufs]; exact s1
  have hlenP : (allocBuf io m w).frame < (allocBuf io m w).mgr.bufPool.length := by
    rw [r.wf.lenPool, r.numBufs]; exact s1
  have hwas : (m.frame (allocBuf io m w).frame).valid = false ∨
      (m.frame (allocBuf io m w).frame).pinCnt = 0 := by
    cases hv : (m.frame (allocBuf io m w).frame).valid
    · exact Or.inl rfl
    · exact Or.inr (s3.2 hv)
  have hbefore : pinOf m f p = 0 := by
    unfold pinOf
    rw [hl]
  rw [readPage_miss_eq io m w f p hwf hl hs hr]
  refine ⟨rfl, rfl, s1, ?_, ?_, ?_, ?_, ?_, ?_, ?_, ?_, hbefore, ?_, hwas, ?_⟩
  · exact pool_setPool_self _ _ hlenP
  · exact lookup_cons_self _ _ _ _
  · exact congrArg BufDesc.valid (frame_setFrame_self _ _ hlenT)
  · exact congrArg BufDesc.file (frame_setFrame_self _ _ hlenT)
  · exact congrArg BufDesc.pageNo (frame_setFrame_self _ _ hlenT)
  · exact congrArg BufDesc.refbit (frame_setFrame_self _ _ hlenT)
  · exact congrArg BufDesc.dirty (frame_setFrame_self _ _ hlenT)
  · exact congrArg BufDesc.pinCnt (frame_setFrame_self _ _ hlenT)
  · unfold pinOf
    simp only [hashTable_setFrame, lookup_cons_self]
    exact congrArg BufDesc.pinCnt (frame_setFrame_self _ _ hlenT)
  · intro j hj
    have h1 := r.others j (fun _ => hj)
    have h2 : ∀ (n : BufMgr) (d : BufDesc), n.bufTable = (allocBuf io m w).mgr.bufTable →
        (n.setFrame (allocBuf io m w).frame d).frame j = (allocBuf io m w).mgr.frame j := by
      intro n d hn
      rw [frame_setFrame_ne _ _ (Ne.symm hj)]
      simp [BufMgr.frame, hn]
    exact (congrArg BufDesc.pinCnt (h2 _ _ rfl)).trans h1.2.2.2.1

theorem readPage_miss_witness :
    Reachable plainStore twoPagesOneReleased.mgr twoPagesOneReleased.world ∧
    twoPagesOneReleased.mgr.hashTable.lookup 1 30 = none ∧
    (allocBuf plainStore twoPagesOneReleased.mgr twoPagesOneReleased.world).status
      = Status.OK ∧
    (allocBuf plainStore twoPagesOneReleased.mgr twoPagesOneReleased.world).frame = 0 ∧
    ((readPage plainStore twoPagesOneReleased.mgr twoPagesOneReleased.world 1 30).status
      = Status.OK ∧
    (readPage plainStore twoPagesOneReleased.mgr twoPagesOneReleased.world 1 30).page =
      some (allocBuf plainStore twoPagesOneReleased.mgr twoPagesOneReleased.world).frame ∧
    (allocBuf plainStore twoPagesOneReleased.mgr twoPagesOneReleased.world).frame
      < twoPagesOneReleased.mgr.numBufs ∧
    (readPage plainStore twoPagesOneReleased.mgr twoPagesOneReleased.world 1 30).mgr.pool
        (allocBuf plainStore twoPagesOneReleased.mgr twoPagesOneReleased.world).frame =
      (plainStore.readPage
        (allocBuf plainStore twoPagesOneReleased.mgr twoPagesOneReleased.world).world.store 1 30
        ((allocBuf plainStore twoPagesOneReleased.mgr twoPagesOneReleased.world).mgr.pool
          (allocBuf plainStore twoPagesOneReleased.mgr twoPagesOneReleased.world).frame)).2.1 ∧
    (readPage plainStore twoPagesOneReleased.mgr twoPagesOneReleased.world 1
        30).mgr.hashTable.lookup 1 30 =
      some (allocBuf plainStore twoPagesOneReleased.mgr twoPagesOneReleased.world).frame ∧
    ((readPage plainStore twoPagesOneReleased.mgr twoPagesOneReleased.world 1 30).mgr.frame
      (allocBuf plainStore twoPagesOneReleased.mgr twoPagesOneReleased.world).frame).valid
      = true ∧
    ((readPage plainStore twoPagesOneReleased.mgr twoPagesOneReleased.world 1 30).mgr.frame
      (allocBuf plainStore twoPagesOneReleased.mgr twoPagesOneReleased.world).frame).file = 1 ∧
    ((readPage plainStore twoPagesOneReleased.mgr twoPagesOneReleased.world 1 30).mgr.frame
      (allocBuf plainStore twoPagesOneReleased.mgr twoPagesOneReleased.world).frame).pageNo
      = 30 ∧
    ((readPage plainStore twoPagesOneReleased.mgr twoPagesOneReleased.world 1 30).mgr.frame
      (allocBuf plainStore twoPagesOneReleased.mgr twoPagesOneReleased.world).frame).refbit
      = true ∧
    ((readPage plainStore twoPagesOneReleased.mgr twoPagesOneReleased.world 1 30).mgr.frame
      (allocBuf plainStore twoPagesOneReleased.mgr twoPagesOneReleased.world).frame).dirty
      = false ∧
    ((readPage plainStore twoPagesOneReleased.mgr twoPagesOneReleased.world 1 30).mgr.frame
      (allocBuf plainStore twoPagesOneReleased.mgr twoPagesOneReleased.world).frame).pinCnt
      = 1 ∧
    pinOf twoPagesOneReleased.mgr 1 30 = 0 ∧
    pinOf (readPage plainStore twoPagesOneReleased.mgr twoPagesOneReleased.world 1 30).mgr 1 30
      = 1 ∧
    ((twoPagesOneReleased.mgr.frame
        (allocBuf plainStore twoPagesOneReleased.mgr twoPagesOneReleased.world).frame).valid
        = false ∨
      (twoPagesOneReleased.mgr.frame
        (allocBuf plainStore twoPagesOneReleased.mgr twoPagesOneReleased.world).frame).pinCnt
        = 0) ∧
    (∀ j, j ≠ (allocBuf plainStore twoPagesOneReleased.mgr twoPagesOneReleased.world).frame →
      ((readPage plainStore twoPagesOneReleased.mgr twoPagesOneReleased.world 1 30).mgr.frame
        j).pinCnt = (twoPagesOneReleased.mgr.frame j).pinCnt)) :=
  ⟨start_run_reachable plainStore _ 2 plainWorld, by decide, by decide, by decide,
    readPage_miss plainStore twoPagesOneReleased.mgr twoPagesOneReleased.world 1 30
      (start_run_reachable plainStore _ 2 plainWorld) (by decide) (by decide) (by decide)⟩

/-! ## Releasing a page -/

theorem WF.pinOf_inRange {m : BufMgr} (h : WF m) (f : File) (p : Int) :
    InRange (pinOf m f p) := by
  unfold pinOf
  split
  · next i hl => exact h.pin i ((h.lookup_iff f p i).1 hl).1
  · exact inRange_zero

/-- Pins cannot grow beyond what they were (or beyond none) when every frame
that caches the page did so before, with at least as many pins. -/
theorem pinOf_mono {m n : BufMgr} (hm : WF m) (hn : WF n) (hN : n.numBufs = m.numBufs)
    (f : File) (p : Int)
    (hfr : ∀ i, i < m.numBufs → (n.frame i).valid = true → (n.frame i).file = f →
      (n.frame i).pageNo = p → (m.frame i).valid = true ∧ (m.frame i).file = f ∧
        (m.frame i).pageNo = p ∧ (n.frame i).pinCnt ≤ (m.frame i).pinCnt) :
    pinOf n f p ≤ max (pinOf m f p) 0 := by
  cases hl : n.hashTable.lookup f p with
  | none =>
    have : pinOf n f p = 0 := by unfold pinOf; rw [hl]
    rw [this]
    exact le_max_right _ _
  | some i =>
    obtain ⟨hi, hv, hf, hp⟩ := (hn.lookup_iff f p i).1 hl
    rw [hN] at hi
    obtain ⟨a1, a2, a3, a4⟩ := hfr i hi hv hf hp
    have hl2 := (hm.lookup_iff f p i).2 ⟨hi, a1, a2, a3⟩
    have e1 : pinOf n f p = (n.frame i).pinCnt := by unfold pinOf; rw [hl]
    have e2 : pinOf m f p = (m.frame i).pinCnt := by unfold pinOf; rw [hl2]
    rw [e1, e2]
    exact le_trans a4 (le_max_left _ _)

theorem allocBuf_pinOf_le {σ : Type} (io : FileOps σ) (m : BufMgr) (w : World σ) (h : WF m)
    (f : File) (p : Int) : pinOf (allocBuf io m w).mgr f p ≤ max (pinOf m f p) 0 := by
  have r := allocBuf_spec io m w h
  apply pinOf_mono h r.wf r.numBufs
  intro i hi hv hf hp
  by_cases hsel : (allocBuf io m w).status = Status.OK ∧ i = (allocBuf io m w).frame
  · obtain ⟨hs, rfl⟩ := hsel
    rw [(r.sel hs).2.1] at hv
    exact Bool.noConfusion hv
  · have hs := r.others i (fun hs hc => hsel ⟨hs, hc⟩)
    exact ⟨hs.2.2.2.2.2.symm.trans hv, hs.1.symm.trans hf, hs.2.1.symm.trans hp, le_of_eq hs.2.2.2.1⟩

theorem pinOf_setPool (m : BufMgr) (i : Nat) (b : Page) (f : File) (p : Int) :
    pinOf (m.setPool i b) f p = pinOf m f p := rfl

/-- Pins after an empty frame is bound to page `(g,q)` with one pin. -/
theorem pinOf_install {a : BufMgr} (h : WF a) {i : Nat} (hi : i < a.numBufs)
    (hv : (a.frame i).valid = false) (g : File) (q : Int)
    (hnone : a.hashTable.lookup g q = none) (f : File) (p : Int) :
    pinOf (({ a with hashTable := { file := g, pageNo := q, frameNo := i } :: a.hashTable } :
      BufMgr).setFrame i ((a.frame i).Set g q)) f p
      ≤ max (pinOf a f p) 0 + (if g = f ∧ q = p then 1 else 0) := by
  have hlen : i < a.bufTable.length := by rw [h.lenTable]; exact hi
  have hwf := h.install hi hv g q hnone ((a.frame i).Set g q) rfl rfl rfl inRange_one
  have hself := frame_setFrame_self
    ({ a with hashTable := { file := g, pageNo := q, frameNo := i } :: a.hashTable } : BufMgr)
    ((a.frame i).Set g q) hlen
  have hother : ∀ j, i ≠ j → (({ a with hashTable :=
      { file := g, pageNo := q, frameNo := i } :: a.hashTable } : BufMgr).setFrame i
      ((a.frame i).Set g q)).frame j = a.frame j := fun j hij => frame_setFrame_ne _ _ hij
  by_cases hk : g = f ∧ q = p
  · obtain ⟨rfl, rfl⟩ := hk
    have e1 : pinOf (({ a with hashTable := { file := g, pageNo := q, frameNo := i } ::
        a.hashTable } : BufMgr).setFrame i ((a.frame i).Set g q)) g q = 1 := by
      unfold pinOf
      rw [hashTable_setFrame]
      simp only [lookup_cons_self]
      rw [hself]
      rfl
    rw [e1]
    simp only [and_self, if_true]
    omega
  · rw [if_neg hk, add_zero]
    apply pinOf_mono h hwf rfl
    intro j hj hvj hfj hpj
    have hne : i ≠ j := by
      intro hij
      subst hij
      rw [hself] at hfj hpj
      exact hk ⟨hfj, hpj⟩
    rw [hother j hne] at hvj hfj hpj ⊢
    exact ⟨hvj, hfj, hpj, le_refl _⟩

/-- Pins after the descriptor of the frame caching `(g,q)` is rewritten with
`c` pins, its key and validity kept. -/
theorem pinOf_setFrame_cached {m : BufMgr} (h : WF m) {i : Nat} (g : File) (q : Int)
    (hl : m.hashTable.lookup g q = some i) (d : BufDesc) (f : File) (p : Int) :
    pinOf (m.setFrame i d) f p = if g = f ∧ q = p then d.pinCnt else pinOf m f p := by
  obtain ⟨hi, hv, hf, hp⟩ := (h.lookup_iff g q i).1 hl
  have hlen : i < m.bufTable.length := by rw [h.lenTable]; exact hi
  by_cases hk : g = f ∧ q = p
  · obtain ⟨rfl, rfl⟩ := hk
    simp only [and_self, if_true]
    unfold pinOf
    rw [hashTable_setFrame, hl]
    simp only []
    rw [frame_setFrame_self _ _ hlen]
  · rw [if_neg hk]
    unfold pinOf
    rw [hashTable_setFrame]
    cases hl2 : m.hashTable.lookup f p with
    | none => rfl
    | some j =>
      simp only []
      have hne : i ≠ j := by
        intro hij
        subst hij
        obtain ⟨-, -, hf2, hp2⟩ := (h.lookup_iff f p i).1 hl2
        exact hk ⟨hf.symm.trans hf2, hp.symm.trans hp2⟩
      rw [frame_setFrame_ne _ _ hne]

theorem readPage_pinOf {σ : Type} (io : FileOps σ) (m : BufMgr) (w : World σ) (g : File)
    (q : Int) (h : WF m) (f : File) (p : Int) :
    pinOf (readPage io m w g q).mgr f p ≤
      max (pinOf m f p) 0 +
        (if (readPage io m w g q).status = Status.OK ∧ g = f ∧ q = p then 1 else 0) := by
  have hnn : (0 : Int) ≤
      (if (readPage io m w g q).status = Status.OK ∧ g = f ∧ q = p then 1 else 0) := by
    split_ifs <;> decide
  cases hl : m.hashTable.lookup g q with
  | none =>
    have r := allocBuf_spec io m w h
    have hle := allocBuf_pinOf_le io m w h f p
    by_cases hs : (allocBuf io m w).status = Status.OK
    · by_cases hrd : (io.readPage (allocBuf io m w).world.store g q
          ((allocBuf io m w).mgr.pool (allocBuf io m w).frame)).1 = Status.OK
      · obtain ⟨s1, s2, -, -⟩ := r.sel hs
        have heq := readPage_miss_eq io m w g q h hl hs hrd
        have hinst := pinOf_install (r.wf.setPool (allocBuf io m w).frame
          (io.readPage (allocBuf io m w).world.store g q
            ((allocBuf io m w).mgr.pool (allocBuf io m w).frame)).2.1)
          (i := (allocBuf io m w).frame) (by rw [numBufs_setPool, r.numBufs]; exact s1) s2 g q
          (allocBuf_lookup_none io m w h g q hl) f p
        rw [pinOf_setPool] at hinst
        rw [heq]
        simp only [true_and]
        exact le_trans hinst (by omega)
      · have heq : (readPage io m w g q).mgr = (allocBuf io m w).mgr.setPool
            (allocBuf io m w).frame (io.readPage (allocBuf io m w).world.store g q
              ((allocBuf io m w).mgr.pool (allocBuf io m w).frame)).2.1 := by
          have hrd2 : ¬ (World.readPage io (allocBuf io m w).world g q
            ((allocBuf io m w).mgr.pool (allocBuf io m w).frame)).1 = Status.OK := hrd
          unfold readPage
          rw [hl]
          simp only [hs, hrd2, bne_self_eq_false, Bool.false_eq_true, if_false, bne_iff_ne, ne_eq,
            not_false_eq_true, if_true]
          rfl
        rw [heq, pinOf_setPool]
        omega
    · have heq : (readPage io m w g q).mgr = (allocBuf io m w).mgr := by
        unfold readPage
        rw [hl]
        simp only [hs, bne_iff_ne, ne_eq, not_false_eq_true, if_true]
      rw [heq]
      omega
  | some i =>
    obtain ⟨hi, -, -, -⟩ := (h.lookup_iff g q i).1 hl
    have heq : readPage io m w g q =
        { status := Status.OK, page := some i, pageNo := none,
          mgr := m.setFrame i
            { m.frame i with refbit := true, pinCnt := wrapInt ((m.frame i).pinCnt + 1) },
          world := w } := by
      unfold readPage
      rw [hl]
    rw [heq, pinOf_setFrame_cached h g q hl]
    by_cases hk : g = f ∧ q = p
    · obtain ⟨rfl, rfl⟩ := hk
      have e2 : pinOf m g q = (m.frame i).pinCnt := by unfold pinOf; rw [hl]
      have e3 := wrapInt_succ_le (h.pin i hi)
      simp only [and_self, if_true, e2]
      omega
    · simp only [hk, and_false, if_false, add_zero]
      exact le_max_left _ _

theorem unPinPage_pinOf {σ : Type} (m : BufMgr) (w : World σ) (g : File) (q : Int) (d : Bool)
    (h : WF m) (f : File) (p : Int) :
    pinOf (unPinPage m w g q d).mgr f p +
      (if (unPinPage m w g q d).status = Status.OK ∧ g = f ∧ q = p then 1 else 0)
      ≤ pinOf m f p ∧
    ((unPinPage m w g q d).status = Status.OK ∧ g = f ∧ q = p → 0 < pinOf m f p) := by
  cases hl : m.hashTable.lookup g q with
  | none =>
    have heq : unPinPage m w g q d =
        { status := Status.HASHNOTFOUND, page := none, pageNo := none, mgr := m, world := w } := by
      unfold unPinPage
      rw [hl]
    rw [heq]
    simp
  | some i =>
    by_cases hp : (m.frame i).pinCnt ≤ 0
    · have heq : unPinPage m w g q d =
          { status := Status.PAGENOTPINNED, page := none, pageNo := none, mgr := m,
            world := w } := by
        unfold unPinPage
        rw [hl]
        simp only [hp, if_true]
      rw [heq]
      simp
    · have heq : unPinPage m w g q d =
          { status := Status.OK, page := none, pageNo := none,
            mgr := m.setFrame i { m.frame i with pinCnt := (m.frame i).pinCnt - 1,
                                                  dirty := (m.frame i).dirty || d },
            world := w } := by
        unfold unPinPage
        rw [hl]
        simp only [hp, if_false]
        cases d <;> simp
      rw [heq, pinOf_setFrame_cached h g q hl]
      by_cases hk : g = f ∧ q = p
      · obtain ⟨rfl, rfl⟩ := hk
        have e2 : pinOf m g q = (m.frame i).pinCnt := by unfold pinOf; rw [hl]
        simp only [and_self, if_true, e2]
        omega
      · simp [hk]

theorem allocPage_pinOf {σ : Type} (io : FileOps σ) (m : BufMgr) (w : World σ) (g : File)
    (h : WF m) (f : File) (p : Int) :
    pinOf (allocPage io m w g).mgr f p ≤
      max (pinOf m f p) 0 + (if (allocPage io m w g).status = Status.OK ∧ g = f ∧
        (allocPage io m w g).pageNo = some p then 1 else 0) := by
  have hnn : (0 : Int) ≤ (if (allocPage io m w g).status = Status.OK ∧ g = f ∧
      (allocPage io m w g).pageNo = some p then 1 else 0) := by
    split_ifs <;> decide
  have r := allocBuf_spec io m (World.allocatePage io w g).2.2 h
  have hle := allocBuf_pinOf_le io m (World.allocatePage io w g).2.2 h f p
  by_cases ha : (World.allocatePage io w g).1 = Status.OK
  · by_cases hs : (allocBuf io m (World.allocatePage io w g).2.2).status = Status.OK
    · obtain ⟨s1, s2, -, -⟩ := r.sel hs
      cases hins : (allocBuf io m (World.allocatePage io w g).2.2).mgr.hashTable.insert g
          (World.allocatePage io w g).2.1 (allocBuf io m (World.allocatePage io w g).2.2).frame with
      | none =>
        have heq : (allocPage io m w g).mgr = (allocBuf io m (World.allocatePage io w g).2.2).mgr := by
          unfold allocPage
          simp only [ha, hs, hins, bne_self_eq_false, Bool.false_eq_true, if_false]
        rw [heq]
        omega
      | some ht =>
        obtain ⟨hnone, rfl⟩ := (insert_eq_some_iff _ _ _ _ _).1 hins
        have heq : allocPage io m w g =
            { status := Status.OK,
              page := some (allocBuf io m (World.allocatePage io w g).2.2).frame,
              pageNo := some (World.allocatePage io w g).2.1,
              mgr := ({ (allocBuf io m (World.allocatePage io w g).2.2).mgr with
                hashTable :=
                  { file := g
                    pageNo := (World.allocatePage io w g).2.1
                    frameNo := (allocBuf io m (World.allocatePage io w g).2.2).frame } ::
                  (allocBuf io m (World.allocatePage io w g).2.2).mgr.hashTable } :
                  BufMgr).setFrame (allocBuf io m (World.allocatePage io w g).2.2).frame
                (((allocBuf io m (World.allocatePage io w g).2.2).mgr.frame
                  (allocBuf io m (World.allocatePage io w g).2.2).frame).Set g
                    (World.allocatePage io w g).2.1),
              world := (allocBuf io m (World.allocatePage io w g).2.2).world } := by
          unfold allocPage
          simp only [ha, hs, hins, bne_self_eq_false, Bool.false_eq_true, if_false]
          rfl
        have hinst := pinOf_install r.wf (i := (allocBuf io m (World.allocatePage io w g).2.2).frame)
          (by rw [r.numBufs]; exact s1) s2 g (World.allocatePage io w g).2.1 hnone f p
        rw [heq]
        simp only [true_and, Option.some.injEq]
        exact le_trans hinst (by omega)
    · have heq : (allocPage io m w g).mgr = (allocBuf io m (World.allocatePage io w g).2.2).mgr := by
        unfold allocPage
        simp only [ha, hs, bne_self_eq_false, Bool.false_eq_true, if_false, bne_iff_ne, ne_eq,
          not_false_eq_true, if_true]
      rw [heq]
      omega
  · have heq : (allocPage io m w g).mgr = m := by
      unfold allocPage
      simp only [ha, bne_iff_ne, ne_eq, not_false_eq_true, if_true]
    rw [heq]
    omega

theorem disposePage_pinOf {σ : Type} (io : FileOps σ) (m : BufMgr) (w : World σ) (g : File)
    (q : Int) (h : WF m) (f : File) (p : Int) :
    pinOf (disposePage io m w g q).mgr f p ≤ max (pinOf m f p) 0 := by
  apply pinOf_mono h (disposePage_WF io m w g q h)
  · unfold disposePage
    simp only []
    split <;> rfl
  · intro i hi hv hf hp
    unfold disposePage at hv hf hp ⊢
    simp only [] at hv hf hp ⊢
    split at hv
    · next j hl =>
      simp only [hl] at hf hp ⊢
      have hlen : j < m.bufTable.length := by
        rw [h.lenTable]; exact ((h.lookup_iff g q j).1 hl).1
      by_cases hij : j = i
      · subst hij
        rw [frame_hashRemove, frame_setFrame_self _ _ hlen] at hv
        exact Bool.noConfusion hv
      · rw [frame_hashRemove, frame_setFrame_ne _ _ hij] at hv hf hp ⊢
        exact ⟨hv, hf, hp, le_refl _⟩
    · next hl =>
      simp only [hl] at hf hp ⊢
      exact ⟨hv, hf, hp, le_refl _⟩

theorem flushFile_pinOf {σ : Type} (io : FileOps σ) (m : BufMgr) (w : World σ) (g : File)
    (h : WF m) (f : File) (p : Int) :
    pinOf (flushFile io m w g).mgr f p ≤ max (pinOf m f p) 0 := by
  have r := flushFile_spec io m w g h
  apply pinOf_mono h r.wf r.numBufs
  intro i hi hv hf hp
  rcases r.frames i with hr | hr
  · rw [hr] at hv hf hp ⊢
    exact ⟨hv, hf, hp, le_refl _⟩
  · rw [hr.2.2.2.1] at hv
    exact Bool.noConfusion hv

theorem exec_PinBound {σ : Type} (io : FileOps σ) (c : Config σ) (op : Op) (hwf : WF c.mgr)
    (hb : PinBound c) : PinBound (exec io c op) := by
  intro f p
  obtain ⟨hfp, hfq⟩ := hb f p
  simp only [exec, List.countP_append, List.countP_singleton, Nat.cast_add, Nat.cast_ite,
    Nat.cast_one, Nat.cast_zero]
  cases op with
  | readPage g q =>
    have h1 := readPage_pinOf io c.mgr c.world g q hwf f p
    simp only [step, Outcome.acquired, Outcome.released, Bool.and_eq_true, beq_iff_eq,
      Bool.and_false, Bool.false_eq_true, if_false, add_zero]
    split_ifs at h1 ⊢ <;> omega
  | unPinPage g q d =>
    obtain ⟨h1, h2⟩ := unPinPage_pinOf c.mgr c.world g q d hwf f p
    simp only [step, Outcome.acquired, Outcome.released, Bool.and_eq_true, beq_iff_eq,
      Bool.and_false, Bool.false_eq_true, if_false, add_zero]
    split_ifs at h1 ⊢ with hc
    · have := h2 hc
      omega
    · omega
  | allocPage g =>
    have h1 := allocPage_pinOf io c.mgr c.world g hwf f p
    simp only [step, Outcome.acquired, Outcome.released, Bool.and_eq_true, beq_iff_eq,
      Bool.and_false, Bool.false_eq_true, if_false, add_zero]
    split_ifs at h1 ⊢ <;> omega
  | disposePage g q =>
    have h1 := disposePage_pinOf io c.mgr c.world g q hwf f p
    simp only [step, Outcome.acquired, Outcome.released, Bool.and_eq_true, beq_iff_eq,
      Bool.and_false, Bool.false_eq_true, if_false, add_zero]
    omega
  | flushFile g =>
    have h1 := flushFile_pinOf io c.mgr c.world g hwf f p
    simp only [step, Outcome.acquired, Outcome.released, Bool.and_eq_true, beq_iff_eq,
      Bool.and_false, Bool.false_eq_true, if_false, add_zero]
    omega

theorem run_PinBound {σ : Type} (io : FileOps σ) (ops : List Op) :
    ∀ c : Config σ, WF c.mgr → PinBound c →
      WF (run io ops c).mgr ∧ PinBound (run io ops c) := by
  induction ops with
  | nil => intro c h1 h2; exact ⟨h1, h2⟩
  | cons op ops ih =>
    intro c h1 h2
    exact ih (exec io c op) (step_WF io op c.mgr c.world h1) (exec_PinBound io c op h1 h2)

theorem start_PinBound {σ : Type} (bufs : Nat) (w : World σ) : PinBound (start bufs w) := by
  intro f p
  simp [start, pinOf, BufMgr.init, BufHashTbl.lookup]

theorem start_run_PinBound {σ : Type} (io : FileOps σ) (ops : List Op) (bufs : Nat)
    (w : World σ) :
    WF (run io ops (start bufs w)).mgr ∧ PinBound (run io ops (start bufs w)) :=
  run_PinBound io ops _ (WF.init bufs) (start_PinBound bufs w)

/-- C9 (pin symmetry, count bound): for every sequence of public calls made on a
freshly constructed manager, every prefix of it and every page `(f,p)`, the
number of `unPinPage(f,p,_)` calls that returned `OK` is at most the number of
`readPage(f,p)` calls that returned `OK` plus the number of `allocPage(f)` calls
that returned `OK` with page number `p`. -/
theorem pin_symmetry_count {σ : Type} (io : FileOps σ) (bufs : Nat) (w : World σ)
    (ops : List Op) (n : Nat) (f : File) (p : Int) :
    (run io (ops.take n) (start bufs w)).log.countP (Outcome.released f p) ≤
      (run io (ops.take n) (start bufs w)).log.countP (Outcome.acquired f p) := by
  obtain ⟨-, hb⟩ := start_run_PinBound io (ops.take n) bufs w
  exact (hb f p).2

/-- C10, amended (pin symmetry, extra unpin): for every sequence of public calls
made on a freshly constructed manager and every page `(f,p)`, if the number of
successful `unPinPage` calls for `(f,p)` equals the number of successful
`readPage`/`allocPage` calls for `(f,p)`, then an `unPinPage(f,p,_)` issued at
that point does not return `OK`: it returns `PAGENOTPINNED` when `(f,p)` is
cached and `HASHNOTFOUND` when it is not. -/
theorem extra_unPin_fails {σ : Type} (io : FileOps σ) (bufs : Nat) (w : World σ)
    (ops : List Op) (f : File) (p : Int) (d : Bool)
    (heq : (run io ops (start bufs w)).log.countP (Outcome.released f p) =
      (run io ops (start bufs w)).log.countP (Outcome.acquired f p)) :
    (unPinPage (run io ops (start bufs w)).mgr (run io ops (start bufs w)).world f p d).status
      ≠ Status.OK ∧
    ((run io ops (start bufs w)).mgr.hashTable.lookup f p ≠ none →
      (unPinPage (run io ops (start bufs w)).mgr (run io ops (start bufs w)).world f p d).status
        = Status.PAGENOTPINNED) ∧
    ((run io ops (start bufs w)).mgr.hashTable.lookup f p = none →
      (unPinPage (run io ops (start bufs w)).mgr (run io ops (start bufs w)).world f p d).status
        = Status.HASHNOTFOUND) := by
  obtain ⟨hwf, hb⟩ := start_run_PinBound io ops bufs w
  have h1 := (hb f p).1
  have h0 : pinOf (run io ops (start bufs w)).mgr f p ≤ 0 := by omega
  cases hl : (run io ops (start bufs w)).mgr.hashTable.lookup f p with
  | none =>
    have hr : (unPinPage (run io ops (start bufs w)).mgr (run io ops (start bufs w)).world
        f p d).status = Status.HASHNOTFOUND := by
      unfold unPinPage
      rw [hl]
    rw [hr]
    simp
  | some i =>
    have hpin : ((run io ops (start bufs w)).mgr.frame i).pinCnt ≤ 0 := by
      unfold pinOf at h0
      rw [hl] at h0
      exact h0
    have hr : (unPinPage (run io ops (start bufs w)).mgr (run io ops (start bufs w)).world
        f p d).status = Status.PAGENOTPINNED := by
      unfold unPinPage
      rw [hl]
      simp only [hpin, if_true]
    rw [hr]
    simp

theorem extra_unPin_fails_witness :
    fetchedAndReleased.log.countP (Outcome.released 1 10) = 1 ∧
    fetchedAndReleased.log.countP (Outcome.acquired 1 10) = 1 ∧
    fetchedAndReleased.mgr.hashTable.lookup 1 10 = some 0 ∧
    ((unPinPage fetchedAndReleased.mgr fetchedAndReleased.world 1 10 true).status
      ≠ Status.OK ∧
    (fetchedAndReleased.mgr.hashTable.lookup 1 10 ≠ none →
      (unPinPage fetchedAndReleased.mgr fetchedAndReleased.world 1 10 true).status
        = Status.PAGENOTPINNED) ∧
    (fetchedAndReleased.mgr.hashTable.lookup 1 10 = none →
      (unPinPage fetchedAndReleased.mgr fetchedAndReleased.world 1 10 true).status
        = Status.HASHNOTFOUND)) :=
  ⟨by decide, by decide, by decide,
    extra_unPin_fails plainStore 2 plainWorld
      [Op.readPage 1 10, Op.unPinPage 1 10 false] 1 10 true (by decide)⟩

/-- C10 as stated fails when the page is not cached.  On a fresh manager no call
for `(1,10)` has succeeded (0 releases, 0 acquisitions) and `unPinPage(1,10)`
returns `HASHNOTFOUND`; and with capacity 1, after `(1,10)` was fetched, released
and then evicted by the fetch of `(1,20)` (1 release, 1 acquisition),
`unPinPage(1,10)` returns `HASHNOTFOUND` again -- not `PAGENOTPINNED`. -/
theorem extra_unPin_not_found :
    ((start 2 plainWorld).log.countP (Outcome.released 1 10) =
      (start 2 plainWorld).log.countP (Outcome.acquired 1 10) ∧
    (unPinPage (start 2 plainWorld).mgr (start 2 plainWorld).world 1 10 false).status
      = Status.HASHNOTFOUND ∧
    (unPinPage (start 2 plainWorld).mgr (start 2 plainWorld).world 1 10 false).status
      ≠ Status.PAGENOTPINNED) ∧
    (releasedThenEvicted.log.map Outcome.status = [Status.OK, Status.OK, Status.OK] ∧
    releasedThenEvicted.log.countP (Outcome.released 1 10) = 1 ∧
    releasedThenEvicted.log.countP (Outcome.acquired 1 10) = 1 ∧
    (unPinPage releasedThenEvicted.mgr releasedThenEvicted.world 1 10 false).status
      = Status.HASHNOTFOUND ∧
    (unPinPage releasedThenEvicted.mgr releasedThenEvicted.world 1 10 false).status
      ≠ Status.PAGENOTPINNED) := by
  decide

/-! ## The fill / exhaust / release scenario -/

/-- With the next frame under the hand empty, the sweep takes it at once. -/
theorem allocBuf_free_next {σ : Type} (io : FileOps σ) (m : BufMgr) (w : World σ)
    (hN : 0 < m.numBufs) (hv : (m.frame ((m.clockHand + 1) % m.numBufs)).valid = false) :
    allocBuf io m w =
      { status := Status.OK, frame := (m.clockHand + 1) % m.numBufs, visits := 1,
        mgr := m.advanceClock, world := w } := by
  obtain ⟨k, hk⟩ : ∃ k, 2 * m.numBufs = k + 1 := ⟨2 * m.numBufs - 1, by omega⟩
  have hv2 : (m.advanceClock.frame m.advanceClock.clockHand).valid = false := hv
  unfold allocBuf
  rw [hk]
  unfold allocBufLoop
  simp only [hv2, Bool.not_false, if_true]
  rfl

/-- The sweep reports an I/O error only if some frame is dirty. -/
theorem allocBufLoop_unixerr_dirty {σ : Type} (io : FileOps σ) (fuel : Nat) :
    ∀ (visits : Nat) (m : BufMgr) (w : World σ), 0 < m.numBufs →
      (allocBufLoop io fuel visits m w).status = Status.UNIXERR →
      ∃ i, i < m.numBufs ∧ (m.frame i).dirty = true := by
  induction fuel with
  | zero =>
    intro visits m w _ hs
    cases hs
  | succ fuel ih =>
    intro visits m w hpos hs
    unfold allocBufLoop at hs
    simp only [] at hs
    split_ifs at hs with hv hr hp hd hw
    · obtain ⟨i, hi, hdi⟩ := ih _ _ _ (by exact hpos) hs
      have hsame := setFrame_sameButRef m.advanceClock m.advanceClock.clockHand
        { m.advanceClock.frame m.advanceClock.clockHand with refbit := false }
        ⟨rfl, rfl, rfl, rfl, rfl, rfl⟩ i
      exact ⟨i, hi, hsame.2.2.2.2.1.symm.trans hdi⟩
    · exact ⟨_, clockHand_advanceClock_lt m hpos, hd⟩
    · exact ih (visits + 1) m.advanceClock w hpos hs

/-- After a sweep that reports exhaustion every frame is valid and pinned. -/
theorem allocBuf_exceeded_all {σ : Type} (io : FileOps σ) (m : BufMgr) (w : World σ)
    (hN : 0 < m.numBufs) (hlen : m.bufTable.length = m.numBufs)
    (hs : (allocBuf io m w).status = Status.BUFFEREXCEEDED) (i : Nat) (hi : i < m.numBufs) :
    (m.frame i).valid = true ∧ (m.frame i).pinCnt ≠ 0 := by
  have hsw := allocBufLoop_exceeded_swept io (2 * m.numBufs) 0 m w hN hlen hs
  obtain ⟨k, k1, k2, k3⟩ := exists_second_visit (m.clockHand + 1) m.numBufs i hi
  obtain ⟨s1, -, s3⟩ := hsw k k2
  rw [k3] at s1 s3
  exact ⟨s1, s3 k1⟩

/-- With every frame clean and all but frame `j` pinned, the sweep takes `j`. -/
theorem allocBuf_single_candidate {σ : Type} (io : FileOps σ) (m : BufMgr) (w : World σ)
    (h : WF m) (j : Nat) (hj : j < m.numBufs) (hpj : (m.frame j).pinCnt = 0)
    (hclean : ∀ i, i < m.numBufs → (m.frame i).dirty = false)
    (hpinned : ∀ i, i < m.numBufs → i ≠ j → 0 < (m.frame i).pinCnt) :
    (allocBuf io m w).status = Status.OK ∧ (allocBuf io m w).frame = j := by
  have hN : 0 < m.numBufs := by omega
  have r := allocBuf_spec io m w h
  have hok : (allocBuf io m w).status = Status.OK := by
    rcases r.status with hs | hs | hs
    · exact hs
    · obtain ⟨i, hi, hd⟩ := allocBufLoop_unixerr_dirty io _ 0 m w hN hs
      rw [hclean i hi] at hd
      exact Bool.noConfusion hd
    · exact absurd hpj (allocBuf_exceeded_all io m w hN h.lenTable hs j hj).2
  refine ⟨hok, ?_⟩
  obtain ⟨s1, -, s3, -⟩ := r.sel hok
  by_contra hne
  exact absurd (hpinned _ s1 hne) (not_lt.2 s3.1)

/-- A fetch that misses while the next frame under the hand is empty. -/
theorem readPage_into_free {σ : Type} (io : FileOps σ) (m : BufMgr) (w : World σ) (F : File)
    (p : Int) (h : WF m) (hN : 0 < m.numBufs) (hl : m.hashTable.lookup F p = none)
    (hv : (m.frame ((m.clockHand + 1) % m.numBufs)).valid = false)
    (hr : ∀ s b, (io.readPage s F p b).1 = Status.OK) :
    (readPage io m w F p).status = Status.OK ∧
    (readPage io m w F p).page = some ((m.clockHand + 1) % m.numBufs) ∧
    (readPage io m w F p).mgr.numBufs = m.numBufs ∧
    (readPage io m w F p).mgr.clockHand = (m.clockHand + 1) % m.numBufs ∧
    Holds (readPage io m w F p).mgr F p ((m.clockHand + 1) % m.numBufs) 1 ∧
    (∀ i, i ≠ (m.clockHand + 1) % m.numBufs → (readPage io m w F p).mgr.frame i = m.frame i) := by
  have ha := allocBuf_free_next io m w hN hv
  have hs : (allocBuf io m w).status = Status.OK := by rw [ha]
  have heq := readPage_miss_eq io m w F p h hl hs (hr _ _)
  rw [ha] at heq
  simp only [] at heq
  have hlt : (m.clockHand + 1) % m.numBufs < m.advanceClock.bufTable.length := by
    rw [bufTable_advanceClock, h.lenTable]; exact Nat.mod_lt _ hN
  rw [heq]
  refine ⟨rfl, rfl, rfl, rfl, ?_, ?_⟩
  · unfold Holds
    rw [frame_setFrame_self]
    · exact ⟨rfl, rfl, rfl, rfl, rfl⟩
    · exact hlt
  · intro i hi
    rw [frame_setFrame_ne _ _ (Ne.symm hi)]
    rfl

theorem FillInv.start {σ : Type} (F : File) (pg : Nat → Int) (N : Nat) (w : World σ)
    (hN : 1 ≤ N) : FillInv F pg N 0 (start N w : Config σ) := by
  refine ⟨WF.init N, rfl, ?_, fun i hi => absurd hi (by omega), ?_, rfl, ?_⟩
  · show (N - 1 + 1) % N = 0 % N
    rw [Nat.sub_add_cancel hN, Nat.mod_self, Nat.zero_mod]
  · intro i _ hi
    show ((BufMgr.init N).frame i).valid = false
    rw [frame_init N i hi]
  · intro o ho
    simp [BufferManager.start] at ho

theorem FillInv.next {σ : Type} (io : FileOps σ) (F : File) (pg : Nat → Int) (N k : Nat)
    (c : Config σ) (hc : FillInv F pg N k c) (hk : k < N)
    (hinj : ∀ a b, a ≤ N → b ≤ N → pg a = pg b → a = b)
    (hread : ∀ s i b, i ≤ N → (io.readPage s F (pg i) b).1 = Status.OK) :
    FillInv F pg N (k + 1) (exec io c (Op.readPage F (pg k))) := by
  have hN : 0 < c.mgr.numBufs := by rw [hc.numBufs]; omega
  have hnext : (c.mgr.clockHand + 1) % c.mgr.numBufs = k := by
    rw [hc.numBufs, hc.hand]; exact Nat.mod_eq_of_lt hk
  have hl : c.mgr.hashTable.lookup F (pg k) = none := by
    rw [hc.wf.lookup_none_iff]
    intro i hi hv hkey
    rw [hc.numBufs] at hi
    by_cases hik : i < k
    · have := hinj i k (by omega) (by omega) ((hc.held i hik).2.2.1.symm.trans hkey.2)
      omega
    · rw [hc.free i (by omega) hi] at hv
      exact Bool.noConfusion hv
  have hv : (c.mgr.frame ((c.mgr.clockHand + 1) % c.mgr.numBufs)).valid = false := by
    rw [hnext]; exact hc.free k (le_refl _) hk
  obtain ⟨r1, -, r3, r4, r5, r6⟩ := readPage_into_free io c.mgr c.world F (pg k) hc.wf hN hl hv
    (fun s b => hread s k b (by omega))
  rw [hnext] at r4 r5 r6
  refine ⟨readPage_WF io c.mgr c.world F (pg k) hc.wf, r3.trans hc.numBufs, ?_, ?_, ?_, ?_, ?_⟩
  · show ((readPage io c.mgr c.world F (pg k)).mgr.clockHand + 1) % N = (k + 1) % N
    rw [r4]
  · intro i hi
    by_cases hik : i = k
    · subst hik
      exact r5
    · have := hc.held i (by omega)
      change Holds (readPage io c.mgr c.world F (pg k)).mgr F (pg i) i 1
      unfold Holds at this ⊢
      rw [r6 i hik]
      exact this
  · intro i hki hi
    show ((readPage io c.mgr c.world F (pg k)).mgr.frame i).valid = false
    rw [r6 i (by omega)]
    exact hc.free i (by omega) hi
  · show (c.log ++ [_]).length = k + 1
    rw [List.length_append, hc.logLen]
    rfl
  · intro o ho
    rcases List.mem_append.1 ho with ho | ho
    · exact hc.logOK o ho
    · rw [List.mem_singleton.1 ho]
      exact r1

theorem fetchOps_succ (F : File) (pg : Nat → Int) (k : Nat) :
    fetchOps F pg (k + 1) = fetchOps F pg k ++ [Op.readPage F (pg k)] := by
  simp [fetchOps, List.range_succ]

theorem fetched_succ {σ : Type} (io : FileOps σ) (F : File) (pg : Nat → Int) (N k : Nat)
    (w : World σ) :
    fetched io F pg N (k + 1) w = exec io (fetched io F pg N k w) (Op.readPage F (pg k)) := by
  unfold fetched run
  rw [fetchOps_succ, List.foldl_append]
  rfl

theorem fetched_FillInv {σ : Type} (io : FileOps σ) (F : File) (pg : Nat → Int) (N : Nat)
    (w : World σ) (hN : 1 ≤ N)
    (hinj : ∀ a b, a ≤ N → b ≤ N → pg a = pg b → a = b)
    (hread : ∀ s i b, i ≤ N → (io.readPage s F (pg i) b).1 = Status.OK) :
    ∀ k, k ≤ N → FillInv F pg N k (fetched io F pg N k w) := by
  intro k
  induction k with
  | zero => intro _; exact FillInv.start F pg N w hN
  | succ k ih =>
    intro hk
    rw [fetched_succ]
    exact FillInv.next io F pg N k _ (ih (by omega)) (by omega) hinj hread

theorem Holds.lookup {m : BufMgr} (h : WF m) {F : File} {p : Int} {i : Nat} {pins : Int}
    (hi : i < m.numBufs) (hh : Holds m F p i pins) : m.hashTable.lookup F p = some i :=
  (h.lookup_iff F p i).2 ⟨hi, hh.1, hh.2.1, hh.2.2.1⟩

theorem Holds.of_same {m n : BufMgr} {F : File} {p : Int} {i : Nat} {pins : Int}
    (hs : SameButRef (m.frame i) (n.frame i)) (hh : Holds m F p i pins) : Holds n F p i pins :=
  ⟨hs.2.2.2.2.2.trans hh.1, hs.1.trans hh.2.1, hs.2.1.trans hh.2.2.1,
    hs.2.2.2.1.trans hh.2.2.2.1, hs.2.2.2.2.1.trans hh.2.2.2.2⟩

/-- The result of a fetch that misses and finds no frame. -/
theorem readPage_miss_fail_eq {σ : Type} (io : FileOps σ) (m : BufMgr) (w : World σ)
    (f : File) (p : Int) (hl : m.hashTable.lookup f p = none)
    (hs : (allocBuf io m w).status ≠ Status.OK) :
    readPage io m w f p =
      { status := (allocBuf io m w).status, page := none, pageNo := none,
        mgr := (allocBuf io m w).mgr, world := (allocBuf io m w).world } := by
  unfold readPage
  rw [hl]
  simp only [hs, bne_iff_ne, ne_eq, not_false_eq_true, if_true]

theorem overflow_facts {σ : Type} (io : FileOps σ) (F : File) (pg : Nat → Int) (N : Nat)
    (w : World σ) (hN : 1 ≤ N) (hinj : ∀ a b, a ≤ N → b ≤ N → pg a = pg b → a = b)
    (hread : ∀ s i b, i ≤ N → (io.readPage s F (pg i) b).1 = Status.OK) :
    (overflow io F pg N w).status = Status.BUFFEREXCEEDED ∧ WF (overflow io F pg N w).mgr ∧
    (overflow io F pg N w).mgr.numBufs = N ∧
    ∀ i, i < N → Holds (overflow io F pg N w).mgr F (pg i) i 1 := by
  have hc := fetched_FillInv io F pg N w hN hinj hread N (le_refl _)
  have hl : (fetched io F pg N N w).mgr.hashTable.lookup F (pg N) = none := by
    rw [hc.wf.lookup_none_iff]
    intro i hi hv hkey
    rw [hc.numBufs] at hi
    have := hinj i N (by omega) (le_refl _) ((hc.held i hi).2.2.1.symm.trans hkey.2)
    omega
  have hpos : 0 < (fetched io F pg N N w).mgr.numBufs := by rw [hc.numBufs]; omega
  have hs : (allocBuf io (fetched io F pg N N w).mgr (fetched io F pg N N w).world).status
      = Status.BUFFEREXCEEDED := by
    apply allocBufLoop_all_pinned io _ 0 _ _ hpos
    intro i hi
    rw [hc.numBufs] at hi
    have := hc.held i hi
    exact ⟨this.1, by rw [this.2.2.2.1]; decide⟩
  have r := allocBuf_spec io (fetched io F pg N N w).mgr (fetched io F pg N N w).world hc.wf
  have heq := readPage_miss_fail_eq io (fetched io F pg N N w).mgr (fetched io F pg N N w).world
    F (pg N) hl (by rw [hs]; decide)
  unfold overflow
  rw [heq]
  refine ⟨hs, r.wf, r.numBufs.trans hc.numBufs, ?_⟩
  intro i hi
  exact Holds.of_same (r.others i (fun hok => by rw [hs] at hok; cases hok)) (hc.held i hi)

theorem releaseOne_facts {σ : Type} (io : FileOps σ) (F : File) (pg : Nat → Int) (N : Nat)
    (w : World σ) (hN : 1 ≤ N) (hinj : ∀ a b, a ≤ N → b ≤ N → pg a = pg b → a = b)
    (hread : ∀ s i b, i ≤ N → (io.readPage s F (pg i) b).1 = Status.OK) (j : Nat) (hj : j < N) :
    (releaseOne io F pg N w j).status = Status.OK ∧ WF (releaseOne io F pg N w j).mgr ∧
    (releaseOne io F pg N w j).mgr.numBufs = N ∧
    Holds (releaseOne io F pg N w j).mgr F (pg j) j 0 ∧
    ∀ i, i < N → i ≠ j → Holds (releaseOne io F pg N w j).mgr F (pg i) i 1 := by
  obtain ⟨-, o2, o3, o4⟩ := overflow_facts io F pg N w hN hinj hread
  have hl := (o4 j hj).lookup o2 (by rw [o3]; exact hj)
  have hlen : j < (overflow io F pg N w).mgr.bufTable.length := by
    rw [o2.lenTable, o3]; exact hj
  have hp : ¬ ((overflow io F pg N w).mgr.frame j).pinCnt ≤ 0 := by
    rw [(o4 j hj).2.2.2.1]; decide
  have heq : releaseOne io F pg N w j =
      { status := Status.OK, page := none, pageNo := none,
        mgr := (overflow io F pg N w).mgr.setFrame j
          { (overflow io F pg N w).mgr.frame j with
            pinCnt := ((overflow io F pg N w).mgr.frame j).pinCnt - 1 },
        world := (overflow io F pg N w).world } := by
    unfold releaseOne unPinPage
    rw [hl]
    simp only [hp, if_false, Bool.false_eq_true]
  have hwf : WF (releaseOne io F pg N w j).mgr :=
    unPinPage_WF (overflow io F pg N w).mgr (overflow io F pg N w).world F (pg j) false o2
  rw [heq] at hwf ⊢
  refine ⟨rfl, hwf, o3, ?_, ?_⟩
  · unfold Holds
    rw [frame_setFrame_self _ _ hlen]
    have := o4 j hj
    exact ⟨this.1, this.2.1, this.2.2.1, by show _ - 1 = (0 : Int); rw [this.2.2.2.1]; rfl,
      this.2.2.2.2⟩
  · intro i hi hij
    have := o4 i hi
    unfold Holds at this ⊢
    rw [frame_setFrame_ne _ _ (Ne.symm hij)]
    exact this

theorem refetch_facts {σ : Type} (io : FileOps σ) (F : File) (pg : Nat → Int) (N : Nat)
    (w : World σ) (hN : 1 ≤ N) (hinj : ∀ a b, a ≤ N → b ≤ N → pg a = pg b → a = b)
    (hread : ∀ s i b, i ≤ N → (io.readPage s F (pg i) b).1 = Status.OK) (j : Nat) (hj : j < N) :
    (refetch io F pg N w j).status = Status.OK ∧ (refetch io F pg N w j).page = some j ∧
    WF (refetch io F pg N w j).mgr ∧ (refetch io F pg N w j).mgr.numBufs = N ∧
    Holds (refetch io F pg N w j).mgr F (pg N) j 1 ∧
    ∀ i, i < N → i ≠ j → Holds (refetch io F pg N w j).mgr F (pg i) i 1 := by
  obtain ⟨-, q2, q3, q4, q5⟩ := releaseOne_facts io F pg N w hN hinj hread j hj
  have hl : (releaseOne io F pg N w j).mgr.hashTable.lookup F (pg N) = none := by
    rw [q2.lookup_none_iff]
    intro i hi hv hkey
    rw [q3] at hi
    by_cases hij : i = j
    · subst hij
      have := hinj i N (by omega) (le_refl _) (q4.2.2.1.symm.trans hkey.2)
      omega
    · have := hinj i N (by omega) (le_refl _) ((q5 i hi hij).2.2.1.symm.trans hkey.2)
      omega
  obtain ⟨hs, hfr⟩ := allocBuf_single_candidate io (releaseOne io F pg N w j).mgr
    (releaseOne io F pg N w j).world q2 j (by rw [q3]; exact hj) q4.2.2.2.1
    (fun i hi => by
      rw [q3] at hi
      by_cases hij : i = j
      · subst hij; exact q4.2.2.2.2
      · exact (q5 i hi hij).2.2.2.2)
    (fun i hi hij => by
      rw [q3] at hi
      rw [(q5 i hi hij).2.2.2.1]; decide)
  have r := allocBuf_spec io (releaseOne io F pg N w j).mgr (releaseOne io F pg N w j).world q2
  have heq := readPage_miss_eq io (releaseOne io F pg N w j).mgr (releaseOne io F pg N w j).world
    F (pg N) q2 hl hs (hread _ N _ (le_refl _))
  have hwf : WF (refetch io F pg N w j).mgr :=
    readPage_WF io (releaseOne io F pg N w j).mgr (releaseOne io F pg N w j).world F (pg N) q2
  have hlen : j < (allocBuf io (releaseOne io F pg N w j).mgr
      (releaseOne io F pg N w j).world).mgr.bufTable.length := by
    rw [r.wf.lenTable, r.numBufs, q3]; exact hj
  unfold refetch at hwf ⊢
  rw [heq] at hwf ⊢
  rw [hfr] at hwf ⊢
  refine ⟨rfl, rfl, hwf, r.numBufs.trans q3, ?_, ?_⟩
  · unfold Holds
    rw [frame_setFrame_self]
    · exact ⟨rfl, rfl, rfl, rfl, rfl⟩
    · exact hlen
  · intro i hi hij
    have hsame := r.others i (fun _ => by rw [hfr]; exact hij)
    have := Holds.of_same hsame (q5 i hi hij)
    unfold Holds at this ⊢
    rw [frame_setFrame_ne _ _ (Ne.symm hij)]
    exact this

/-- C5 (fill / exhaust / release): for every capacity `N >= 1`, every file `F`
and every `N+1` distinct pages `pg 0, .., pg (N-1)` and `pg N` of `F` whose reads
succeed, on a freshly constructed manager the fetches of `pg 0 .. pg (N-1)` all
return `OK` and put page `pg k` into frame `k` under one pin (the first lands on
frame 0); the fetch of `pg N` then returns `BUFFEREXCEEDED`; and after
`unPinPage(F, pg j, false)` for any one `j < N`, which returns `OK`, the fetch of
`pg N` returns `OK` with frame `j`, `pg N` is cached there under one pin,
`(F, pg j)` is no longer cached and every other page `pg k` is still cached in
frame `k` under one pin. -/
theorem fill_exhaust_release {σ : Type} (io : FileOps σ) (F : File) (pg : Nat → Int) (N : Nat)
    (w : World σ) (hN : 1 ≤ N) (hinj : ∀ a b, a ≤ N → b ≤ N → pg a = pg b → a = b)
    (hread : ∀ s i b, i ≤ N → (io.readPage s F (pg i) b).1 = Status.OK) :
    ((fetched io F pg N N w).log.length = N ∧
      ∀ o ∈ (fetched io F pg N N w).log, o.status = Status.OK) ∧
    (∀ k, k < N →
      (fetched io F pg N N w).mgr.hashTable.lookup F (pg k) = some k ∧
      ((fetched io F pg N N w).mgr.frame k).valid = true ∧
      ((fetched io F pg N N w).mgr.frame k).file = F ∧
      ((fetched io F pg N N w).mgr.frame k).pageNo = pg k ∧
      ((fetched io F pg N N w).mgr.frame k).pinCnt = 1) ∧
    (overflow io F pg N w).status = Status.BUFFEREXCEEDED ∧
    (∀ j, j < N →
      (releaseOne io F pg N w j).status = Status.OK ∧
      (refetch io F pg N w j).status = Status.OK ∧
      (refetch io F pg N w j).page = some j ∧
      (refetch io F pg N w j).mgr.hashTable.lookup F (pg N) = some j ∧
      ((refetch io F pg N w j).mgr.frame j).valid = true ∧
      ((refetch io F pg N w j).mgr.frame j).file = F ∧
      ((refetch io F pg N w j).mgr.frame j).pageNo = pg N ∧
      ((refetch io F pg N w j).mgr.frame j).pinCnt = 1 ∧
      (refetch io F pg N w j).mgr.hashTable.lookup F (pg j) = none ∧
      (∀ k, k < N → k ≠ j →
        (refetch io F pg N w j).mgr.hashTable.lookup F (pg k) = some k ∧
        ((refetch io F pg N w j).mgr.frame k).valid = true ∧
        ((refetch io F pg N w j).mgr.frame k).pinCnt = 1)) := by
  have hc := fetched_FillInv io F pg N w hN hinj hread N (le_refl _)
  refine ⟨⟨hc.logLen, hc.logOK⟩, ?_, (overflow_facts io F pg N w hN hinj hread).1, ?_⟩
  · intro k hk
    have hh := hc.held k hk
    exact ⟨hh.lookup hc.wf (by rw [hc.numBufs]; exact hk), hh.1, hh.2.1, hh.2.2.1, hh.2.2.2.1⟩
  · intro j hj
    obtain ⟨q1, -, -, -, -⟩ := releaseOne_facts io F pg N w hN hinj hread j hj
    obtain ⟨t1, t2, t3, t4, t5, t6⟩ := refetch_facts io F pg N w hN hinj hread j hj
    refine ⟨q1, t1, t2, t5.lookup t3 (by rw [t4]; exact hj), t5.1, t5.2.1, t5.2.2.1,
      t5.2.2.2.1, ?_, ?_⟩
    · rw [t3.lookup_none_iff]
      intro i hi hv hkey
      rw [t4] at hi
      by_cases hij : i = j
      · subst hij
        have := hinj N i (le_refl _) (by omega) (t5.2.2.1.symm.trans hkey.2)
        omega
      · have := hinj i j (by omega) (by omega) ((t6 i hi hij).2.2.1.symm.trans hkey.2)
        exact hij this
    · intro k hk hkj
      have hh := t6 k hk hkj
      exact ⟨hh.lookup t3 (by rw [t4]; exact hk), hh.1, hh.2.2.2.1⟩

theorem fill_exhaust_release_witness :
    1 ≤ 3 ∧
    (∀ a b, a ≤ 3 → b ≤ 3 → specPages a = specPages b → a = b) ∧
    (∀ s i b, i ≤ 3 → (plainStore.readPage s 1 (specPages i) b).1 = Status.OK) ∧
    (overflow plainStore 1 specPages 3 plainWorld).status = Status.BUFFEREXCEEDED ∧
    (refetch plainStore 1 specPages 3 plainWorld 1).page = some 1 ∧
    ((refetch plainStore 1 specPages 3 plainWorld 1).mgr.bufTable.map
      (fun d => (d.pageNo, d.pinCnt))) = [(1, 1), (4, 1), (3, 1)] ∧
    (((fetched plainStore 1 specPages 3 3 plainWorld).log.length = 3 ∧
      ∀ o ∈ (fetched plainStore 1 specPages 3 3 plainWorld).log, o.status = Status.OK) ∧
    (∀ k, k < 3 →
      (fetched plainStore 1 specPages 3 3 plainWorld).mgr.hashTable.lookup 1 (specPages k) =
          some k ∧
      ((fetched plainStore 1 specPages 3 3 plainWorld).mgr.frame k).valid = true ∧
      ((fetched plainStore 1 specPages 3 3 plainWorld).mgr.frame k).file = 1 ∧
      ((fetched plainStore 1 specPages 3 3 plainWorld).mgr.frame k).pageNo = specPages k ∧
      ((fetched plainStore 1 specPages 3 3 plainWorld).mgr.frame k).pinCnt = 1) ∧
    (overflow plainStore 1 specPages 3 plainWorld).status = Status.BUFFEREXCEEDED ∧
    (∀ j, j < 3 →
      (releaseOne plainStore 1 specPages 3 plainWorld j).status = Status.OK ∧
      (refetch plainStore 1 specPages 3 plainWorld j).status = Status.OK ∧
      (refetch plainStore 1 specPages 3 plainWorld j).page = some j ∧
      (refetch plainStore 1 specPages 3 plainWorld j).mgr.hashTable.lookup 1 (specPages 3) =
          some j ∧
      ((refetch plainStore 1 specPages 3 plainWorld j).mgr.frame j).valid = true ∧
      ((refetch plainStore 1 specPages 3 plainWorld j).mgr.frame j).file = 1 ∧
      ((refetch plainStore 1 specPages 3 plainWorld j).mgr.frame j).pageNo = specPages 3 ∧
      ((refetch plainStore 1 specPages 3 plainWorld j).mgr.frame j).pinCnt = 1 ∧
      (refetch plainStore 1 specPages 3 plainWorld j).mgr.hashTable.lookup 1 (specPages j) =
          none ∧
      (∀ k, k < 3 → k ≠ j →
        (refetch plainStore 1 specPages 3 plainWorld j).mgr.hashTable.lookup 1 (specPages k) =
          some k ∧
        ((refetch plainStore 1 specPages 3 plainWorld j).mgr.frame k).valid = true ∧
        ((refetch plainStore 1 specPages 3 plainWorld j).mgr.frame k).pinCnt = 1))) :=
  ⟨by decide, fun a b _ _ h => by unfold specPages at h; omega, fun _ _ _ _ => rfl,
    by decide, by decide, by decide,
    fill_exhaust_release plainStore 1 specPages 3 plainWorld (by decide)
      (fun a b _ _ h => by unfold specPages at h; omega) (fun _ _ _ _ => rfl)⟩

/-! ## Index size, frame invariants and teardown -/

theorem htsize_eq (bufs : Nat) : htsize bufs = 6 * bufs / 5 + 1 := by
  unfold htsize
  rw [Nat.mul_div_cancel _ (by decide : 0 < 2)]

/-- C20 (odd index size) fails on the code: for capacity 1 the constructor's
expression `((((int) (bufs * 1.2)) * 2) / 2) + 1` is `((1 * 2) / 2) + 1 = 2`,
an even bucket count (and `4` for capacity 3); multiplying by 2 before dividing
by 2 changes nothing, so the value is `⌊1.2 * bufs⌋ + 1`. -/
theorem htsize_one_even :
    htsize 1 = 2 ∧ ¬ htsize 1 % 2 = 1 ∧ htsize 3 = 4 ∧ ¬ htsize 3 % 2 = 1 := by
  decide

theorem htsize_odd_iff (bufs : Nat) : htsize bufs % 2 = 1 ↔ (6 * bufs / 5) % 2 = 0 := by
  rw [htsize_eq]
  omega

/-- What does hold of every frame in every reachable state: its `pinCnt` is a
value of an `int`, it is valid whenever it is dirty, and it has no positive
`pinCnt` when it is not valid. -/
theorem reachable_frame_facts {σ : Type} (io : FileOps σ) (m : BufMgr) (w : World σ)
    (h : Reachable io m w) (i : Nat) (hi : i < m.numBufs) :
    InRange (m.frame i).pinCnt ∧ ((m.frame i).dirty = true → (m.frame i).valid = true) ∧
      ((m.frame i).valid = false → (m.frame i).pinCnt ≤ 0) := by
  refine ⟨h.wf.pin i hi, fun hd => ?_, fun hv => (h.wf.empty i hi hv).1⟩
  by_contra hv
  have hv2 : (m.frame i).valid = false := by simpa using hv
  rw [(h.wf.empty i hi hv2).2.1] at hd
  exact Bool.noConfusion hd

theorem dtorLoop_trace {σ : Type} (io : FileOps σ) (m : BufMgr) (is : List Nat) :
    ∀ w : World σ, ∃ evs, (dtorLoop io is m w).trace = w.trace ++ evs ∧
      evs.map IOEvent.asWrite = (is.filter (needsWrite m)).map (dtorWrite m) := by
  induction is with
  | nil => intro w; exact ⟨[], by simp [dtorLoop], rfl⟩
  | cons i rest ih =>
    intro w
    unfold dtorLoop
    simp only []
    split_ifs with hc
    · obtain ⟨evs, h1, h2⟩ := ih (w.writePage io (m.frame i).file (m.frame i).pageNo (m.pool i)).2
      have hn : needsWrite m i = true := by simpa [needsWrite] using hc
      refine ⟨IOEvent.write (m.frame i).file (m.frame i).pageNo (m.pool i)
        (io.writePage w.store (m.frame i).file (m.frame i).pageNo (m.pool i)).1 :: evs, ?_, ?_⟩
      · rw [h1]
        simp [World.writePage]
      · simp only [List.map_cons, List.filter_cons, hn, if_true, h2]
        rfl
    · obtain ⟨evs, h1, h2⟩ := ih w
      have hn : needsWrite m i = false := by
        simpa [needsWrite] using hc
      refine ⟨evs, h1, ?_⟩
      simp only [List.filter_cons, hn, Bool.false_eq_true, if_false, h2]

/-- The store the destructor's loop leaves: the file's `writePage` applied for
each valid dirty frame in turn, to the store the call before it left. -/
theorem dtorLoop_store {σ : Type} (io : FileOps σ) (m : BufMgr) (is : List Nat) :
    ∀ w : World σ, (dtorLoop io is m w).store =
      (is.filter (needsWrite m)).foldl
        (fun s i => (io.writePage s (m.frame i).file (m.frame i).pageNo (m.pool i)).2)
        w.store := by
  induction is with
  | nil => intro w; rfl
  | cons i rest ih =>
    intro w
    unfold dtorLoop
    simp only []
    split_ifs with hc
    · have hn : needsWrite m i = true := by simpa [needsWrite] using hc
      rw [ih, List.filter_cons, if_pos hn, List.foldl_cons]
      rfl
    · have hn : needsWrite m i = false := by simpa [needsWrite] using hc
      rw [ih, List.filter_cons, hn]
      rfl

/-- C16 (teardown writeback): in every state, the destructor calls the file
store's `writePage` exactly once for each frame that is valid and dirty (page
number and pool bytes, to the owning file), in ascending frame order --
whatever the frame's `pinCnt` and whatever the earlier writes answered -- and
not at all for a frame that is invalid or clean: the store it leaves is the one
these calls of `writePage` produce in turn, and the calls it issued are these
writes and nothing else. -/
theorem destructor_writes {σ : Type} (io : FileOps σ) (m : BufMgr) (w : World σ) :
    (destructor io m w).store =
      ((List.range m.numBufs).filter (needsWrite m)).foldl
        (fun s i => (io.writePage s (m.frame i).file (m.frame i).pageNo (m.pool i)).2)
        w.store ∧
    ∃ evs, (destructor io m w).trace = w.trace ++ evs ∧
      evs.map IOEvent.asWrite =
        ((List.range m.numBufs).filter (needsWrite m)).map (dtorWrite m) :=
  ⟨dtorLoop_store io m (List.range m.numBufs) w, dtorLoop_trace io m (List.range m.numBufs) w⟩

/-- The destructor on `threeFramesTwoDirty`: both dirty frames are written, the
pinned one included, although every write fails; the clean frame is not. -/
theorem destructor_example :
    ((threeFramesTwoDirty.mgr.bufTable.map
      (fun d => (d.pageNo, d.pinCnt, d.dirty))) = [(10, 0, true), (20, 1, true), (30, 1, false)]) ∧
    (destructor failingWrites threeFramesTwoDirty.mgr threeFramesTwoDirty.world).trace =
      threeFramesTwoDirty.world.trace ++
        [IOEvent.write 1 10 1010 Status.UNIXERR, IOEvent.write 1 20 1020 Status.UNIXERR] := by
  decide

/-- The destructor on `recordedTwoDirty`: the store has received the bytes of
both dirty frames, the pinned one included, in frame order, and nothing of the
clean frame. -/
theorem destructor_recorded :
    ((recordedTwoDirty.mgr.bufTable.map
      (fun d => (d.pageNo, d.pinCnt, d.dirty))) = [(10, 0, true), (20, 1, true), (30, 1, false)]) ∧
    recordedTwoDirty.world.store = [] ∧
    (destructor recordingStore recordedTwoDirty.mgr recordedTwoDirty.world).store =
      [(1, 10, 1010), (1, 20, 1020)] := by
  decide

/-! ## What the sweep writes, and a write that fails -/

theorem unref_setFrame_unref (m : BufMgr) (i j : Nat) :
    ((m.setFrame i (m.frame i).unref).frame j).unref = (m.frame j).unref := by
  by_cases hlen : i < m.bufTable.length
  · by_cases hj : i = j
    · subst hj
      rw [frame_setFrame_self _ _ hlen]
      rfl
    · rw [frame_setFrame_ne _ _ hj]
  · have hset : m.setFrame i (m.frame i).unref = m := by
      unfold BufMgr.setFrame
      rw [List.set_eq_of_length_le (not_lt.1 hlen)]
    rw [hset]

theorem unref_of_refbit_false (d : BufDesc) (h : d.refbit = false) : d.unref = d := by
  obtain ⟨a, b, c, e, f, g, r⟩ := d
  simp only at h
  subst h
  rfl

theorem AllocFail.shiftFail {σ : Type} {io : FileOps σ} {m n : BufMgr} {w : World σ}
    {out : AllocOut σ} (r : AllocFail io n w out)
    (hsame : ∀ j, (n.frame j).unref = (m.frame j).unref)
    (hn : n.numBufs = m.numBufs) (hp : n.bufPool = m.bufPool)
    (hi : n.hashTable = m.hashTable) : AllocFail io m w out := by
  have hq := hsame out.mgr.clockHand
  have hfield : ∀ j, (n.frame j).valid = (m.frame j).valid ∧
      (n.frame j).pinCnt = (m.frame j).pinCnt ∧ (n.frame j).dirty = (m.frame j).dirty ∧
      (n.frame j).file = (m.frame j).file ∧ (n.frame j).pageNo = (m.frame j).pageNo := by
    intro j
    have := hsame j
    simp only [BufDesc.unref, BufDesc.mk.injEq] at this
    exact ⟨this.2.2.2.2.2.1, this.2.2.2.1, this.2.2.2.2.1, this.1, this.2.1⟩
  obtain ⟨f1, f2, f3, f4, f5⟩ := hfield out.mgr.clockHand
  refine ⟨hn ▸ r.hand, f1 ▸ r.valid, f2 ▸ r.pin, f3 ▸ r.dirty,
    fun j => (r.frames j).trans (hsame j), ?_, r.index.trans hi, r.pool.trans hp,
    r.numBufs.trans hn, ?_⟩
  · rw [r.victim]
    exact hq
  · have hfail := r.failed
    rw [f4, f5, pool_eq_of_bufPool_eq hp] at hfail
    exact hfail

theorem allocBufLoop_unixerr {σ : Type} (io : FileOps σ) (fuel : Nat) :
    ∀ (visits : Nat) (m : BufMgr) (w : World σ), 0 < m.numBufs →
      (allocBufLoop io fuel visits m w).status = Status.UNIXERR →
      AllocFail io m w (allocBufLoop io fuel visits m w) := by
  induction fuel with
  | zero =>
    intro visits m w _ hs
    cases hs
  | succ fuel ih =>
    intro visits m w hpos hs
    unfold allocBufLoop at hs ⊢
    simp only [] at hs ⊢
    split_ifs at hs ⊢ with hv hr hp hd hw
    · refine AllocFail.shiftFail (ih (visits + 1) _ w (by exact hpos) hs) ?_ rfl rfl rfl
      intro j
      exact unref_setFrame_unref m.advanceClock m.advanceClock.clockHand j
    · have hv2 : (m.frame m.advanceClock.clockHand).valid = true := by simpa using hv
      have hp2 : (m.frame m.advanceClock.clockHand).pinCnt = 0 := by simpa using hp
      have hr2 : (m.frame m.advanceClock.clockHand).refbit = false := by simpa using hr
      refine ⟨clockHand_advanceClock_lt m hpos, hv2, hp2, hd, fun j => rfl,
        (unref_of_refbit_false _ hr2).symm, rfl, rfl, rfl, ?_⟩
      exact ⟨by simpa [World.writePage] using hw, rfl⟩
    · exact AllocFail.shiftFail (ih (visits + 1) m.advanceClock w hpos hs) (fun j => rfl) rfl rfl rfl

theorem AllocWrote.shiftWrote {σ : Type} {io : FileOps σ} {m n : BufMgr} {w : World σ}
    {out : AllocOut σ} (r : AllocWrote io n w out)
    (hsame : ∀ j, SameButRef (m.frame j) (n.frame j))
    (hp : n.bufPool = m.bufPool) : AllocWrote io m w out := by
  have hq := hsame out.frame
  refine ⟨fun hc => ?_, fun hc => ?_⟩
  · have := r.wrote ⟨hq.2.2.2.2.2.trans hc.1, hq.2.2.2.2.1.trans hc.2⟩
    rw [hq.1, hq.2.1, pool_eq_of_bufPool_eq hp] at this
    exact this
  · apply r.quiet
    rintro ⟨c1, c2⟩
    exact hc ⟨hq.2.2.2.2.2.symm.trans c1, hq.2.2.2.2.1.symm.trans c2⟩

theorem allocBufLoop_ok_world {σ : Type} (io : FileOps σ) (fuel : Nat) :
    ∀ (visits : Nat) (m : BufMgr) (w : World σ),
      (allocBufLoop io fuel visits m w).status = Status.OK →
      AllocWrote io m w (allocBufLoop io fuel visits m w) := by
  induction fuel with
  | zero =>
    intro visits m w hs
    cases hs
  | succ fuel ih =>
    intro visits m w hs
    unfold allocBufLoop at hs ⊢
    simp only [] at hs ⊢
    split_ifs at hs ⊢ with hv hr hp hd hw
    · have hv2 : (m.frame m.advanceClock.clockHand).valid = false := by simpa using hv
      refine ⟨fun hc => ?_, fun _ => rfl⟩
      have hc1 : (m.frame m.advanceClock.clockHand).valid = true := hc.1
      rw [hv2] at hc1
      exact Bool.noConfusion hc1
    · refine AllocWrote.shiftWrote (ih (visits + 1) _ w hs) ?_ rfl
      exact setFrame_sameButRef m.advanceClock m.advanceClock.clockHand
        { m.advanceClock.frame m.advanceClock.clockHand with refbit := false }
        ⟨rfl, rfl, rfl, rfl, rfl, rfl⟩
    · have hv2 : (m.frame m.advanceClock.clockHand).valid = true := by simpa using hv
      have hw2 : (io.writePage w.store (m.frame m.advanceClock.clockHand).file
          (m.frame m.advanceClock.clockHand).pageNo (m.pool m.advanceClock.clockHand)).1
          = Status.OK := by simpa [World.writePage] using hw
      exact ⟨fun _ => ⟨hw2, rfl⟩, fun hc => absurd ⟨hv2, hd⟩ hc⟩
    · have hd2 : (m.frame m.advanceClock.clockHand).dirty = false := by simpa using hd
      refine ⟨fun hc => ?_, fun _ => rfl⟩
      have hc2 : (m.frame m.advanceClock.clockHand).dirty = true := hc.2
      rw [hd2] at hc2
      exact Bool.noConfusion hc2
    · exact AllocWrote.shiftWrote (ih (visits + 1) m.advanceClock w hs)
        (fun j => SameButRef.refl _) rfl

theorem allocBuf_ok_world {σ : Type} (io : FileOps σ) (m : BufMgr) (w : World σ)
    (hs : (allocBuf io m w).status = Status.OK) : AllocWrote io m w (allocBuf io m w) :=
  allocBufLoop_ok_world io _ 0 m w hs

theorem allocBuf_unixerr {σ : Type} (io : FileOps σ) (m : BufMgr) (w : World σ)
    (hs : (allocBuf io m w).status = Status.UNIXERR) : AllocFail io m w (allocBuf io m w) := by
  rcases Nat.eq_zero_or_pos m.numBufs with h0 | hpos
  · unfold allocBuf at hs
    rw [h0] at hs
    cases hs
  · exact allocBufLoop_unixerr io _ 0 m w hpos hs

/-- C14 (write only what is dirty, exactly once): in every reachable state, a
call of `allocBuf` that returns `OK` with frame `i` issues exactly one call to
the file store -- the `writePage` of frame `i`'s page number and pool bytes to
its owning file, answered `OK` -- when frame `i` was valid and dirty: the store
is left in the state that `writePage` produced and the call is the one event
added to the trace.  It issues no call at all when frame `i` was invalid or
clean: the world, store included, is untouched; so no other frame is written.
After the call the page that was written is gone from the index and frame `i`
is empty: the event carries the key the reset erases. -/
theorem allocBuf_writes_selected {σ : Type} (io : FileOps σ) (m : BufMgr) (w v : World σ)
    (h : Reachable io m w) (hs : (allocBuf io m v).status = Status.OK) :
    ((m.frame (allocBuf io m v).frame).valid = true ∧
        (m.frame (allocBuf io m v).frame).dirty = true →
      (io.writePage v.store (m.frame (allocBuf io m v).frame).file
        (m.frame (allocBuf io m v).frame).pageNo (m.pool (allocBuf io m v).frame)).1
        = Status.OK ∧
      (allocBuf io m v).world.store =
        (io.writePage v.store (m.frame (allocBuf io m v).frame).file
          (m.frame (allocBuf io m v).frame).pageNo (m.pool (allocBuf io m v).frame)).2 ∧
      (allocBuf io m v).world.trace = v.trace ++
        [IOEvent.write (m.frame (allocBuf io m v).frame).file
          (m.frame (allocBuf io m v).frame).pageNo (m.pool (allocBuf io m v).frame)
          Status.OK]) ∧
    (¬ ((m.frame (allocBuf io m v).frame).valid = true ∧
        (m.frame (allocBuf io m v).frame).dirty = true) →
      (allocBuf io m v).world = v) ∧
    ((allocBuf io m v).mgr.frame (allocBuf io m v).frame).valid = false ∧
    ((m.frame (allocBuf io m v).frame).valid = true →
      (allocBuf io m v).mgr.hashTable.lookup (m.frame (allocBuf io m v).frame).file
        (m.frame (allocBuf io m v).frame).pageNo = none) := by
  have r := allocBuf_spec io m v h.wf
  have a := allocBuf_ok_world io m v hs
  obtain ⟨s1, s2, -, -⟩ := r.sel hs
  refine ⟨fun hc => ?_, a.quiet, s2, fun hv => ?_⟩
  · obtain ⟨w1, w2⟩ := a.wrote hc
    refine ⟨w1, by rw [w2]; rfl, ?_⟩
    rw [w2]
    show v.trace ++ [IOEvent.write _ _ _ _] = _
    rw [w1]
  rw [r.wf.lookup_none_iff]
  intro j hj hvj hkey
  rw [r.numBufs] at hj
  by_cases hjf : j = (allocBuf io m v).frame
  · rw [hjf, s2] at hvj
    exact Bool.noConfusion hvj
  · have hsame := r.others j (fun _ => hjf)
    rw [hsame.1, hsame.2.1] at hkey
    exact hjf (h.wf.frame_unique hj s1 (hsame.2.2.2.2.2.symm.trans hvj) hv hkey.1 hkey.2)

theorem allocBuf_writes_selected_witness :
    Reachable recordingStore recordedOneReleased.mgr recordedOneReleased.world ∧
    (allocBuf recordingStore recordedOneReleased.mgr recordedOneReleased.world).status
      = Status.OK ∧
    (allocBuf recordingStore recordedOneReleased.mgr recordedOneReleased.world).frame = 0 ∧
    recordedOneReleased.world.store = [] ∧
    (allocBuf recordingStore recordedOneReleased.mgr recordedOneReleased.world).world.store
      = [(1, 10, 1010)] ∧
    (allocBuf recordingStore recordedOneReleased.mgr recordedOneReleased.world).world.trace
      = recordedOneReleased.world.trace ++ [IOEvent.write 1 10 1010 Status.OK] ∧
    (((recordedOneReleased.mgr.frame (allocBuf recordingStore recordedOneReleased.mgr
        recordedOneReleased.world).frame).valid = true ∧
        (recordedOneReleased.mgr.frame (allocBuf recordingStore recordedOneReleased.mgr
            recordedOneReleased.world).frame).dirty = true →
      (recordingStore.writePage recordedOneReleased.world.store (recordedOneReleased.mgr.frame
          (allocBuf recordingStore recordedOneReleased.mgr recordedOneReleased.world).frame).file
        (recordedOneReleased.mgr.frame (allocBuf recordingStore recordedOneReleased.mgr
            recordedOneReleased.world).frame).pageNo (recordedOneReleased.mgr.pool (allocBuf
            recordingStore recordedOneReleased.mgr recordedOneReleased.world).frame)).1
        = Status.OK ∧
      (allocBuf recordingStore recordedOneReleased.mgr recordedOneReleased.world).world.store =
        (recordingStore.writePage recordedOneReleased.world.store
            (recordedOneReleased.mgr.frame (allocBuf recordingStore recordedOneReleased.mgr
            recordedOneReleased.world).frame).file
          (recordedOneReleased.mgr.frame (allocBuf recordingStore recordedOneReleased.mgr
              recordedOneReleased.world).frame).pageNo (recordedOneReleased.mgr.pool (allocBuf
              recordingStore recordedOneReleased.mgr recordedOneReleased.world).frame)).2 ∧
      (allocBuf recordingStore recordedOneReleased.mgr recordedOneReleased.world).world.trace =
          recordedOneReleased.world.trace ++
        [IOEvent.write (recordedOneReleased.mgr.frame (allocBuf recordingStore
            recordedOneReleased.mgr recordedOneReleased.world).frame).file
          (recordedOneReleased.mgr.frame (allocBuf recordingStore recordedOneReleased.mgr
              recordedOneReleased.world).frame).pageNo (recordedOneReleased.mgr.pool (allocBuf
              recordingStore recordedOneReleased.mgr recordedOneReleased.world).frame)
          Status.OK]) ∧
    (¬ ((recordedOneReleased.mgr.frame (allocBuf recordingStore recordedOneReleased.mgr
        recordedOneReleased.world).frame).valid = true ∧
        (recordedOneReleased.mgr.frame (allocBuf recordingStore recordedOneReleased.mgr
            recordedOneReleased.world).frame).dirty = true) →
      (allocBuf recordingStore recordedOneReleased.mgr recordedOneReleased.world).world =
          recordedOneReleased.world) ∧
    ((allocBuf recordingStore recordedOneReleased.mgr recordedOneReleased.world).mgr.frame
        (allocBuf recordingStore recordedOneReleased.mgr
        recordedOneReleased.world).frame).valid = false ∧
    ((recordedOneReleased.mgr.frame (allocBuf recordingStore recordedOneReleased.mgr
        recordedOneReleased.world).frame).valid = true →
      (allocBuf recordingStore recordedOneReleased.mgr
          recordedOneReleased.world).mgr.hashTable.lookup (recordedOneReleased.mgr.frame
          (allocBuf recordingStore recordedOneReleased.mgr recordedOneReleased.world).frame).file
        (recordedOneReleased.mgr.frame (allocBuf recordingStore recordedOneReleased.mgr
            recordedOneReleased.world).frame).pageNo = none)) :=
  ⟨start_run_reachable recordingStore _ 2 blankRecord, by decide, by decide, by decide,
    by decide, by decide,
    allocBuf_writes_selected recordingStore recordedOneReleased.mgr recordedOneReleased.world
      recordedOneReleased.world (start_run_reachable recordingStore _ 2 blankRecord)
      (by decide)⟩

/-- C17, amended (failed writeback leaves the victim in place): in every
reachable state, when `allocBuf` returns `UNIXERR` the clock hand rests on a
frame `v` that was valid, unpinned and dirty and whose `writePage` -- the last
call issued -- failed; frame `v`'s file, page number, valid flag, dirty flag
(still true) and `pinCnt`, its pool bytes and its index entry are exactly as
before the call, and so are all other descriptors up to their reference bits,
the whole index and the whole pool: no frame is selected and no entry removed.
The failed call is the file's `writePage` on the store before the call, and
the store is left as that call left it.
The reference bit of `v` is false afterwards; it is as before the call only if
it was false then, otherwise the sweep has cleared it on the way. -/
theorem allocBuf_failed_write {σ : Type} (io : FileOps σ) (m : BufMgr) (w v : World σ)
    (h : Reachable io m w) (hs : (allocBuf io m v).status = Status.UNIXERR) :
    (allocBuf io m v).mgr.clockHand < m.numBufs ∧
    (m.frame (allocBuf io m v).mgr.clockHand).valid = true ∧
    (m.frame (allocBuf io m v).mgr.clockHand).pinCnt = 0 ∧
    (m.frame (allocBuf io m v).mgr.clockHand).dirty = true ∧
    (∃ st, st ≠ Status.OK ∧ (allocBuf io m v).world.trace = v.trace ++
      [IOEvent.write (m.frame (allocBuf io m v).mgr.clockHand).file
        (m.frame (allocBuf io m v).mgr.clockHand).pageNo
        (m.pool (allocBuf io m v).mgr.clockHand) st]) ∧
    (allocBuf io m v).mgr.frame (allocBuf io m v).mgr.clockHand =
      { m.frame (allocBuf io m v).mgr.clockHand with refbit := false } ∧
    ((m.frame (allocBuf io m v).mgr.clockHand).refbit = false →
      (allocBuf io m v).mgr.frame (allocBuf io m v).mgr.clockHand =
        m.frame (allocBuf io m v).mgr.clockHand) ∧
    (∀ j, SameButRef (m.frame j) ((allocBuf io m v).mgr.frame j)) ∧
    (allocBuf io m v).mgr.hashTable = m.hashTable ∧
    (allocBuf io m v).mgr.bufPool = m.bufPool ∧
    (allocBuf io m v).mgr.hashTable.lookup (m.frame (allocBuf io m v).mgr.clockHand).file
      (m.frame (allocBuf io m v).mgr.clockHand).pageNo = some (allocBuf io m v).mgr.clockHand ∧
    (io.writePage v.store (m.frame (allocBuf io m v).mgr.clockHand).file
      (m.frame (allocBuf io m v).mgr.clockHand).pageNo
      (m.pool (allocBuf io m v).mgr.clockHand)).1 ≠ Status.OK ∧
    (allocBuf io m v).world.store =
      (io.writePage v.store (m.frame (allocBuf io m v).mgr.clockHand).file
        (m.frame (allocBuf io m v).mgr.clockHand).pageNo
        (m.pool (allocBuf io m v).mgr.clockHand)).2 := by
  have r := allocBuf_unixerr io m v hs
  refine ⟨r.hand, r.valid, r.pin, r.dirty, ⟨_, r.failed.1, by rw [r.failed.2]; rfl⟩, r.victim,
    fun hr => ?_, fun j => ?_, r.index, r.pool, ?_, r.failed.1, by rw [r.failed.2]; rfl⟩
  · rw [r.victim]
    exact unref_of_refbit_false _ hr
  · have := r.frames j
    simp only [BufDesc.unref, BufDesc.mk.injEq] at this
    exact ⟨this.1, this.2.1, this.2.2.1, this.2.2.2.1, this.2.2.2.2.1, this.2.2.2.2.2.1⟩
  · rw [r.index]
    exact (h.wf.lookup_iff _ _ _).2 ⟨r.hand, r.valid, rfl, rfl⟩

theorem allocBuf_failed_write_witness :
    Reachable failingWrites oneDirtyReferenced.mgr oneDirtyReferenced.world ∧
    (allocBuf failingWrites oneDirtyReferenced.mgr oneDirtyReferenced.world).status
      = Status.UNIXERR ∧
    ((allocBuf failingWrites oneDirtyReferenced.mgr oneDirtyReferenced.world).mgr.clockHand <
          oneDirtyReferenced.mgr.numBufs ∧
    (oneDirtyReferenced.mgr.frame (allocBuf failingWrites oneDirtyReferenced.mgr
          oneDirtyReferenced.world).mgr.clockHand).valid = true ∧
    (oneDirtyReferenced.mgr.frame (allocBuf failingWrites oneDirtyReferenced.mgr
          oneDirtyReferenced.world).mgr.clockHand).pinCnt = 0 ∧
    (oneDirtyReferenced.mgr.frame (allocBuf failingWrites oneDirtyReferenced.mgr
          oneDirtyReferenced.world).mgr.clockHand).dirty = true ∧
    (∃ st, st ≠ Status.OK ∧ (allocBuf failingWrites oneDirtyReferenced.mgr
          oneDirtyReferenced.world).world.trace = oneDirtyReferenced.world.trace ++
      [IOEvent.write (oneDirtyReferenced.mgr.frame (allocBuf failingWrites
          oneDirtyReferenced.mgr oneDirtyReferenced.world).mgr.clockHand).file
        (oneDirtyReferenced.mgr.frame (allocBuf failingWrites oneDirtyReferenced.mgr
          oneDirtyReferenced.world).mgr.clockHand).pageNo
        (oneDirtyReferenced.mgr.pool (allocBuf failingWrites oneDirtyReferenced.mgr
          oneDirtyReferenced.world).mgr.clockHand) st]) ∧
    (allocBuf failingWrites oneDirtyReferenced.mgr oneDirtyReferenced.world).mgr.frame
          (allocBuf failingWrites oneDirtyReferenced.mgr oneDirtyReferenced.world).mgr.clockHand =
      { oneDirtyReferenced.mgr.frame (allocBuf failingWrites oneDirtyReferenced.mgr
          oneDirtyReferenced.world).mgr.clockHand with refbit := false } ∧
    ((oneDirtyReferenced.mgr.frame (allocBuf failingWrites oneDirtyReferenced.mgr
          oneDirtyReferenced.world).mgr.clockHand).refbit = false →
      (allocBuf failingWrites oneDirtyReferenced.mgr oneDirtyReferenced.world).mgr.frame
          (allocBuf failingWrites oneDirtyReferenced.mgr oneDirtyReferenced.world).mgr.clockHand =
        oneDirtyReferenced.mgr.frame (allocBuf failingWrites oneDirtyReferenced.mgr
          oneDirtyReferenced.world).mgr.clockHand) ∧
    (∀ j, SameButRef (oneDirtyReferenced.mgr.frame j) ((allocBuf failingWrites
          oneDirtyReferenced.mgr oneDirtyReferenced.world).mgr.frame j)) ∧
    (allocBuf failingWrites oneDirtyReferenced.mgr oneDirtyReferenced.world).mgr.hashTable =
          oneDirtyReferenced.mgr.hashTable ∧
    (allocBuf failingWrites oneDirtyReferenced.mgr oneDirtyReferenced.world).mgr.bufPool =
          oneDirtyReferenced.mgr.bufPool ∧
    (allocBuf failingWrites oneDirtyReferenced.mgr
          oneDirtyReferenced.world).mgr.hashTable.lookup (oneDirtyReferenced.mgr.frame
          (allocBuf failingWrites oneDirtyReferenced.mgr
          oneDirtyReferenced.world).mgr.clockHand).file
      (oneDirtyReferenced.mgr.frame (allocBuf failingWrites oneDirtyReferenced.mgr
          oneDirtyReferenced.world).mgr.clockHand).pageNo = some (allocBuf failingWrites
          oneDirtyReferenced.mgr oneDirtyReferenced.world).mgr.clockHand ∧
    (failingWrites.writePage oneDirtyReferenced.world.store
      (oneDirtyReferenced.mgr.frame (allocBuf failingWrites oneDirtyReferenced.mgr
          oneDirtyReferenced.world).mgr.clockHand).file
      (oneDirtyReferenced.mgr.frame (allocBuf failingWrites oneDirtyReferenced.mgr
          oneDirtyReferenced.world).mgr.clockHand).pageNo
      (oneDirtyReferenced.mgr.pool (allocBuf failingWrites oneDirtyReferenced.mgr
          oneDirtyReferenced.world).mgr.clockHand)).1 ≠ Status.OK ∧
    (allocBuf failingWrites oneDirtyReferenced.mgr oneDirtyReferenced.world).world.store =
      (failingWrites.writePage oneDirtyReferenced.world.store
        (oneDirtyReferenced.mgr.frame (allocBuf failingWrites oneDirtyReferenced.mgr
            oneDirtyReferenced.world).mgr.clockHand).file
        (oneDirtyReferenced.mgr.frame (allocBuf failingWrites oneDirtyReferenced.mgr
            oneDirtyReferenced.world).mgr.clockHand).pageNo
        (oneDirtyReferenced.mgr.pool (allocBuf failingWrites oneDirtyReferenced.mgr
            oneDirtyReferenced.world).mgr.clockHand)).2) :=
  ⟨start_run_reachable failingWrites _ 1 plainWorld, by decide,
    allocBuf_failed_write failingWrites oneDirtyReferenced.mgr oneDirtyReferenced.world
      oneDirtyReferenced.world (start_run_reachable failingWrites _ 1 plainWorld) (by decide)⟩

/-- C17 as stated fails for the reference bit.  With capacity 1, page `(1,10)`
fetched and released as dirty, frame 0 is valid, unpinned, dirty and still
referenced.  `allocBuf` first clears its reference bit, then comes back to it
with the bit off, and the write fails: it returns `UNIXERR`, and the descriptor
of frame 0 is not as before the call -- `refbit` was true and is now false. -/
theorem allocBuf_failed_write_clears_refbit :
    Reachable failingWrites oneDirtyReferenced.mgr oneDirtyReferenced.world ∧
    (oneDirtyReferenced.mgr.frame 0).valid = true ∧
    (oneDirtyReferenced.mgr.frame 0).pinCnt = 0 ∧
    (oneDirtyReferenced.mgr.frame 0).dirty = true ∧
    (oneDirtyReferenced.mgr.frame 0).refbit = true ∧
    (allocBuf failingWrites oneDirtyReferenced.mgr oneDirtyReferenced.world).status
      = Status.UNIXERR ∧
    (allocBuf failingWrites oneDirtyReferenced.mgr oneDirtyReferenced.world).visits = 2 ∧
    (allocBuf failingWrites oneDirtyReferenced.mgr oneDirtyReferenced.world).world.trace =
      oneDirtyReferenced.world.trace ++ [IOEvent.write 1 10 1010 Status.UNIXERR] ∧
    ((allocBuf failingWrites oneDirtyReferenced.mgr oneDirtyReferenced.world).mgr.frame
      0).refbit = false ∧
    (allocBuf failingWrites oneDirtyReferenced.mgr oneDirtyReferenced.world).mgr.frame 0
      ≠ oneDirtyReferenced.mgr.frame 0 :=
  ⟨start_run_reachable failingWrites _ 1 plainWorld, by decide, by decide, by decide,
    by decide, by decide, by decide, by decide, by decide, by decide⟩

/-! ## Disposing a page -/

theorem lookup_remove_none {ht : BufHashTbl} (hk : KeysDistinct ht) (f : File) (p : Int) :
    (ht.remove f p).lookup f p = none := by
  rw [lookup_eq_none_iff]
  intro e he
  exact ((mem_remove_iff hk f p e).1 he).2

theorem hashTable_disposePage {σ : Type} (io : FileOps σ) (m : BufMgr) (w : World σ)
    (f : File) (p : Int) :
    (disposePage io m w f p).mgr.hashTable = m.hashTable.remove f p := by
  unfold disposePage
  simp only []
  split <;> rfl

theorem frame_disposePage_cached {σ : Type} (io : FileOps σ) (m : BufMgr) (w : World σ)
    (f : File) (p : Int) (i : Nat) (hl : m.hashTable.lookup f p = some i) (j : Nat) :
    (disposePage io m w f p).mgr.frame j = (m.setFrame i (m.frame i).Clear).frame j := by
  unfold disposePage
  simp only [hl]
  rfl

theorem frame_disposePage_uncached {σ : Type} (io : FileOps σ) (m : BufMgr) (w : World σ)
    (f : File) (p : Int) (hl : m.hashTable.lookup f p = none) (j : Nat) :
    (disposePage io m w f p).mgr.frame j = m.frame j := by
  unfold disposePage
  simp only [hl]
  rfl

/-- A fetch that misses and finds a frame calls the file's `readPage`, and
that is the last call it issues. -/
theorem readPage_miss_world {σ : Type} (io : FileOps σ) (m : BufMgr) (w : World σ) (f : File)
    (p : Int) (hl : m.hashTable.lookup f p = none)
    (hs : (allocBuf io m w).status = Status.OK) :
    (readPage io m w f p).world = (World.readPage io (allocBuf io m w).world f p
      ((allocBuf io m w).mgr.pool (allocBuf io m w).frame)).2.2 := by
  unfold readPage
  rw [hl]
  simp only [hs, bne_self_eq_false, Bool.false_eq_true, if_false]
  split_ifs
  · rfl
  · split <;> rfl

/-- A fetch that misses returns `OK` only if a frame was found and the file's
`readPage` succeeded. -/
theorem readPage_miss_ok {σ : Type} (io : FileOps σ) (m : BufMgr) (w : World σ) (f : File)
    (p : Int) (hl : m.hashTable.lookup f p = none)
    (hok : (readPage io m w f p).status = Status.OK) :
    (allocBuf io m w).status = Status.OK ∧
    (io.readPage (allocBuf io m w).world.store f p
      ((allocBuf io m w).mgr.pool (allocBuf io m w).frame)).1 = Status.OK := by
  unfold readPage at hok
  rw [hl] at hok
  simp only [] at hok
  split_ifs at hok with hs hrd
  · exact absurd hok (by simpa using hs)
  · exact ⟨by simpa using hs, by simpa [World.readPage] using hrd⟩

/-- C11, amended (`disposePage`): in every reachable state and for every page
`(f,p)`, `disposePage` issues exactly one call to the file store, the file's
`disposePage(p)`, returns its status and leaves the store as that call left
it; afterwards the index has no entry for
`(f,p)`; if `(f,p)` was cached in frame `i`, frame `i` is not valid and has
`pinCnt` 0 whatever it was before; all other frames are unchanged.  A
`readPage(f,p)` that follows at once takes the miss path: when its `allocBuf`
fails it returns that status and issues no `readPage` to the file; when
`allocBuf` succeeds its last call is the file's `readPage(p)`; and it returns
`OK` only after that read, with the pool slot holding the bytes read. -/
theorem disposePage_effect {σ : Type} (io : FileOps σ) (m : BufMgr) (w : World σ) (f : File)
    (p : Int) (h : Reachable io m w) :
    (disposePage io m w f p).status = (io.disposePage w.store f p).1 ∧
    (disposePage io m w f p).world.trace =
      w.trace ++ [IOEvent.dispose f p (disposePage io m w f p).status] ∧
    (disposePage io m w f p).world.store = (io.disposePage w.store f p).2 ∧
    (disposePage io m w f p).mgr.hashTable.lookup f p = none ∧
    (∀ i, m.hashTable.lookup f p = some i →
      ((disposePage io m w f p).mgr.frame i).valid = false ∧
      ((disposePage io m w f p).mgr.frame i).pinCnt = 0 ∧
      ∀ j, j ≠ i → (disposePage io m w f p).mgr.frame j = m.frame j) ∧
    (m.hashTable.lookup f p = none → ∀ j, (disposePage io m w f p).mgr.frame j = m.frame j) ∧
    ((allocBuf io (disposePage io m w f p).mgr (disposePage io m w f p).world).status
        ≠ Status.OK →
      (readPage io (disposePage io m w f p).mgr (disposePage io m w f p).world f p).status =
        (allocBuf io (disposePage io m w f p).mgr (disposePage io m w f p).world).status ∧
      (readPage io (disposePage io m w f p).mgr (disposePage io m w f p).world f p).page
        = none ∧
      (readPage io (disposePage io m w f p).mgr (disposePage io m w f p).world f p).world =
        (allocBuf io (disposePage io m w f p).mgr (disposePage io m w f p).world).world) ∧
    ((allocBuf io (disposePage io m w f p).mgr (disposePage io m w f p).world).status
        = Status.OK →
      ∃ st bytes,
        (readPage io (disposePage io m w f p).mgr (disposePage io m w f p).world f p).world.trace
        = (allocBuf io (disposePage io m w f p).mgr (disposePage io m w f p).world).world.trace
            ++ [IOEvent.read f p st bytes]) ∧
    ((readPage io (disposePage io m w f p).mgr (disposePage io m w f p).world f p).status
        = Status.OK →
      (allocBuf io (disposePage io m w f p).mgr (disposePage io m w f p).world).status
        = Status.OK ∧
      (readPage io (disposePage io m w f p).mgr (disposePage io m w f p).world f p).page =
        some (allocBuf io (disposePage io m w f p).mgr (disposePage io m w f p).world).frame ∧
      (readPage io (disposePage io m w f p).mgr (disposePage io m w f p).world f p).world.trace
        = (allocBuf io (disposePage io m w f p).mgr (disposePage io m w f p).world).world.trace
            ++ [IOEvent.read f p Status.OK
              ((readPage io (disposePage io m w f p).mgr (disposePage io m w f p).world f
                p).mgr.pool
                (allocBuf io (disposePage io m w f p).mgr
                  (disposePage io m w f p).world).frame)]) := by
  have hwf := h.wf
  have hwf2 := disposePage_WF io m w f p hwf
  have hnone : (disposePage io m w f p).mgr.hashTable.lookup f p = none := by
    rw [hashTable_disposePage]
    exact lookup_remove_none hwf.keys f p
  refine ⟨rfl, rfl, rfl, hnone, ?_, fun hl j => frame_disposePage_uncached io m w f p hl j,
    ?_, ?_, ?_⟩
  · intro i hl
    obtain ⟨hi, -, -, -⟩ := (hwf.lookup_iff f p i).1 hl
    have hlen : i < m.bufTable.length := by rw [hwf.lenTable]; exact hi
    refine ⟨?_, ?_, fun j hj => ?_⟩
    · rw [frame_disposePage_cached io m w f p i hl, frame_setFrame_self _ _ hlen]
      rfl
    · rw [frame_disposePage_cached io m w f p i hl, frame_setFrame_self _ _ hlen]
      rfl
    · rw [frame_disposePage_cached io m w f p i hl, frame_setFrame_ne _ _ (Ne.symm hj)]
  · intro hs
    rw [readPage_miss_fail_eq io _ _ f p hnone hs]
    exact ⟨rfl, rfl, rfl⟩
  · intro hs
    rw [readPage_miss_world io _ _ f p hnone hs]
    exact ⟨_, _, rfl⟩
  · intro hok
    obtain ⟨hs, hrd⟩ := readPage_miss_ok io _ _ f p hnone hok
    have r := allocBuf_spec io (disposePage io m w f p).mgr (disposePage io m w f p).world hwf2
    obtain ⟨s1, -, -, -⟩ := r.sel hs
    have hlenP : (allocBuf io (disposePage io m w f p).mgr (disposePage io m w f p).world).frame
        < (allocBuf io (disposePage io m w f p).mgr
          (disposePage io m w f p).world).mgr.bufPool.length := by
      rw [r.wf.lenPool, r.numBufs]; exact s1
    refine ⟨hs, ?_, ?_⟩
    · rw [readPage_miss_eq io _ _ f p hwf2 hnone hs hrd]
    · rw [readPage_miss_world io _ _ f p hnone hs]
      rw [readPage_miss_eq io _ _ f p hwf2 hnone hs hrd]
      simp only [World.readPage]
      rw [hrd]
      congr 3
      exact (pool_setPool_self _ _ hlenP).symm

theorem disposePage_effect_witness :
    Reachable plainStore twoPagesHeld.mgr twoPagesHeld.world ∧
    twoPagesHeld.mgr.hashTable.lookup 1 10 = some 0 ∧
    (twoPagesHeld.mgr.frame 0).pinCnt = 1 ∧
    (readPage plainStore (disposePage plainStore twoPagesHeld.mgr twoPagesHeld.world 1 10).mgr
      (disposePage plainStore twoPagesHeld.mgr twoPagesHeld.world 1 10).world 1 10).status
      = Status.OK ∧
    ((disposePage plainStore twoPagesHeld.mgr twoPagesHeld.world 1 10).status =
          (plainStore.disposePage twoPagesHeld.world.store 1 10).1 ∧
    (disposePage plainStore twoPagesHeld.mgr twoPagesHeld.world 1 10).world.trace =
      twoPagesHeld.world.trace ++ [IOEvent.dispose 1 10 (disposePage plainStore
          twoPagesHeld.mgr twoPagesHeld.world 1 10).status] ∧
    (disposePage plainStore twoPagesHeld.mgr twoPagesHeld.world 1 10).world.store =
      (plainStore.disposePage twoPagesHeld.world.store 1 10).2 ∧
    (disposePage plainStore twoPagesHeld.mgr twoPagesHeld.world 1 10).mgr.hashTable.lookup 1 10
          = none ∧
    (∀ i, twoPagesHeld.mgr.hashTable.lookup 1 10 = some i →
      ((disposePage plainStore twoPagesHeld.mgr twoPagesHeld.world 1 10).mgr.frame i).valid =
          false ∧
      ((disposePage plainStore twoPagesHeld.mgr twoPagesHeld.world 1 10).mgr.frame i).pinCnt = 0 ∧
      ∀ j, j ≠ i → (disposePage plainStore twoPagesHeld.mgr twoPagesHeld.world 1 10).mgr.frame
          j = twoPagesHeld.mgr.frame j) ∧
    (twoPagesHeld.mgr.hashTable.lookup 1 10 = none → ∀ j, (disposePage plainStore
          twoPagesHeld.mgr twoPagesHeld.world 1 10).mgr.frame j = twoPagesHeld.mgr.frame j) ∧
    ((allocBuf plainStore (disposePage plainStore twoPagesHeld.mgr twoPagesHeld.world 1 10).mgr
          (disposePage plainStore twoPagesHeld.mgr twoPagesHeld.world 1 10).world).status
        ≠ Status.OK →
      (readPage plainStore (disposePage plainStore twoPagesHeld.mgr twoPagesHeld.world 1
          10).mgr (disposePage plainStore twoPagesHeld.mgr twoPagesHeld.world 1 10).world 1
          10).status =
        (allocBuf plainStore (disposePage plainStore twoPagesHeld.mgr twoPagesHeld.world 1
          10).mgr (disposePage plainStore twoPagesHeld.mgr twoPagesHeld.world 1
          10).world).status ∧
      (readPage plainStore (disposePage plainStore twoPagesHeld.mgr twoPagesHeld.world 1
          10).mgr (disposePage plainStore twoPagesHeld.mgr twoPagesHeld.world 1 10).world 1
          10).page
        = none ∧
      (readPage plainStore (disposePage plainStore twoPagesHeld.mgr twoPagesHeld.world 1
          10).mgr (disposePage plainStore twoPagesHeld.mgr twoPagesHeld.world 1 10).world 1
          10).world =
        (allocBuf plainStore (disposePage plainStore twoPagesHeld.mgr twoPagesHeld.world 1
          10).mgr (disposePage plainStore twoPagesHeld.mgr twoPagesHeld.world 1
          10).world).world) ∧
    ((allocBuf plainStore (disposePage plainStore twoPagesHeld.mgr twoPagesHeld.world 1 10).mgr
          (disposePage plainStore twoPagesHeld.mgr twoPagesHeld.world 1 10).world).status
        = Status.OK →
      ∃ st bytes,
        (readPage plainStore (disposePage plainStore twoPagesHeld.mgr twoPagesHeld.world 1
          10).mgr (disposePage plainStore twoPagesHeld.mgr twoPagesHeld.world 1 10).world 1
          10).world.trace
        = (allocBuf plainStore (disposePage plainStore twoPagesHeld.mgr twoPagesHeld.world 1
          10).mgr (disposePage plainStore twoPagesHeld.mgr twoPagesHeld.world 1
          10).world).world.trace
            ++ [IOEvent.read 1 10 st bytes]) ∧
    ((readPage plainStore (disposePage plainStore twoPagesHeld.mgr twoPagesHeld.world 1 10).mgr
          (disposePage plainStore twoPagesHeld.mgr twoPagesHeld.world 1 10).world 1 10).status
        = Status.OK →
      (allocBuf plainStore (disposePage plainStore twoPagesHeld.mgr twoPagesHeld.world 1
          10).mgr (disposePage plainStore twoPagesHeld.mgr twoPagesHeld.world 1 10).world).status
        = Status.OK ∧
      (readPage plainStore (disposePage plainStore twoPagesHeld.mgr twoPagesHeld.world 1
          10).mgr (disposePage plainStore twoPagesHeld.mgr twoPagesHeld.world 1 10).world 1
          10).page =
        some (allocBuf plainStore (disposePage plainStore twoPagesHeld.mgr twoPagesHeld.world 1
          10).mgr (disposePage plainStore twoPagesHeld.mgr twoPagesHeld.world 1 10).world).frame ∧
      (readPage plainStore (disposePage plainStore twoPagesHeld.mgr twoPagesHeld.world 1
          10).mgr (disposePage plainStore twoPagesHeld.mgr twoPagesHeld.world 1 10).world 1
          10).world.trace
        = (allocBuf plainStore (disposePage plainStore twoPagesHeld.mgr twoPagesHeld.world 1
          10).mgr (disposePage plainStore twoPagesHeld.mgr twoPagesHeld.world 1
          10).world).world.trace
            ++ [IOEvent.read 1 10 Status.OK
              ((readPage plainStore (disposePage plainStore twoPagesHeld.mgr twoPagesHeld.world
          1 10).mgr (disposePage plainStore twoPagesHeld.mgr twoPagesHeld.world 1 10).world 1
                10).mgr.pool
                (allocBuf plainStore (disposePage plainStore twoPagesHeld.mgr
          twoPagesHeld.world 1 10).mgr
                  (disposePage plainStore twoPagesHeld.mgr twoPagesHeld.world 1
          10).world).frame)])) :=
  ⟨start_run_reachable plainStore _ 2 plainWorld, by decide, by decide, by decide,
    disposePage_effect plainStore twoPagesHeld.mgr twoPagesHeld.world 1 10
      (start_run_reachable plainStore _ 2 plainWorld)⟩

/-- C11 as stated fails in its last part: the fetch that follows a disposal
need not issue a file `readPage`.  In `pinnedAndDirty` page `(1,20)` is cached
and pinned in frame 1; `disposePage(1,20)` returns `OK` and empties frame 1;
the `readPage(1,20)` that follows misses, its sweep comes first to frame 0,
whose write-back fails, and it returns `UNIXERR` having issued that `writePage`
only -- no `readPage`.  Likewise, with both frames pinned, disposing the
uncached page `(1,30)` and fetching it returns `BUFFEREXCEEDED` with no call to
the file store at all. -/
theorem fetch_after_dispose_without_read :
    (Reachable failingWrites pinnedAndDirty.mgr pinnedAndDirty.world ∧
    pinnedAndDirty.mgr.hashTable.lookup 1 20 = some 1 ∧
    disposedCached.status = Status.OK ∧
    (disposedCached.mgr.frame 1).valid = false ∧
    fetchedAfterDispose.status = Status.UNIXERR ∧
    fetchedAfterDispose.world.trace =
      disposedCached.world.trace ++ [IOEvent.write 1 10 1010 Status.UNIXERR] ∧
    ∀ st bytes, ¬ Issued disposedCached.world fetchedAfterDispose.world
      (IOEvent.read 1 20 st bytes)) ∧
    (Reachable plainStore twoPagesHeld.mgr twoPagesHeld.world ∧
    (readPage plainStore (disposePage plainStore twoPagesHeld.mgr twoPagesHeld.world 1 30).mgr
      (disposePage plainStore twoPagesHeld.mgr twoPagesHeld.world 1 30).world 1 30).status
      = Status.BUFFEREXCEEDED ∧
    (readPage plainStore (disposePage plainStore twoPagesHeld.mgr twoPagesHeld.world 1 30).mgr
      (disposePage plainStore twoPagesHeld.mgr twoPagesHeld.world 1 30).world 1 30).world.trace
      = (disposePage plainStore twoPagesHeld.mgr twoPagesHeld.world 1 30).world.trace) := by
  refine ⟨⟨start_run_reachable failingWrites _ 2 plainWorld, by decide, by decide, by decide,
    by decide, by decide, ?_⟩, start_run_reachable plainStore _ 2 plainWorld, by decide,
    by decide⟩
  rintro st bytes ⟨evs, h1, h2⟩
  have h3 : fetchedAfterDispose.world.trace =
      disposedCached.world.trace ++ [IOEvent.write 1 10 1010 Status.UNIXERR] := by decide
  rw [h3] at h1
  have h4 := List.append_cancel_left h1
  rw [← h4] at h2
  simp at h2

/-! ## Allocating a new page -/

theorem allocPage_failed_eq {σ : Type} (io : FileOps σ) (m : BufMgr) (w : World σ) (f : File)
    (ha : (io.allocatePage w.store f).1 = Status.OK)
    (hs : (allocBuf io m (World.allocatePage io w f).2.2).status ≠ Status.OK) :
    allocPage io m w f =
      { status := (allocBuf io m (World.allocatePage io w f).2.2).status, page := none,
        pageNo := some (io.allocatePage w.store f).2.1,
        mgr := (allocBuf io m (World.allocatePage io w f).2.2).mgr,
        world := (allocBuf io m (World.allocatePage io w f).2.2).world } := by
  have ha2 : (World.allocatePage io w f).1 = Status.OK := ha
  unfold allocPage
  simp only [ha2, hs, bne_self_eq_false, Bool.false_eq_true, if_false, bne_iff_ne, ne_eq,
    not_false_eq_true, if_true]
  rfl

theorem allocPage_duplicate_eq {σ : Type} (io : FileOps σ) (m : BufMgr) (w : World σ) (f : File)
    (ha : (io.allocatePage w.store f).1 = Status.OK)
    (hs : (allocBuf io m (World.allocatePage io w f).2.2).status = Status.OK)
    (hl : (allocBuf io m (World.allocatePage io w f).2.2).mgr.hashTable.lookup f
      (io.allocatePage w.store f).2.1 ≠ none) :
    allocPage io m w f =
      { status := Status.HASHTBLERROR, page := none,
        pageNo := some (io.allocatePage w.store f).2.1,
        mgr := (allocBuf io m (World.allocatePage io w f).2.2).mgr,
        world := (allocBuf io m (World.allocatePage io w f).2.2).world } := by
  have ha2 : (World.allocatePage io w f).1 = Status.OK := ha
  cases hins : (allocBuf io m (World.allocatePage io w f).2.2).mgr.hashTable.insert f
      (World.allocatePage io w f).2.1 (allocBuf io m (World.allocatePage io w f).2.2).frame with
  | none =>
    unfold allocPage
    simp only [ha2, hs, hins, bne_self_eq_false, Bool.false_eq_true, if_false]
    rfl
  | some ht =>
    exact absurd ((insert_eq_some_iff _ _ _ _ _).1 hins).1 hl

theorem allocPage_ok_eq {σ : Type} (io : FileOps σ) (m : BufMgr) (w : World σ) (f : File)
    (ha : (io.allocatePage w.store f).1 = Status.OK)
    (hs : (allocBuf io m (World.allocatePage io w f).2.2).status = Status.OK)
    (hl : (allocBuf io m (World.allocatePage io w f).2.2).mgr.hashTable.lookup f
      (io.allocatePage w.store f).2.1 = none) :
    allocPage io m w f =
      { status := Status.OK,
        page := some (allocBuf io m (World.allocatePage io w f).2.2).frame,
        pageNo := some (io.allocatePage w.store f).2.1,
        mgr := ({ (allocBuf io m (World.allocatePage io w f).2.2).mgr with
          hashTable :=
            { file := f
              pageNo := (io.allocatePage w.store f).2.1
              frameNo := (allocBuf io m (World.allocatePage io w f).2.2).frame } ::
            (allocBuf io m (World.allocatePage io w f).2.2).mgr.hashTable } :
            BufMgr).setFrame (allocBuf io m (World.allocatePage io w f).2.2).frame
          (((allocBuf io m (World.allocatePage io w f).2.2).mgr.frame
            (allocBuf io m (World.allocatePage io w f).2.2).frame).Set f
              (io.allocatePage w.store f).2.1),
        world := (allocBuf io m (World.allocatePage io w f).2.2).world } := by
  have ha2 : (World.allocatePage io w f).1 = Status.OK := ha
  cases hins : (allocBuf io m (World.allocatePage io w f).2.2).mgr.hashTable.insert f
      (World.allocatePage io w f).2.1 (allocBuf io m (World.allocatePage io w f).2.2).frame with
  | none =>
    have hcontra := (insert_eq_some_iff
      (allocBuf io m (World.allocatePage io w f).2.2).mgr.hashTable f
      (World.allocatePage io w f).2.1 (allocBuf io m (World.allocatePage io w f).2.2).frame
      _).2 ⟨hl, rfl⟩
    rw [hins] at hcontra
    cases hcontra
  | some ht =>
    obtain ⟨-, rfl⟩ := (insert_eq_some_iff _ _ _ _ _).1 hins
    unfold allocPage
    simp only [ha2, hs, hins, bne_self_eq_false, Bool.false_eq_true, if_false]
    rfl

/-- A sweep that fails issued at most one call to the file store, a
`writePage`; in particular no `disposePage`. -/
theorem allocBuf_failed_no_dispose {σ : Type} (io : FileOps σ) (m : BufMgr) (w : World σ)
    (hs : (allocBuf io m w).status ≠ Status.OK) (evs : List IOEvent)
    (he : (allocBuf io m w).world.trace = w.trace ++ evs) (g : File) (q : Int) (st : Status) :
    IOEvent.dispose g q st ∉ evs := by
  obtain ⟨-, h1, h2, h3⟩ := allocBufLoop_basic io (2 * m.numBufs) 0 m w
  change (allocBuf io m w).status = _ ∨ (allocBuf io m w).status = _ ∨
    (allocBuf io m w).status = _ at h1
  rcases h1 with h1 | h1 | h1
  · exact absurd h1 hs
  · obtain ⟨f, p, b, s, -, ht⟩ := h2 h1
    change (allocBuf io m w).world.trace = _ at ht
    rw [ht] at he
    have := List.append_cancel_left he
    subst this
    simp
  · have hw := (h3 h1).1
    change (allocBuf io m w).world = w at hw
    rw [hw] at he
    have : evs = [] := by
      have h4 : w.trace ++ [] = w.trace ++ evs := by simpa using he
      exact (List.append_cancel_left h4).symm
    subst this
    simp

/-- C15, amended (allocation of a new page): in every reachable state, if the
file's `allocatePage` succeeds with page number `n`, then: if `allocBuf`
succeeds with frame `i` and `(f,n)` is not in the index at that point,
`allocPage` returns `OK` with page number `n` and the pool slot of frame `i`,
the index maps `(f,n)` to `i`, and frame `i` is valid, owned by `f` with page
number `n`, referenced, not dirty, with `pinCnt` 1; if `allocBuf` succeeds but
`(f,n)` is still in the index, the insert is refused and `allocPage` returns
`HASHTBLERROR` with the state `allocBuf` left; a page that was not in the index
before the call is not in it after `allocBuf`; and if `allocBuf` fails,
`allocPage` returns its status with the state it left and issues no
`disposePage` to the file. -/
theorem allocPage_effect {σ : Type} (io : FileOps σ) (m : BufMgr) (w : World σ) (f : File)
    (h : Reachable io m w) (ha : (io.allocatePage w.store f).1 = Status.OK) :
    ((allocBuf io m (World.allocatePage io w f).2.2).status = Status.OK →
      (allocBuf io m (World.allocatePage io w f).2.2).mgr.hashTable.lookup f (io.allocatePage
          w.store f).2.1 = none →
      (allocPage io m w f).status = Status.OK ∧
      (allocPage io m w f).pageNo = some (io.allocatePage w.store f).2.1 ∧
      (allocPage io m w f).page = some (allocBuf io m (World.allocatePage io w f).2.2).frame ∧
      (allocBuf io m (World.allocatePage io w f).2.2).frame < m.numBufs ∧
      (allocPage io m w f).mgr.hashTable.lookup f (io.allocatePage w.store f).2.1 = some
          (allocBuf io m (World.allocatePage io w f).2.2).frame ∧
      ((allocPage io m w f).mgr.frame (allocBuf io m (World.allocatePage io w
          f).2.2).frame).valid = true ∧
      ((allocPage io m w f).mgr.frame (allocBuf io m (World.allocatePage io w
          f).2.2).frame).file = f ∧
      ((allocPage io m w f).mgr.frame (allocBuf io m (World.allocatePage io w
          f).2.2).frame).pageNo = (io.allocatePage w.store f).2.1 ∧
      ((allocPage io m w f).mgr.frame (allocBuf io m (World.allocatePage io w
          f).2.2).frame).refbit = true ∧
      ((allocPage io m w f).mgr.frame (allocBuf io m (World.allocatePage io w
          f).2.2).frame).dirty = false ∧
      ((allocPage io m w f).mgr.frame (allocBuf io m (World.allocatePage io w
          f).2.2).frame).pinCnt = 1) ∧
    ((allocBuf io m (World.allocatePage io w f).2.2).status = Status.OK →
      (allocBuf io m (World.allocatePage io w f).2.2).mgr.hashTable.lookup f (io.allocatePage
          w.store f).2.1 ≠ none →
      (allocPage io m w f).status = Status.HASHTBLERROR ∧
      (allocPage io m w f).page = none ∧
      (allocPage io m w f).mgr = (allocBuf io m (World.allocatePage io w f).2.2).mgr) ∧
    (m.hashTable.lookup f (io.allocatePage w.store f).2.1 = none →
      (allocBuf io m (World.allocatePage io w f).2.2).mgr.hashTable.lookup f (io.allocatePage
          w.store f).2.1 = none) ∧
    ((allocBuf io m (World.allocatePage io w f).2.2).status ≠ Status.OK →
      (allocPage io m w f).status = (allocBuf io m (World.allocatePage io w f).2.2).status ∧
      (allocPage io m w f).page = none ∧
      (allocPage io m w f).mgr = (allocBuf io m (World.allocatePage io w f).2.2).mgr ∧
      (allocPage io m w f).world = (allocBuf io m (World.allocatePage io w f).2.2).world ∧
      ∀ g q st, ¬ Issued w (allocPage io m w f).world (IOEvent.dispose g q st)) := by
  have hwf := h.wf
  have r := allocBuf_spec io m (World.allocatePage io w f).2.2 hwf
  refine ⟨?_, ?_, ?_, ?_⟩
  · intro hs hl
    obtain ⟨s1, -, -, -⟩ := r.sel hs
    have hlenT : (allocBuf io m (World.allocatePage io w f).2.2).frame <
        (allocBuf io m (World.allocatePage io w f).2.2).mgr.bufTable.length := by
      rw [r.wf.lenTable, r.numBufs]; exact s1
    rw [allocPage_ok_eq io m w f ha hs hl]
    refine ⟨rfl, rfl, rfl, s1, ?_, ?_, ?_, ?_, ?_, ?_, ?_⟩
    · exact lookup_cons_self _ _ _ _
    · exact congrArg BufDesc.valid (frame_setFrame_self _ _ hlenT)
    · exact congrArg BufDesc.file (frame_setFrame_self _ _ hlenT)
    · exact congrArg BufDesc.pageNo (frame_setFrame_self _ _ hlenT)
    · exact congrArg BufDesc.refbit (frame_setFrame_self _ _ hlenT)
    · exact congrArg BufDesc.dirty (frame_setFrame_self _ _ hlenT)
    · exact congrArg BufDesc.pinCnt (frame_setFrame_self _ _ hlenT)
  · intro hs hl
    rw [allocPage_duplicate_eq io m w f ha hs hl]
    exact ⟨rfl, rfl, rfl⟩
  · intro hl
    exact allocBuf_lookup_none io m _ hwf f _ hl
  · intro hs
    rw [allocPage_failed_eq io m w f ha hs]
    refine ⟨rfl, rfl, rfl, rfl, ?_⟩
    rintro g q st ⟨evs, h1, h2⟩
    obtain ⟨tl, htl⟩ := r.grows
    have h3 : (World.allocatePage io w f).2.2.trace =
        w.trace ++ [IOEvent.alloc f (io.allocatePage w.store f).1 (io.allocatePage w.store f).2.1] := rfl
    change (allocBuf io m (World.allocatePage io w f).2.2).world.trace = w.trace ++ evs at h1
    rw [← htl, h3, List.append_assoc] at h1
    have h4 := List.append_cancel_left h1
    subst h4
    rcases List.mem_append.1 h2 with h5 | h5
    · simp at h5
    · exact allocBuf_failed_no_dispose io m _ hs tl htl.symm g q st h5

theorem allocPage_effect_witness :
    (Reachable plainStore twoPagesOneReleased.mgr twoPagesOneReleased.world ∧
    (plainStore.allocatePage twoPagesOneReleased.world.store 1).1 = Status.OK ∧
    (allocPage plainStore twoPagesOneReleased.mgr twoPagesOneReleased.world 1).status
      = Status.OK ∧
    (((allocBuf plainStore twoPagesOneReleased.mgr (World.allocatePage plainStore
        twoPagesOneReleased.world 1).2.2).status = Status.OK →
      (allocBuf plainStore twoPagesOneReleased.mgr (World.allocatePage plainStore
          twoPagesOneReleased.world 1).2.2).mgr.hashTable.lookup 1 (plainStore.allocatePage
          twoPagesOneReleased.world.store 1).2.1 = none →
      (allocPage plainStore twoPagesOneReleased.mgr twoPagesOneReleased.world 1).status =
          Status.OK ∧
      (allocPage plainStore twoPagesOneReleased.mgr twoPagesOneReleased.world 1).pageNo = some
          (plainStore.allocatePage twoPagesOneReleased.world.store 1).2.1 ∧
      (allocPage plainStore twoPagesOneReleased.mgr twoPagesOneReleased.world 1).page = some
          (allocBuf plainStore twoPagesOneReleased.mgr (World.allocatePage plainStore
          twoPagesOneReleased.world 1).2.2).frame ∧
      (allocBuf plainStore twoPagesOneReleased.mgr (World.allocatePage plainStore
          twoPagesOneReleased.world 1).2.2).frame < twoPagesOneReleased.mgr.numBufs ∧
      (allocPage plainStore twoPagesOneReleased.mgr twoPagesOneReleased.world
          1).mgr.hashTable.lookup 1 (plainStore.allocatePage twoPagesOneReleased.world.store
          1).2.1 = some (allocBuf plainStore twoPagesOneReleased.mgr (World.allocatePage
          plainStore twoPagesOneReleased.world 1).2.2).frame ∧
      ((allocPage plainStore twoPagesOneReleased.mgr twoPagesOneReleased.world 1).mgr.frame
          (allocBuf plainStore twoPagesOneReleased.mgr (World.allocatePage plainStore
          twoPagesOneReleased.world 1).2.2).frame).valid = true ∧
      ((allocPage plainStore twoPagesOneReleased.mgr twoPagesOneReleased.world 1).mgr.frame
          (allocBuf plainStore twoPagesOneReleased.mgr (World.allocatePage plainStore
          twoPagesOneReleased.world 1).2.2).frame).file = 1 ∧
      ((allocPage plainStore twoPagesOneReleased.mgr twoPagesOneReleased.world 1).mgr.frame
          (allocBuf plainStore twoPagesOneReleased.mgr (World.allocatePage plainStore
          twoPagesOneReleased.world 1).2.2).frame).pageNo = (plainStore.allocatePage
          twoPagesOneReleased.world.store 1).2.1 ∧
      ((allocPage plainStore twoPagesOneReleased.mgr twoPagesOneReleased.world 1).mgr.frame
          (allocBuf plainStore twoPagesOneReleased.mgr (World.allocatePage plainStore
          twoPagesOneReleased.world 1).2.2).frame).refbit = true ∧
      ((allocPage plainStore twoPagesOneReleased.mgr twoPagesOneReleased.world 1).mgr.frame
          (allocBuf plainStore twoPagesOneReleased.mgr (World.allocatePage plainStore
          twoPagesOneReleased.world 1).2.2).frame).dirty = false ∧
      ((allocPage plainStore twoPagesOneReleased.mgr twoPagesOneReleased.world 1).mgr.frame
          (allocBuf plainStore twoPagesOneReleased.mgr (World.allocatePage plainStore
          twoPagesOneReleased.world 1).2.2).frame).pinCnt = 1) ∧
    ((allocBuf plainStore twoPagesOneReleased.mgr (World.allocatePage plainStore
        twoPagesOneReleased.world 1).2.2).status = Status.OK →
      (allocBuf plainStore twoPagesOneReleased.mgr (World.allocatePage plainStore
          twoPagesOneReleased.world 1).2.2).mgr.hashTable.lookup 1 (plainStore.allocatePage
          twoPagesOneReleased.world.store 1).2.1 ≠ none →
      (allocPage plainStore twoPagesOneReleased.mgr twoPagesOneReleased.world 1).status =
          Status.HASHTBLERROR ∧
      (allocPage plainStore twoPagesOneReleased.mgr twoPagesOneReleased.world 1).page = none ∧
      (allocPage plainStore twoPagesOneReleased.mgr twoPagesOneReleased.world 1).mgr =
          (allocBuf plainStore twoPagesOneReleased.mgr (World.allocatePage plainStore
          twoPagesOneReleased.world 1).2.2).mgr) ∧
    (twoPagesOneReleased.mgr.hashTable.lookup 1 (plainStore.allocatePage
        twoPagesOneReleased.world.store 1).2.1 = none →
      (allocBuf plainStore twoPagesOneReleased.mgr (World.allocatePage plainStore
          twoPagesOneReleased.world 1).2.2).mgr.hashTable.lookup 1 (plainStore.allocatePage
          twoPagesOneReleased.world.store 1).2.1 = none) ∧
    ((allocBuf plainStore twoPagesOneReleased.mgr (World.allocatePage plainStore
        twoPagesOneReleased.world 1).2.2).status ≠ Status.OK →
      (allocPage plainStore twoPagesOneReleased.mgr twoPagesOneReleased.world 1).status =
          (allocBuf plainStore twoPagesOneReleased.mgr (World.allocatePage plainStore
          twoPagesOneReleased.world 1).2.2).status ∧
      (allocPage plainStore twoPagesOneReleased.mgr twoPagesOneReleased.world 1).page = none ∧
      (allocPage plainStore twoPagesOneReleased.mgr twoPagesOneReleased.world 1).mgr =
          (allocBuf plainStore twoPagesOneReleased.mgr (World.allocatePage plainStore
          twoPagesOneReleased.world 1).2.2).mgr ∧
      (allocPage plainStore twoPagesOneReleased.mgr twoPagesOneReleased.world 1).world =
          (allocBuf plainStore twoPagesOneReleased.mgr (World.allocatePage plainStore
          twoPagesOneReleased.world 1).2.2).world ∧
      ∀ g q st, ¬ Issued twoPagesOneReleased.world (allocPage plainStore
          twoPagesOneReleased.mgr twoPagesOneReleased.world 1).world (IOEvent.dispose g q st)))) ∧
    (Reachable plainStore onePageHeld.mgr onePageHeld.world ∧
    (plainStore.allocatePage onePageHeld.world.store 1).1 = Status.OK ∧
    (allocPage plainStore onePageHeld.mgr onePageHeld.world 1).status
      = Status.BUFFEREXCEEDED ∧
    (((allocBuf plainStore onePageHeld.mgr (World.allocatePage plainStore onePageHeld.world
        1).2.2).status = Status.OK →
      (allocBuf plainStore onePageHeld.mgr (World.allocatePage plainStore onePageHeld.world
          1).2.2).mgr.hashTable.lookup 1 (plainStore.allocatePage onePageHeld.world.store
          1).2.1 = none →
      (allocPage plainStore onePageHeld.mgr onePageHeld.world 1).status = Status.OK ∧
      (allocPage plainStore onePageHeld.mgr onePageHeld.world 1).pageNo = some
          (plainStore.allocatePage onePageHeld.world.store 1).2.1 ∧
      (allocPage plainStore onePageHeld.mgr onePageHeld.world 1).page = some (allocBuf
          plainStore onePageHeld.mgr (World.allocatePage plainStore onePageHeld.world
          1).2.2).frame ∧
      (allocBuf plainStore onePageHeld.mgr (World.allocatePage plainStore onePageHeld.world
          1).2.2).frame < onePageHeld.mgr.numBufs ∧
      (allocPage plainStore onePageHeld.mgr onePageHeld.world 1).mgr.hashTable.lookup 1
          (plainStore.allocatePage onePageHeld.world.store 1).2.1 = some (allocBuf plainStore
          onePageHeld.mgr (World.allocatePage plainStore onePageHeld.world 1).2.2).frame ∧
      ((allocPage plainStore onePageHeld.mgr onePageHeld.world 1).mgr.frame (allocBuf
          plainStore onePageHeld.mgr (World.allocatePage plainStore onePageHeld.world
          1).2.2).frame).valid = true ∧
      ((allocPage plainStore onePageHeld.mgr onePageHeld.world 1).mgr.frame (allocBuf
          plainStore onePageHeld.mgr (World.allocatePage plainStore onePageHeld.world
          1).2.2).frame).file = 1 ∧
      ((allocPage plainStore onePageHeld.mgr onePageHeld.world 1).mgr.frame (allocBuf
          plainStore onePageHeld.mgr (World.allocatePage plainStore onePageHeld.world
          1).2.2).frame).pageNo = (plainStore.allocatePage onePageHeld.world.store 1).2.1 ∧
      ((allocPage plainStore onePageHeld.mgr onePageHeld.world 1).mgr.frame (allocBuf
          plainStore onePageHeld.mgr (World.allocatePage plainStore onePageHeld.world
          1).2.2).frame).refbit = true ∧
      ((allocPage plainStore onePageHeld.mgr onePageHeld.world 1).mgr.frame (allocBuf
          plainStore onePageHeld.mgr (World.allocatePage plainStore onePageHeld.world
          1).2.2).frame).dirty = false ∧
      ((allocPage plainStore onePageHeld.mgr onePageHeld.world 1).mgr.frame (allocBuf
          plainStore onePageHeld.mgr (World.allocatePage plainStore onePageHeld.world
          1).2.2).frame).pinCnt = 1) ∧
    ((allocBuf plainStore onePageHeld.mgr (World.allocatePage plainStore onePageHeld.world
        1).2.2).status = Status.OK →
      (allocBuf plainStore onePageHeld.mgr (World.allocatePage plainStore onePageHeld.world
          1).2.2).mgr.hashTable.lookup 1 (plainStore.allocatePage onePageHeld.world.store
          1).2.1 ≠ none →
      (allocPage plainStore onePageHeld.mgr onePageHeld.world 1).status = Status.HASHTBLERROR ∧
      (allocPage plainStore onePageHeld.mgr onePageHeld.world 1).page = none ∧
      (allocPage plainStore onePageHeld.mgr onePageHeld.world 1).mgr = (allocBuf plainStore
          onePageHeld.mgr (World.allocatePage plainStore onePageHeld.world 1).2.2).mgr) ∧
    (onePageHeld.mgr.hashTable.lookup 1 (plainStore.allocatePage onePageHeld.world.store 1).2.1
        = none →
      (allocBuf plainStore onePageHeld.mgr (World.allocatePage plainStore onePageHeld.world
          1).2.2).mgr.hashTable.lookup 1 (plainStore.allocatePage onePageHeld.world.store
          1).2.1 = none) ∧
    ((allocBuf plainStore onePageHeld.mgr (World.allocatePage plainStore onePageHeld.world
        1).2.2).status ≠ Status.OK →
      (allocPage plainStore onePageHeld.mgr onePageHeld.world 1).status = (allocBuf plainStore
          onePageHeld.mgr (World.allocatePage plainStore onePageHeld.world 1).2.2).status ∧
      (allocPage plainStore onePageHeld.mgr onePageHeld.world 1).page = none ∧
      (allocPage plainStore onePageHeld.mgr onePageHeld.world 1).mgr = (allocBuf plainStore
          onePageHeld.mgr (World.allocatePage plainStore onePageHeld.world 1).2.2).mgr ∧
      (allocPage plainStore onePageHeld.mgr onePageHeld.world 1).world = (allocBuf plainStore
          onePageHeld.mgr (World.allocatePage plainStore onePageHeld.world 1).2.2).world ∧
      ∀ g q st, ¬ Issued onePageHeld.world (allocPage plainStore onePageHeld.mgr
          onePageHeld.world 1).world (IOEvent.dispose g q st)))) :=
  ⟨⟨start_run_reachable plainStore _ 2 plainWorld, by decide, by decide,
    allocPage_effect plainStore twoPagesOneReleased.mgr twoPagesOneReleased.world 1
      (start_run_reachable plainStore _ 2 plainWorld) (by decide)⟩,
   ⟨start_run_reachable plainStore _ 1 plainWorld, by decide, by decide,
    allocPage_effect plainStore onePageHeld.mgr onePageHeld.world 1
      (start_run_reachable plainStore _ 1 plainWorld) (by decide)⟩⟩

/-- C15 as stated fails: with page `(1,0)` fetched and pinned in frame 0 of a
manager of capacity 2, the file's `allocatePage` succeeds with page number `0`
and `allocBuf` succeeds with frame 1, yet `allocPage` returns `HASHTBLERROR`:
the index already has `(1,0)`, the insert is refused, the index still maps
`(1,0)` to frame 0 and frame 1 stays empty. -/
theorem allocPage_of_cached_number_fails :
    Reachable plainStore pageZeroHeld.mgr pageZeroHeld.world ∧
    (plainStore.allocatePage pageZeroHeld.world.store 1).1 = Status.OK ∧
    (plainStore.allocatePage pageZeroHeld.world.store 1).2.1 = 0 ∧
    (allocBuf plainStore pageZeroHeld.mgr
      (World.allocatePage plainStore pageZeroHeld.world 1).2.2).status = Status.OK ∧
    (allocBuf plainStore pageZeroHeld.mgr
      (World.allocatePage plainStore pageZeroHeld.world 1).2.2).frame = 1 ∧
    (allocPage plainStore pageZeroHeld.mgr pageZeroHeld.world 1).status
      = Status.HASHTBLERROR ∧
    (allocPage plainStore pageZeroHeld.mgr pageZeroHeld.world 1).page = none ∧
    (allocPage plainStore pageZeroHeld.mgr pageZeroHeld.world 1).mgr.hashTable.lookup 1 0
      = some 0 ∧
    ((allocPage plainStore pageZeroHeld.mgr pageZeroHeld.world 1).mgr.frame 1).valid
      = false :=
  ⟨start_run_reachable plainStore _ 2 plainWorld, by decide, by decide, by decide, by decide,
    by decide, by decide, by decide, by decide⟩

/-! ## Flushing a file -/

theorem flushWrites_cons (file : File) (m : BufMgr) (i : Nat) (is : List Nat) :
    flushWrites file m (i :: is) =
      (if flushes file m i = true then [writeOf m i Status.OK] else []) ++
        flushWrites file m is := by
  unfold flushWrites
  by_cases h : flushes file m i = true
  · simp [List.filter_cons, h]
  · simp [List.filter_cons, h]

theorem flushWrites_congr (file : File) (m n : BufMgr) (is : List Nat)
    (hf : ∀ j ∈ is, n.frame j = m.frame j) (hp : n.bufPool = m.bufPool) :
    flushWrites file n is = flushWrites file m is := by
  induction is with
  | nil => rfl
  | cons i rest ih =>
    have hi := hf i (List.mem_cons_self _ _)
    rw [flushWrites_cons, flushWrites_cons, ih (fun j hj => hf j (List.mem_cons_of_mem _ hj))]
    simp only [flushes, writeOf, hi, pool_eq_of_bufPool_eq hp]

theorem flushStore_single {σ : Type} (io : FileOps σ) (file : File) (m : BufMgr) (i : Nat)
    (s : σ) :
    flushStore io file m [i] s =
      if flushes file m i = true then
        (io.writePage s (m.frame i).file (m.frame i).pageNo (m.pool i)).2
      else s := by
  unfold flushStore
  by_cases h : flushes file m i = true
  · simp [List.filter_cons, h]
  · simp [List.filter_cons, h]

theorem flushStore_cons {σ : Type} (io : FileOps σ) (file : File) (m : BufMgr) (i : Nat)
    (is : List Nat) (s : σ) :
    flushStore io file m (i :: is) s = flushStore io file m is (flushStore io file m [i] s) := by
  unfold flushStore
  by_cases h : flushes file m i = true
  · simp [List.filter_cons, h]
  · simp [List.filter_cons, h]

theorem flushStore_congr {σ : Type} (io : FileOps σ) (file : File) (m n : BufMgr)
    (is : List Nat) (hf : ∀ j ∈ is, n.frame j = m.frame j) (hp : n.bufPool = m.bufPool) :
    ∀ s : σ, flushStore io file n is s = flushStore io file m is s := by
  induction is with
  | nil => intro s; rfl
  | cons i rest ih =>
    intro s
    have hi := hf i (List.mem_cons_self _ _)
    have h1 : flushStore io file n [i] s = flushStore io file m [i] s := by
      rw [flushStore_single, flushStore_single]
      simp only [flushes, hi, pool_eq_of_bufPool_eq hp]
    rw [flushStore_cons, flushStore_cons io file m, h1,
      ih (fun j hj => hf j (List.mem_cons_of_mem _ hj))]

theorem FlushStop.congr {σ : Type} {io : FileOps σ} {file : File} {m n : BufMgr}
    {rest : List Nat} {tail : List IOEvent} {st : Status} {s u : σ}
    (r : FlushStop io file n rest tail st s u)
    (hf : ∀ j ∈ rest, n.frame j = m.frame j) (hp : n.bufPool = m.bufPool) :
    FlushStop io file m rest tail st s u := by
  rcases r with r | ⟨i, rest2, hr, r⟩
  · exact Or.inl r
  · right
    have hi : n.frame i = m.frame i := hf i (by rw [hr]; exact List.mem_cons_self _ _)
    refine ⟨i, rest2, hr, ?_⟩
    simpa only [writeOf, hi, pool_eq_of_bufPool_eq hp] using r

/-- A run of the rest of the flush loop, after frame `i` was dealt with, is a
run of the loop from frame `i` on. -/
theorem FlushRun.cons {σ : Type} {io : FileOps σ} {file : File} {m n : BufMgr} {w v : World σ}
    {is pre rest : List Nat} {tail : List IOEvent} {out : Ret σ} {i : Nat}
    (r : FlushRun io file n v is pre rest tail out) (hi : i ∉ is)
    (hne : ∀ j, j ≠ i → n.frame j = m.frame j) (hp : n.bufPool = m.bufPool)
    (hpass : ((m.frame i).ownedBy file = true → (m.frame i).pinCnt ≤ 0) ∧
      ¬ ((m.frame i).valid = false ∧ (m.frame i).file = file))
    (htr : v.trace = w.trace ++ flushWrites file m [i])
    (hst : v.store = flushStore io file m [i] w.store)
    (hdrop : (m.frame i).ownedBy file = true → n.frame i = (m.frame i).dropped)
    (hkeep : ¬ (m.frame i).ownedBy file = true → n.frame i = m.frame i) :
    FlushRun io file m w (i :: is) (i :: pre) rest tail out := by
  have hsub : ∀ j ∈ pre, j ∈ is := fun j hj => by
    rw [r.split]; exact List.mem_append_left _ hj
  have hsubr : ∀ j ∈ rest, j ∈ is := fun j hj => by
    rw [r.split]; exact List.mem_append_right _ hj
  have hin : ∀ j ∈ is, n.frame j = m.frame j := fun j hj =>
    hne j (fun hji => hi (hji ▸ hj))
  have hipre : i ∉ pre := fun hc => hi (hsub i hc)
  refine ⟨by rw [r.split]; rfl, ?_, ?_, ?_, r.pool.trans hp, ?_, ?_⟩
  · intro j hj
    rcases List.mem_cons.1 hj with rfl | hj
    · exact hpass
    · have := r.passed j hj
      rwa [hin j (hsub j hj)] at this
  · intro j hj ho
    rcases List.mem_cons.1 hj with rfl | hj
    · rw [r.kept j (fun hc => hipre hc.1)]
      exact hdrop ho
    · have := r.dropped j hj
      rw [hin j (hsub j hj)] at this
      exact this ho
  · intro j hj
    by_cases hji : j = i
    · subst hji
      have ho : ¬ (m.frame j).ownedBy file = true := fun ho => hj ⟨List.mem_cons_self _ _, ho⟩
      rw [r.kept j (fun hc => hipre hc.1)]
      exact hkeep ho
    · rw [← hne j hji]
      apply r.kept
      rintro ⟨h1, h2⟩
      rw [hne j hji] at h2
      exact hj ⟨List.mem_cons_of_mem _ h1, h2⟩
  · rw [r.trace, htr, flushWrites_congr file m n pre (fun j hj => hin j (hsub j hj)) hp,
      flushWrites_cons file m i pre, flushWrites_cons file m i []]
    simp [flushWrites, List.append_assoc]
  · have hstop := r.stop.congr (fun j hj => hin j (hsubr j hj)) hp
    rw [flushStore_congr io file m n pre (fun j hj => hin j (hsub j hj)) hp, hst,
      ← flushStore_cons] at hstop
    exact hstop

theorem dropped_of_clean (d : BufDesc) (h : d.dirty = false) :
    { d with file := NULL, pageNo := -1, valid := false } = d.dropped := by
  obtain ⟨a, b, c, e, f, g, r⟩ := d
  simp only at h
  subst h
  rfl

theorem ownedBy_iff (d : BufDesc) (file : File) :
    d.ownedBy file = true ↔ d.valid = true ∧ d.file = file := by
  simp [BufDesc.ownedBy]

/-- The flush loop over distinct frames runs as `FlushRun` says. -/
theorem flushFileLoop_run {σ : Type} (io : FileOps σ) (file : File) (is : List Nat) :
    ∀ (m : BufMgr) (w : World σ), is.Nodup → (∀ i ∈ is, i < m.bufTable.length) →
      ∃ pre rest tail, FlushRun io file m w is pre rest tail (flushFileLoop io file is m w) := by
  induction is with
  | nil =>
    intro m w _ _
    exact ⟨[], [], [], rfl, fun _ hi => absurd hi (List.not_mem_nil _),
      fun _ hi => absurd hi (List.not_mem_nil _), fun _ _ => rfl, rfl,
      by simp [flushWrites, flushFileLoop], Or.inl ⟨rfl, rfl, rfl, rfl⟩⟩
  | cons i rest ih =>
    intro m w hnd hall
    have hlen : i < m.bufTable.length := hall i (List.mem_cons_self _ _)
    have hi : i ∉ rest := (List.nodup_cons.1 hnd).1
    have hnd2 : rest.Nodup := (List.nodup_cons.1 hnd).2
    have hrest : ∀ k ∈ rest, k < m.bufTable.length :=
      fun k hk => hall k (List.mem_cons_of_mem _ hk)
    have hstop : ∀ (tail : List IOEvent) (out : Ret σ), out.mgr = m →
        out.world.trace = w.trace ++ tail →
        (∃ i2 rest2, i :: rest = i2 :: rest2 ∧
          ((out.status = Status.PAGEPINNED ∧ tail = [] ∧ (m.frame i2).ownedBy file = true ∧
              0 < (m.frame i2).pinCnt ∧ out.world.store = w.store) ∨
            (out.status = Status.BADBUFFER ∧ tail = [] ∧ (m.frame i2).valid = false ∧
              (m.frame i2).file = file ∧ out.world.store = w.store) ∨
            (out.status ≠ Status.OK ∧ tail = [writeOf m i2 out.status] ∧
              (m.frame i2).ownedBy file = true ∧
              (m.frame i2).pinCnt ≤ 0 ∧ (m.frame i2).dirty = true ∧
              out.status =
                (io.writePage w.store (m.frame i2).file (m.frame i2).pageNo (m.pool i2)).1 ∧
              out.world.store =
                (io.writePage w.store (m.frame i2).file (m.frame i2).pageNo
                  (m.pool i2)).2))) →
        ∃ pre rest2 tail, FlushRun io file m w (i :: rest) pre rest2 tail out := by
      intro tail out hm ht hs
      refine ⟨[], i :: rest, tail, rfl, fun _ hi => absurd hi (List.not_mem_nil _),
        fun _ hi => absurd hi (List.not_mem_nil _), fun _ _ => by rw [hm], by rw [hm], ?_,
        Or.inr hs⟩
      rw [ht]
      simp [flushWrites]
    unfold flushFileLoop
    simp only []
    split_ifs with hc hp hd hw hb
    · -- a pinned frame of the file
      refine hstop [] _ rfl (by simp) ⟨i, rest, rfl, Or.inl ⟨rfl, rfl, hc, hp, rfl⟩⟩
    · -- a dirty frame of the file whose write fails
      refine hstop [writeOf m i (io.writePage w.store (m.frame i).file (m.frame i).pageNo
        (m.pool i)).1] _ rfl rfl
        ⟨i, rest, rfl, Or.inr (Or.inr ⟨?_, rfl, hc, not_lt.1 hp, ?_, rfl, rfl⟩)⟩
      · simpa [World.writePage] using hw
      · simpa using hd
    · -- a dirty frame of the file, written back and dropped
      have hd2 : (m.frame i).dirty = true := by simpa using hd
      have hw2 : (io.writePage w.store (m.frame i).file (m.frame i).pageNo (m.pool i)).1
          = Status.OK := by simpa [World.writePage] using hw
      have hlen2 : i < (m.setFrame i { m.frame i with dirty := false }).bufTable.length := by
        simpa using hlen
      obtain ⟨pre, rest2, tail, r⟩ := ih
        (((m.setFrame i { m.frame i with dirty := false }).hashRemove file
          (m.frame i).pageNo).setFrame i
          { ((m.setFrame i { m.frame i with dirty := false }).hashRemove file
            (m.frame i).pageNo).frame i with file := NULL, pageNo := -1, valid := false })
        (w.writePage io (m.frame i).file (m.frame i).pageNo (m.pool i)).2 hnd2
        (by simpa using hrest)
      have ho : (m.frame i).ownedBy file = true := hc
      have hfl : flushes file m i = true := by simp [flushes, ho, hd2]
      refine ⟨i :: pre, rest2, tail,
        r.cons hi ?_ rfl ⟨fun _ => not_lt.1 hp, ?_⟩ ?_ ?_ ?_ ?_⟩
      · intro j hj
        rw [frame_setFrame_ne _ _ (Ne.symm hj), frame_hashRemove,
          frame_setFrame_ne _ _ (Ne.symm hj)]
      · rintro ⟨hv, -⟩
        rw [((ownedBy_iff _ _).1 hc).1] at hv
        exact Bool.noConfusion hv
      · rw [flushWrites_cons, if_pos hfl]
        simp [World.writePage, writeOf, hw2, flushWrites]
      · rw [flushStore_single, if_pos hfl]
        rfl
      · intro _
        rw [frame_setFrame_self _ _ (by simpa using hlen), frame_hashRemove,
          frame_setFrame_self _ _ hlen]
        rfl
      · intro hno
        exact absurd hc hno
    · -- a clean frame of the file, dropped
      have hd2 : (m.frame i).dirty = false := by simpa using hd
      obtain ⟨pre, rest2, tail, r⟩ := ih
        ((m.hashRemove file (m.frame i).pageNo).setFrame i
          { (m.hashRemove file (m.frame i).pageNo).frame i with
            file := NULL, pageNo := -1, valid := false })
        w hnd2 (by simpa using hrest)
      have hfl : ¬ flushes file m i = true := by simp [flushes, hd2]
      refine ⟨i :: pre, rest2, tail,
        r.cons hi ?_ rfl ⟨fun _ => not_lt.1 hp, ?_⟩ ?_ ?_ ?_ ?_⟩
      · intro j hj
        rw [frame_setFrame_ne _ _ (Ne.symm hj), frame_hashRemove]
      · rintro ⟨hv, -⟩
        rw [((ownedBy_iff _ _).1 hc).1] at hv
        exact Bool.noConfusion hv
      · rw [flushWrites_cons, if_neg hfl]
        simp [flushWrites]
      · rw [flushStore_single, if_neg hfl]
      · intro _
        rw [frame_setFrame_self _ _ (by simpa using hlen), frame_hashRemove]
        exact dropped_of_clean _ hd2
      · intro hno
        exact absurd hc hno
    · -- an invalid frame that names the file
      have hb2 : (m.frame i).valid = false ∧ (m.frame i).file = file := by simpa using hb
      exact hstop [] _ rfl (by simp)
        ⟨i, rest, rfl, Or.inr (Or.inl ⟨rfl, rfl, hb2.1, hb2.2, rfl⟩)⟩
    · -- a frame of another file, or an empty one
      obtain ⟨pre, rest2, tail, r⟩ := ih m w hnd2 hrest
      have hb2 : ¬ ((m.frame i).valid = false ∧ (m.frame i).file = file) := by simpa using hb
      have hfl : ¬ flushes file m i = true := by
        intro hf
        simp only [flushes, Bool.and_eq_true] at hf
        exact hc hf.1
      refine ⟨i :: pre, rest2, tail, r.cons hi (fun _ _ => rfl) rfl
        ⟨fun ho => absurd ho hc, hb2⟩ ?_ ?_ (fun ho => absurd ho hc) (fun _ => rfl)⟩
      · rw [flushWrites_cons, if_neg hfl]
        simp [flushWrites]
      · rw [flushStore_single, if_neg hfl]

theorem range_split {N i : Nat} {pre rest : List Nat}
    (h : List.range N = pre ++ i :: rest) : pre = List.range i ∧ i < N := by
  have hlen : N = pre.length + (rest.length + 1) := by
    have := congrArg List.length h
    simpa using this
  have hget : (List.range N)[pre.length]? = some i := by
    rw [h, List.getElem?_append_right (le_refl _)]
    simp
  have hlt : pre.length < N := by omega
  rw [List.getElem?_range hlt] at hget
  have hi : pre.length = i := by simpa using hget
  refine ⟨?_, by omega⟩
  have htake : (List.range N).take pre.length = pre := by
    rw [h]
    simp
  rw [← htake, List.take_range, hi]
  congr 1
  omega

theorem flushFile_run {σ : Type} (io : FileOps σ) (m : BufMgr) (w : World σ) (f : File)
    (h : WF m) :
    ∃ pre rest tail,
      FlushRun io f m w (List.range m.numBufs) pre rest tail (flushFile io m w f) :=
  flushFileLoop_run io f _ m w (List.nodup_range _)
    (fun i hi => by rw [h.lenTable]; exact List.mem_range.1 hi)

/-- A flush that returns `OK` dealt with every frame. -/
theorem flushFile_ok_run {σ : Type} (io : FileOps σ) (m : BufMgr) (w : World σ) (f : File)
    (h : WF m) (hs : (flushFile io m w f).status = Status.OK) :
    FlushRun io f m w (List.range m.numBufs) (List.range m.numBufs) [] [] (flushFile io m w f) := by
  obtain ⟨pre, rest, tail, r⟩ := flushFile_run io m w f h
  rcases r.stop with ⟨-, h2, h3, -⟩ | ⟨i, rest2, -, h2 | h2 | h2⟩
  · subst h2 h3
    have hpre : pre = List.range m.numBufs := by simpa using r.split.symm
    subst hpre
    exact r
  · rw [hs] at h2
    exact absurd h2.1 (by decide)
  · rw [hs] at h2
    exact absurd h2.1 (by decide)
  · exact absurd hs h2.1

/-- A run that dealt with all its frames left the store the writes produce. -/
theorem FlushRun.store_of_done {σ : Type} {io : FileOps σ} {file : File} {m : BufMgr}
    {w : World σ} {is pre : List Nat} {tail : List IOEvent} {out : Ret σ}
    (r : FlushRun io file m w is pre [] tail out) :
    out.world.store = flushStore io file m pre w.store := by
  rcases r.stop with ⟨-, -, -, h⟩ | ⟨i, rest2, hr, -⟩
  · exact h
  · cases hr

/-- Two frames of a consistent state that owe the same write are one frame. -/
theorem WF.flushes_unique {m : BufMgr} (h : WF m) {f : File} {i j : Nat} (hi : i < m.numBufs)
    (hj : j < m.numBufs) (hoi : (m.frame i).ownedBy f = true)
    (hoj : (m.frame j).ownedBy f = true) (hp : (m.frame i).pageNo = (m.frame j).pageNo) :
    i = j := by
  rw [ownedBy_iff] at hoi hoj
  exact h.frame_unique hi hj hoi.1 hoj.1 (hoi.2.trans hoj.2.symm) hp

theorem mem_flushWrites {f : File} {m : BufMgr} {is : List Nat} {ev : IOEvent}
    (h : ev ∈ flushWrites f m is) :
    ∃ k, k ∈ is ∧ (m.frame k).ownedBy f = true ∧ (m.frame k).dirty = true ∧
      ev = writeOf m k Status.OK := by
  unfold flushWrites at h
  obtain ⟨k, hk, rfl⟩ := List.mem_map.1 h
  obtain ⟨hk1, hk2⟩ := List.mem_filter.1 hk
  simp only [flushes, Bool.and_eq_true] at hk2
  exact ⟨k, hk1, hk2.1, hk2.2, rfl⟩

theorem count_flushWrites {f : File} {m : BufMgr} (h : WF m) {i : Nat} (hi : i < m.numBufs)
    (hfl : flushes f m i = true) :
    List.count (writeOf m i Status.OK) (flushWrites f m (List.range m.numBufs)) = 1 := by
  have hfl2 := hfl
  simp only [flushes, Bool.and_eq_true] at hfl2
  apply List.count_eq_one_of_mem
  · unfold flushWrites
    apply List.Nodup.map_on
    · intro x hx y hy hxy
      obtain ⟨hx1, hx2⟩ := List.mem_filter.1 hx
      obtain ⟨hy1, hy2⟩ := List.mem_filter.1 hy
      simp only [flushes, Bool.and_eq_true] at hx2 hy2
      simp only [writeOf, IOEvent.write.injEq] at hxy
      exact h.flushes_unique (List.mem_range.1 hx1) (List.mem_range.1 hy1) hx2.1 hy2.1 hxy.2.1
    · exact (List.nodup_range _).filter _
  · unfold flushWrites
    exact List.mem_map.2 ⟨i, List.mem_filter.2 ⟨List.mem_range.2 hi, hfl⟩, rfl⟩

/-- C12 (flush of a file that succeeds): in every reachable state, if
`flushFile(f)` returns `OK` then afterwards no valid frame is owned by `f` and
the index has no entry for `f`; the calls issued to the file store are exactly
one successful `writePage` -- page number and pool bytes, to `f` -- for each
dirty frame of `f`, in ascending frame order, so each dirty frame of `f` was
written exactly once and no clean frame of `f` was written, and the store is
the one these calls of the file's `writePage` left in turn; and every frame that
did not hold a page of `f` is unchanged, as are all pool bytes and the index
entries of every other file. -/
theorem flushFile_ok {σ : Type} (io : FileOps σ) (m : BufMgr) (w : World σ) (f : File)
    (h : Reachable io m w) (hs : (flushFile io m w f).status = Status.OK) :
    (∀ i, i < m.numBufs → ((flushFile io m w f).mgr.frame i).valid = true →
      ((flushFile io m w f).mgr.frame i).file ≠ f) ∧
    (∀ p, (flushFile io m w f).mgr.hashTable.lookup f p = none) ∧
    (flushFile io m w f).world.trace = w.trace ++ flushWrites f m (List.range m.numBufs) ∧
    (flushFile io m w f).world.store = flushStore io f m (List.range m.numBufs) w.store ∧
    (∀ i, i < m.numBufs → flushes f m i = true →
      List.count (writeOf m i Status.OK) (flushWrites f m (List.range m.numBufs)) = 1) ∧
    (∀ i, i < m.numBufs → (m.frame i).ownedBy f = true → (m.frame i).dirty = false →
      ∀ bytes st, IOEvent.write f (m.frame i).pageNo bytes st ∉
        flushWrites f m (List.range m.numBufs)) ∧
    (∀ i, (m.frame i).ownedBy f = false → (flushFile io m w f).mgr.frame i = m.frame i) ∧
    (flushFile io m w f).mgr.bufPool = m.bufPool ∧
    (∀ g p, g ≠ f →
      (flushFile io m w f).mgr.hashTable.lookup g p = m.hashTable.lookup g p) := by
  have hwf := h.wf
  have r := flushFile_ok_run io m w f hwf hs
  have sp := flushFile_spec io m w f hwf
  have hfr : ∀ i, i < m.numBufs → ((flushFile io m w f).mgr.frame i).valid = true →
      (flushFile io m w f).mgr.frame i = m.frame i ∧ (m.frame i).file ≠ f := by
    intro i hi hv
    by_cases ho : (m.frame i).ownedBy f = true
    · rw [r.dropped i (List.mem_range.2 hi) ho] at hv
      exact Bool.noConfusion hv
    · have hk := r.kept i (fun hc => ho hc.2)
      refine ⟨hk, fun hf => ho ?_⟩
      rw [hk] at hv
      exact (ownedBy_iff _ _).2 ⟨hv, hf⟩
  refine ⟨?_, ?_, ?_, r.store_of_done, ?_, ?_, ?_, r.pool, ?_⟩
  · intro i hi hv hf
    obtain ⟨hk, hne⟩ := hfr i hi hv
    rw [hk] at hf
    exact hne hf
  · intro p
    rw [sp.wf.lookup_none_iff]
    intro i hi hv hk
    rw [sp.numBufs] at hi
    obtain ⟨hk2, hne⟩ := hfr i hi hv
    rw [hk2] at hk
    exact hne hk.1
  · simpa using r.trace
  · intro i hi hfl
    exact count_flushWrites hwf hi hfl
  · intro i hi ho hd bytes st hmem
    obtain ⟨k, hk, hok, hdk, hev⟩ := mem_flushWrites hmem
    simp only [writeOf, IOEvent.write.injEq] at hev
    have hki := hwf.flushes_unique hi (List.mem_range.1 hk) ho hok hev.2.1
    subst hki
    rw [hd] at hdk
    exact Bool.noConfusion hdk
  · intro i ho
    exact r.kept i (fun hc => by rw [ho] at hc; exact Bool.noConfusion hc.2)
  · intro g p hg
    apply Option.ext
    intro i
    simp only [Option.mem_def]
    rw [sp.wf.lookup_iff, hwf.lookup_iff, sp.numBufs]
    constructor
    · rintro ⟨hi, hv, hfile, hp⟩
      obtain ⟨hk, -⟩ := hfr i hi hv
      rw [hk] at hv hfile hp
      exact ⟨hi, hv, hfile, hp⟩
    · rintro ⟨hi, hv, hfile, hp⟩
      have ho : ¬ (m.frame i).ownedBy f = true := by
        rw [ownedBy_iff]
        rintro ⟨-, hf⟩
        exact hg (hfile.symm.trans hf)
      have hk := r.kept i (fun hc => ho hc.2)
      rw [hk]
      exact ⟨hi, hv, hfile, hp⟩

/-- In a reachable state, a flush of a real file that meets a pinned frame of
the file at index `j`, and none before, while every write it issues succeeds,
deals with the frames below `j` and stops there with `PAGEPINNED`. -/
theorem flushFile_pinned_run {σ : Type} (io : FileOps σ) (m : BufMgr) (w : World σ) (f : File)
    (j : Nat) (hwf : WF m) (hf : f ≠ NULL) (hj : j < m.numBufs)
    (ho : (m.frame j).ownedBy f = true) (hp : 0 < (m.frame j).pinCnt)
    (hmin : ∀ i, i < j → ¬ ((m.frame i).ownedBy f = true ∧ 0 < (m.frame i).pinCnt))
    (hw : ∀ g p b st, Issued w (flushFile io m w f).world (IOEvent.write g p b st) →
      st = Status.OK) :
    (flushFile io m w f).status = Status.PAGEPINNED ∧
    (flushFile io m w f).world.store = flushStore io f m (List.range j) w.store ∧
    ∃ rest, FlushRun io f m w (List.range m.numBufs) (List.range j) rest []
      (flushFile io m w f) := by
  obtain ⟨pre, rest, tail, r⟩ := flushFile_run io m w f hwf
  rcases r.stop with ⟨-, h2, -⟩ | ⟨i, rest2, hr, hcase⟩
  · exfalso
    subst h2
    have hpre : pre = List.range m.numBufs := by simpa using r.split.symm
    have := (r.passed j (by rw [hpre]; exact List.mem_range.2 hj)).1 ho
    omega
  · subst hr
    obtain ⟨hpre, hiN⟩ := range_split r.split
    have hij : i ≤ j := by
      by_contra hc
      have := (r.passed j (by rw [hpre]; exact List.mem_range.2 (not_le.1 hc))).1 ho
      omega
    rcases hcase with ⟨h1, h2, h3, h4, h6⟩ | ⟨h1, h2, h3, h4, -⟩ | ⟨h1, h2, h3, h4, h5, -⟩
    · have heq : i = j := by
        rcases Nat.lt_or_eq_of_le hij with hlt | heq
        · exact absurd ⟨h3, h4⟩ (hmin i hlt)
        · exact heq
      subst heq
      subst hpre
      subst h2
      exact ⟨h1, h6, _, r⟩
    · exfalso
      exact hf (h4.symm.trans (hwf.empty i hiN h3).2.2)
    · exfalso
      apply h1
      apply hw (m.frame i).file (m.frame i).pageNo (m.pool i)
      refine ⟨flushWrites f m pre ++ tail, by rw [r.trace, List.append_assoc], ?_⟩
      rw [h2]
      simp [writeOf]

/-- C13 (partial flush): in every reachable state, for a real file `f` with a
valid frame of its own that is pinned, `j` being the lowest index of such a
frame, if every `writePage` issued during the call succeeds then `flushFile(f)`
returns `PAGEPINNED`; the calls it issued are the writes of the dirty frames of
`f` below `j`, in order, and the store is the one these calls of the file's
`writePage` left; every frame of `f` with index below `j` is afterwards
not valid, has no index entry and, if it was dirty, was written back; frame `j`
and every frame above it are unchanged, pool bytes included, and those that are
valid are still in the index; and frames that did not hold a page of `f` are
unchanged. -/
theorem flushFile_partial {σ : Type} (io : FileOps σ) (m : BufMgr) (w : World σ) (f : File)
    (j : Nat) (h : Reachable io m w) (hf : f ≠ NULL) (hj : j < m.numBufs)
    (ho : (m.frame j).ownedBy f = true) (hp : 0 < (m.frame j).pinCnt)
    (hmin : ∀ i, i < j → ¬ ((m.frame i).ownedBy f = true ∧ 0 < (m.frame i).pinCnt))
    (hw : ∀ g p b st, Issued w (flushFile io m w f).world (IOEvent.write g p b st) →
      st = Status.OK) :
    (flushFile io m w f).status = Status.PAGEPINNED ∧
    (flushFile io m w f).world.trace = w.trace ++ flushWrites f m (List.range j) ∧
    (flushFile io m w f).world.store = flushStore io f m (List.range j) w.store ∧
    (∀ i, i < j → (m.frame i).ownedBy f = true →
      ((flushFile io m w f).mgr.frame i).valid = false ∧
      (flushFile io m w f).mgr.hashTable.lookup f (m.frame i).pageNo = none ∧
      ((m.frame i).dirty = true →
        Issued w (flushFile io m w f).world (writeOf m i Status.OK))) ∧
    (∀ i, j ≤ i → (flushFile io m w f).mgr.frame i = m.frame i ∧
      (flushFile io m w f).mgr.pool i = m.pool i) ∧
    (∀ i, j ≤ i → i < m.numBufs → (m.frame i).valid = true →
      (flushFile io m w f).mgr.hashTable.lookup (m.frame i).file (m.frame i).pageNo
        = some i) ∧
    (∀ i, (m.frame i).ownedBy f = false → (flushFile io m w f).mgr.frame i = m.frame i) := by
  have hwf := h.wf
  have sp := flushFile_spec io m w f hwf
  obtain ⟨hst, hstore, rest, r⟩ := flushFile_pinned_run io m w f j hwf hf hj ho hp hmin hw
  have htr : (flushFile io m w f).world.trace = w.trace ++ flushWrites f m (List.range j) := by
    simpa using r.trace
  have hkeep : ∀ i, j ≤ i → (flushFile io m w f).mgr.frame i = m.frame i := fun i hi =>
    r.kept i (fun hc => absurd (List.mem_range.1 hc.1) (not_lt.2 hi))
  refine ⟨hst, htr, hstore, ?_, ?_, ?_, ?_⟩
  · intro i hi hoi
    have hdrop := r.dropped i (List.mem_range.2 hi) hoi
    refine ⟨by rw [hdrop]; rfl, ?_, ?_⟩
    · rw [sp.wf.lookup_none_iff]
      rintro k hk hv ⟨hkf, hkp⟩
      rw [sp.numBufs] at hk
      by_cases hok : (m.frame k).ownedBy f = true
      · by_cases hkj : k < j
        · rw [r.dropped k (List.mem_range.2 hkj) hok] at hv
          exact Bool.noConfusion hv
        · rw [hkeep k (not_lt.1 hkj)] at hkp
          have := hwf.flushes_unique hk (lt_trans hi hj) hok hoi hkp
          omega
      · have hk2 := r.kept k (fun hc => hok hc.2)
        rw [hk2] at hv hkf
        exact hok ((ownedBy_iff _ _).2 ⟨hv, hkf⟩)
    · intro hd
      refine ⟨flushWrites f m (List.range j), htr, ?_⟩
      unfold flushWrites
      refine List.mem_map.2 ⟨i, List.mem_filter.2 ⟨List.mem_range.2 hi, ?_⟩, rfl⟩
      simp [flushes, hoi, hd]
  · intro i hi
    exact ⟨hkeep i hi, pool_eq_of_bufPool_eq r.pool i⟩
  · intro i hi hiN hv
    rw [sp.wf.lookup_iff, sp.numBufs, hkeep i hi]
    exact ⟨hiN, hv, rfl, rfl⟩
  · intro i hoi
    exact r.kept i (fun hc => by rw [hoi] at hc; exact Bool.noConfusion hc.2)

/-- C19 (the corrupt-buffer exit is unreachable): in every reachable state every
frame that is not valid has a null `file` field, so for every real (non-null)
file `f` -- the file store answering a `writePage` with `OK` or an error of its
own, never with `BADBUFFER` -- `flushFile(f)` does not return `BADBUFFER`. -/
theorem flushFile_never_corrupt {σ : Type} (io : FileOps σ) (m : BufMgr) (w : World σ)
    (f : File) (h : Reachable io m w) (hf : f ≠ NULL)
    (hio : ∀ s g p b, (io.writePage s g p b).1 ≠ Status.BADBUFFER) :
    (∀ i, i < m.numBufs → (m.frame i).valid = false → (m.frame i).file = NULL) ∧
    (flushFile io m w f).status ≠ Status.BADBUFFER := by
  have hwf := h.wf
  refine ⟨fun i hi hv => (hwf.empty i hi hv).2.2, ?_⟩
  obtain ⟨pre, rest, tail, r⟩ := flushFile_run io m w f hwf
  rcases r.stop with ⟨h1, -, -⟩ | ⟨i, rest2, hr, hcase⟩
  · rw [h1]
    decide
  · subst hr
    obtain ⟨-, hiN⟩ := range_split r.split
    rcases hcase with ⟨h1, -⟩ | ⟨-, -, h3, h4, -⟩ | ⟨-, -, -, -, -, hs, -⟩
    · rw [h1]
      decide
    · exact absurd (h4.symm.trans (hwf.empty i hiN h3).2.2) hf
    · rw [hs]
      exact hio _ _ _ _

theorem flushFile_ok_witness :
    Reachable plainStore twoFilesCached.mgr twoFilesCached.world ∧
    (flushFile plainStore twoFilesCached.mgr twoFilesCached.world 1).status = Status.OK ∧
    twoFilesCached.mgr.bufTable.map (fun d => (d.file, d.pageNo, d.pinCnt, d.dirty)) =
      [(1, 10, 0, true), (1, 20, 0, false), (2, 30, 1, false)] ∧
    flushWrites 1 twoFilesCached.mgr (List.range twoFilesCached.mgr.numBufs) =
      [IOEvent.write 1 10 1010 Status.OK] ∧
    ((∀ i, i < twoFilesCached.mgr.numBufs → ((flushFile plainStore twoFilesCached.mgr
        twoFilesCached.world 1).mgr.frame i).valid = true →
      ((flushFile plainStore twoFilesCached.mgr twoFilesCached.world 1).mgr.frame i).file ≠ 1) ∧
    (∀ p, (flushFile plainStore twoFilesCached.mgr twoFilesCached.world 1).mgr.hashTable.lookup
        1 p = none) ∧
    (flushFile plainStore twoFilesCached.mgr twoFilesCached.world 1).world.trace =
        twoFilesCached.world.trace ++ flushWrites 1 twoFilesCached.mgr (List.range
        twoFilesCached.mgr.numBufs) ∧
    (flushFile plainStore twoFilesCached.mgr twoFilesCached.world 1).world.store =
      flushStore plainStore 1 twoFilesCached.mgr (List.range twoFilesCached.mgr.numBufs)
        twoFilesCached.world.store ∧
    (∀ i, i < twoFilesCached.mgr.numBufs → flushes 1 twoFilesCached.mgr i = true →
      List.count (writeOf twoFilesCached.mgr i Status.OK) (flushWrites 1 twoFilesCached.mgr
          (List.range twoFilesCached.mgr.numBufs)) = 1) ∧
    (∀ i, i < twoFilesCached.mgr.numBufs → (twoFilesCached.mgr.frame i).ownedBy 1 = true →
        (twoFilesCached.mgr.frame i).dirty = false →
      ∀ bytes st, IOEvent.write 1 (twoFilesCached.mgr.frame i).pageNo bytes st ∉
        flushWrites 1 twoFilesCached.mgr (List.range twoFilesCached.mgr.numBufs)) ∧
    (∀ i, (twoFilesCached.mgr.frame i).ownedBy 1 = false → (flushFile plainStore
        twoFilesCached.mgr twoFilesCached.world 1).mgr.frame i = twoFilesCached.mgr.frame i) ∧
    (flushFile plainStore twoFilesCached.mgr twoFilesCached.world 1).mgr.bufPool =
        twoFilesCached.mgr.bufPool ∧
    (∀ g p, g ≠ 1 →
      (flushFile plainStore twoFilesCached.mgr twoFilesCached.world 1).mgr.hashTable.lookup g p
          = twoFilesCached.mgr.hashTable.lookup g p)) :=
  ⟨start_run_reachable plainStore _ 3 plainWorld, by decide, by decide, by decide,
    flushFile_ok plainStore twoFilesCached.mgr twoFilesCached.world 1
      (start_run_reachable plainStore _ 3 plainWorld) (by decide)⟩

/-- In `dirtyAroundPinned` the flush of file `1` issues one call, the
successful write of frame 0. -/
theorem dirtyAroundPinned_writes (g : File) (p : Int) (b : Page) (st : Status)
    (h : Issued dirtyAroundPinned.world
      (flushFile plainStore dirtyAroundPinned.mgr dirtyAroundPinned.world 1).world
      (IOEvent.write g p b st)) : st = Status.OK := by
  obtain ⟨evs, h1, h2⟩ := h
  have h3 : (flushFile plainStore dirtyAroundPinned.mgr dirtyAroundPinned.world 1).world.trace =
      dirtyAroundPinned.world.trace ++ [IOEvent.write 1 10 1010 Status.OK] := by decide
  rw [h3] at h1
  have h4 := List.append_cancel_left h1
  rw [← h4] at h2
  simp only [List.mem_singleton, IOEvent.write.injEq] at h2
  exact h2.2.2.2

theorem flushFile_partial_witness :
    Reachable plainStore dirtyAroundPinned.mgr dirtyAroundPinned.world ∧
    (1 : File) ≠ NULL ∧ 1 < dirtyAroundPinned.mgr.numBufs ∧
    (dirtyAroundPinned.mgr.frame 1).ownedBy 1 = true ∧
    0 < (dirtyAroundPinned.mgr.frame 1).pinCnt ∧
    (∀ i, i < 1 → ¬ ((dirtyAroundPinned.mgr.frame i).ownedBy 1 = true ∧
      0 < (dirtyAroundPinned.mgr.frame i).pinCnt)) ∧
    dirtyAroundPinned.mgr.bufTable.map (fun d => (d.file, d.pageNo, d.pinCnt, d.dirty)) =
      [(1, 10, 0, true), (1, 20, 1, true), (1, 30, 0, true)] ∧
    ((flushFile plainStore dirtyAroundPinned.mgr dirtyAroundPinned.world 1).status =
        Status.PAGEPINNED ∧
    (flushFile plainStore dirtyAroundPinned.mgr dirtyAroundPinned.world 1).world.trace =
        dirtyAroundPinned.world.trace ++ flushWrites 1 dirtyAroundPinned.mgr (List.range 1) ∧
    (flushFile plainStore dirtyAroundPinned.mgr dirtyAroundPinned.world 1).world.store =
      flushStore plainStore 1 dirtyAroundPinned.mgr (List.range 1)
        dirtyAroundPinned.world.store ∧
    (∀ i, i < 1 → (dirtyAroundPinned.mgr.frame i).ownedBy 1 = true →
      ((flushFile plainStore dirtyAroundPinned.mgr dirtyAroundPinned.world 1).mgr.frame
          i).valid = false ∧
      (flushFile plainStore dirtyAroundPinned.mgr dirtyAroundPinned.world
          1).mgr.hashTable.lookup 1 (dirtyAroundPinned.mgr.frame i).pageNo = none ∧
      ((dirtyAroundPinned.mgr.frame i).dirty = true →
        Issued dirtyAroundPinned.world (flushFile plainStore dirtyAroundPinned.mgr
            dirtyAroundPinned.world 1).world (writeOf dirtyAroundPinned.mgr i Status.OK))) ∧
    (∀ i, 1 ≤ i → (flushFile plainStore dirtyAroundPinned.mgr dirtyAroundPinned.world
        1).mgr.frame i = dirtyAroundPinned.mgr.frame i ∧
      (flushFile plainStore dirtyAroundPinned.mgr dirtyAroundPinned.world 1).mgr.pool i =
          dirtyAroundPinned.mgr.pool i) ∧
    (∀ i, 1 ≤ i → i < dirtyAroundPinned.mgr.numBufs → (dirtyAroundPinned.mgr.frame i).valid =
        true →
      (flushFile plainStore dirtyAroundPinned.mgr dirtyAroundPinned.world
          1).mgr.hashTable.lookup (dirtyAroundPinned.mgr.frame i).file
          (dirtyAroundPinned.mgr.frame i).pageNo
        = some i) ∧
    (∀ i, (dirtyAroundPinned.mgr.frame i).ownedBy 1 = false → (flushFile plainStore
        dirtyAroundPinned.mgr dirtyAroundPinned.world 1).mgr.frame i =
        dirtyAroundPinned.mgr.frame i)) :=
  ⟨start_run_reachable plainStore _ 3 plainWorld, by decide, by decide, by decide, by decide,
    by decide, by decide,
    flushFile_partial plainStore dirtyAroundPinned.mgr dirtyAroundPinned.world 1 1
      (start_run_reachable plainStore _ 3 plainWorld) (by decide) (by decide) (by decide)
      (by decide) (by decide) dirtyAroundPinned_writes⟩

theorem flushFile_never_corrupt_witness :
    Reachable plainStore dirtyAroundPinned.mgr dirtyAroundPinned.world ∧
    (1 : File) ≠ NULL ∧
    (∀ (s : Nat) (g : File) (p : Int) (b : Page),
      (plainStore.writePage s g p b).1 ≠ Status.BADBUFFER) ∧
    ((∀ i, i < dirtyAroundPinned.mgr.numBufs → (dirtyAroundPinned.mgr.frame i).valid = false →
        (dirtyAroundPinned.mgr.frame i).file = NULL) ∧
    (flushFile plainStore dirtyAroundPinned.mgr dirtyAroundPinned.world 1).status ≠
        Status.BADBUFFER) :=
  ⟨start_run_reachable plainStore _ 3 plainWorld, by decide,
    fun _ _ _ _ hc => Status.noConfusion hc,
    flushFile_never_corrupt plainStore dirtyAroundPinned.mgr dirtyAroundPinned.world 1
      (start_run_reachable plainStore _ 3 plainWorld) (by decide)
      (fun _ _ _ _ hc => Status.noConfusion hc)⟩

/-! ## Pin counts at the end of the int range -/

theorem exec_readPage_mgr {σ : Type} (io : FileOps σ) (c : Config σ) (f : File) (p : Int) :
    (exec io c (Op.readPage f p)).mgr = (readPage io c.mgr c.world f p).mgr := rfl

theorem fetchedTimes_succ (n : Nat) :
    fetchedTimes (n + 1) = exec plainStore (fetchedTimes n) (Op.readPage 1 10) := by
  unfold fetchedTimes run
  rw [List.replicate_succ', List.foldl_append]
  rfl

theorem fetchedTimes_reachable (n : Nat) :
    Reachable plainStore (fetchedTimes n).mgr (fetchedTimes n).world :=
  start_run_reachable plainStore (List.replicate n (Op.readPage 1 10)) 1 plainWorld

/-- A fetch of the page cached in `heldUnder c` hits and increments the count
as an `int`. -/
theorem readPage_heldUnder (c : Int) (w : World Nat) :
    (readPage plainStore (heldUnder c) w 1 10).status = Status.OK ∧
    (readPage plainStore (heldUnder c) w 1 10).mgr = heldUnder (wrapInt (c + 1)) := by
  simp [readPage, heldUnder, BufHashTbl.lookup, HashEntry.hasKey, BufMgr.frame, BufMgr.setFrame]

theorem fetchedTimes_one : (fetchedTimes 1).mgr = heldUnder 1 := by decide

/-- After `n + 1` fetches, short of the largest `int`, the page is held under
`n + 1` pins. -/
theorem fetchedTimes_mgr (n : Nat) (hn : n < 2147483647) :
    (fetchedTimes (n + 1)).mgr = heldUnder ((n : Int) + 1) := by
  induction n with
  | zero => exact fetchedTimes_one
  | succ n ih =>
    have hlt : n < 2147483647 := Nat.lt_of_succ_lt hn
    rw [fetchedTimes_succ]
    rw [exec_readPage_mgr]
    rw [ih hlt]
    rw [(readPage_heldUnder _ _).2]
    have hw : wrapInt ((n : Int) + 1 + 1) = ((n + 1 : Nat) : Int) + 1 := by
      have h1 : InRange ((n : Int) + 1) := by
        unfold InRange
        omega
      rw [wrapInt_succ h1 (by omega)]
      push_cast
      rfl
    rw [hw]

theorem pinAtMax_mgr : pinAtMax.mgr = heldUnder 2147483647 :=
  fetchedTimes_mgr 2147483646 (by decide)

theorem pinWrapped_eq : pinWrapped = exec plainStore pinAtMax (Op.readPage 1 10) :=
  fetchedTimes_succ 2147483647

theorem pinWrapped_mgr : pinWrapped.mgr = heldUnder (-2147483648) := by
  rw [pinWrapped_eq, exec_readPage_mgr, pinAtMax_mgr, (readPage_heldUnder _ _).2, wrapInt_max]

theorem allocBuf_heldUnder (c : Int) (hc : c ≠ 0) (w : World Nat) :
    (allocBuf plainStore (heldUnder c) w).status = Status.BUFFEREXCEEDED := by
  simp [allocBuf, allocBufLoop, heldUnder, BufMgr.advanceClock, BufMgr.frame, BufMgr.setFrame, hc]

theorem frame_heldUnder (c : Int) : (heldUnder c).frame 0 =
    { file := 1, pageNo := 10, frameNo := 0, pinCnt := c,
      dirty := false, valid := true, refbit := true } := rfl

theorem lookup_heldUnder (c : Int) : (heldUnder c).hashTable.lookup 1 10 = some 0 := rfl

/-- C4 as stated fails: `BUFFEREXCEEDED` does not need every frame to have
`pinCnt > 0`.  In the frame table of capacity 1 whose frame is valid with
`pinCnt = -1`, `allocBuf` returns `BUFFEREXCEEDED` although no frame has a
positive count; and so it does in the reachable state `pinWrapped`, where the
count is `-2147483648`. -/
theorem allocBuf_exceeded_negative_count :
    (1 ≤ (heldUnder (-1)).numBufs ∧
    (heldUnder (-1)).bufTable.length = (heldUnder (-1)).numBufs ∧
    ((heldUnder (-1)).frame 0).valid = true ∧
    ((heldUnder (-1)).frame 0).pinCnt = -1 ∧
    (allocBuf plainStore (heldUnder (-1)) plainWorld).status = Status.BUFFEREXCEEDED ∧
    ¬ (∀ i, i < (heldUnder (-1)).numBufs →
      ((heldUnder (-1)).frame i).valid = true ∧ 0 < ((heldUnder (-1)).frame i).pinCnt)) ∧
    (Reachable plainStore pinWrapped.mgr pinWrapped.world ∧
    (pinWrapped.mgr.frame 0).pinCnt = -2147483648 ∧
    (allocBuf plainStore pinWrapped.mgr pinWrapped.world).status = Status.BUFFEREXCEEDED) := by
  refine ⟨⟨by decide, by decide, by decide, by decide, by decide, by decide⟩,
    fetchedTimes_reachable 2147483648, ?_⟩
  rw [pinWrapped_mgr, allocBuf_heldUnder _ (by decide), frame_heldUnder]
  exact ⟨rfl, rfl⟩

/-- C6 (fetch hit) fails on the code at the largest `int`: after `2147483647`
fetches of page `(1,10)` without a release the index maps it to frame 0 with
`pinCnt = 2147483647`; one more `readPage(1,10)` hits, returns `OK` and leaves
`pinCnt = -2147483648`, not the old value plus one. -/
theorem readPage_hit_wraps :
    Reachable plainStore pinAtMax.mgr pinAtMax.world ∧
    pinAtMax.mgr.hashTable.lookup 1 10 = some 0 ∧
    (pinAtMax.mgr.frame 0).pinCnt = 2147483647 ∧
    (readPage plainStore pinAtMax.mgr pinAtMax.world 1 10).status = Status.OK ∧
    ((readPage plainStore pinAtMax.mgr pinAtMax.world 1 10).mgr.frame 0).pinCnt
      = -2147483648 ∧
    ((readPage plainStore pinAtMax.mgr pinAtMax.world 1 10).mgr.frame 0).pinCnt
      ≠ (pinAtMax.mgr.frame 0).pinCnt + 1 := by
  refine ⟨fetchedTimes_reachable 2147483647, ?_⟩
  rw [pinAtMax_mgr, (readPage_heldUnder _ _).1, (readPage_heldUnder _ _).2, wrapInt_max,
    lookup_heldUnder, frame_heldUnder, frame_heldUnder]
  exact ⟨rfl, rfl, rfl, rfl, by decide⟩

/-- C18 (global frame invariants) fails on the code in its first half: after
`2147483648` calls of `readPage(1,10)` on a fresh manager of capacity 1, all
public and none released, the valid frame 0 has `pinCnt = -2147483648`, which
is negative. -/
theorem pinCnt_negative_reachable :
    Reachable plainStore pinWrapped.mgr pinWrapped.world ∧
    0 < pinWrapped.mgr.numBufs ∧
    (pinWrapped.mgr.frame 0).valid = true ∧
    (pinWrapped.mgr.frame 0).pinCnt = -2147483648 ∧
    ¬ 0 ≤ (pinWrapped.mgr.frame 0).pinCnt := by
  refine ⟨fetchedTimes_reachable 2147483648, ?_⟩
  rw [pinWrapped_mgr, frame_heldUnder]
  exact ⟨by decide, rfl, rfl, by decide⟩

/-- Worked example over `recordingStore`: capacity 3; frames 0 and 2 hold
`(1,10)` and `(1,30)`, dirty and released, frame 1 holds `(1,20)`, dirty and
still pinned.  A flush of file `1` stops at frame 1 with `PAGEPINNED`; the
store has received the bytes of frame 0 and nothing else. -/
theorem flushFile_recorded :
    (flushFile recordingStore
      (run recordingStore
        [Op.readPage 1 10, Op.readPage 1 20, Op.readPage 1 30, Op.unPinPage 1 10 true,
          Op.readPage 1 20, Op.unPinPage 1 20 true, Op.unPinPage 1 30 true]
        (start 3 blankRecord)).mgr blankRecord 1).status = Status.PAGEPINNED ∧
    (flushFile recordingStore
      (run recordingStore
        [Op.readPage 1 10, Op.readPage 1 20, Op.readPage 1 30, Op.unPinPage 1 10 true,
          Op.readPage 1 20, Op.unPinPage 1 20 true, Op.unPinPage 1 30 true]
        (start 3 blankRecord)).mgr blankRecord 1).world.store = [(1, 10, 1010)] := by
  decide

end BufferManager
